import Mathlib

/-!
# IOHIDDevice: element table, report dispatch chains, report routing, transactions

A shallow embedding of `IOHIDFamily/IOHIDDevice.cpp`.  Elements live in the
flat element array and are addressed by index (the cookie); every pointer of the
C++ code (`_nextReportHandler`, the dispatch table heads, parent links) is an
optional index into that array.  Loops over a dispatch chain take a fuel
argument: a walk that does not reach the end of the chain returns `none`.
-/

namespace IOHIDFamily

/-! ## Constants and enumerations -/

/-- Number of slots in the report handler dispatch table. -/
def kReportHandlerSlots : Nat := 8

/-- Number of report types (input, output, feature). -/
def kIOHIDReportTypeCount : Nat := 3

/-- Convert from a report ID to a dispatch table slot index:
`(id) & (kReportHandlerSlots - 1)`. -/
def GetReportHandlerSlot (id : Nat) : Nat := id &&& (kReportHandlerSlots - 1)

/-- Report types, the second index of the dispatch table. -/
inductive IOHIDReportType where
  | kIOHIDReportTypeInput
  | kIOHIDReportTypeOutput
  | kIOHIDReportTypeFeature
deriving DecidableEq, Repr

/-- Return codes used by the device. -/
inductive IOReturn where
  | kIOReturnSuccess
  | kIOReturnError
  | kIOReturnNoMemory
  | kIOReturnBadArgument
  | kIOReturnNotReady
  | kIOReturnNotFound
  | kIOReturnUnsupported
deriving DecidableEq, Repr

/-- Transaction state of an element. -/
inductive IOHIDTransactionState where
  | kIOHIDTransactionStateIdle
  | kIOHIDTransactionStatePending
deriving DecidableEq, Repr

/-- Element types handed to the element factories by `createElementHierarchy`. -/
inductive IOHIDElementType where
  | kIOHIDElementTypeInput_Misc
  | kIOHIDElementTypeInput_Button
  | kIOHIDElementTypeOutput
  | kIOHIDElementTypeFeature
  | kIOHIDElementTypeCollection
deriving DecidableEq, Repr

open IOHIDReportType IOReturn IOHIDTransactionState IOHIDElementType

/-! ## Elements -/

/-- Modelled from the spec: the class `IOHIDElement` is declared outside this
file.  One element of the element array; the fields are the attributes the spec
gives an element and the device code reads or writes through accessors. -/
structure IOHIDElement where
  /-- Element type given at creation. -/
  type : IOHIDElementType
  /-- Report ID of the report the element contributes to (`getReportID`). -/
  reportID : Nat
  /-- First bit of the element in its report. -/
  reportStartBit : Nat
  /-- Width of the element in its report, in bits. -/
  reportBits : Nat
  /-- Size of the whole report in bits, set by `setReportSize` on the head
  element of the report. -/
  reportSize : Nat
  /-- Bytes of value memory the element needs (`getElementValueSize`). -/
  elementValueSize : Nat
  /-- Cached value. -/
  value : Nat
  /-- Transaction state (`getTransactionState` / `setTransactionState`). -/
  transactionState : IOHIDTransactionState
  /-- Next element of the dispatch chain (`getNextReportHandler`). -/
  nextReportHandler : Option Nat
  /-- Parent element. -/
  parent : Option Nat
  /-- Children, in the order they were added. -/
  childArray : List Nat
  /-- Event queues attached to the element. -/
  queues : List Nat
  /-- Offset of the element value in the shared value memory, once assigned by
  `setMemoryForElementValue`. -/
  valueLocation : Option Nat
deriving DecidableEq, Repr

/-- Modelled from the spec: `IOHIDElement::getReportType` is not part of this
file.  An element "knows its report contribution (ID, type, bit range) if any":
input elements contribute to input reports, output elements to output reports,
feature elements to feature reports, and collections to no report. -/
def IOHIDElement.getReportType (e : IOHIDElement) : Option IOHIDReportType :=
  match e.type with
  | kIOHIDElementTypeInput_Misc => some kIOHIDReportTypeInput
  | kIOHIDElementTypeInput_Button => some kIOHIDReportTypeInput
  | kIOHIDElementTypeOutput => some kIOHIDReportTypeOutput
  | kIOHIDElementTypeFeature => some kIOHIDReportTypeFeature
  | kIOHIDElementTypeCollection => none

/-- Modelled from the spec: the accessor `IOHIDElement::setNextReportHandler`
is declared outside this file; it stores the next-in-dispatch-chain
reference. -/
def IOHIDElement.setNextReportHandler (e : IOHIDElement) (next : Option Nat) : IOHIDElement :=
  { e with nextReportHandler := next }

/-- Modelled from the spec: the accessor `IOHIDElement::setTransactionState`
is declared outside this file; it stores the transaction state. -/
def IOHIDElement.setTransactionState (e : IOHIDElement) (s : IOHIDTransactionState) :
    IOHIDElement :=
  { e with transactionState := s }

/-! ## The device -/

/-- The fields of `IOHIDDevice` used by the element and report code. -/
structure IOHIDDevice where
  /-- The flat element table `_elementArray`. -/
  elementArray : List IOHIDElement
  /-- The dispatch table `_reportHandlers[slot].head[type]`. -/
  reportHandlers : Nat → IOHIDReportType → Option Nat
  /-- Index of the first data element, `_dataElementIndex`. -/
  dataElementIndex : Nat
  /-- Number of reports declared by the descriptor, `_reportCount`. -/
  reportCount : Nat
  /-- The flag `_readyForInputReports`. -/
  readyForInputReports : Bool
  /-- Largest input report in bytes. -/
  maxInputReportSize : Nat
  /-- Largest output report in bytes. -/
  maxOutputReportSize : Nat
  /-- Largest feature report in bytes. -/
  maxFeatureReportSize : Nat
  /-- Capacity of the value memory once it has been created. -/
  elementValuesDescriptor : Option Nat

/-- `GetElement(index)`: `_elementArray->getObject(index)`, null when the index
is past the end. -/
def GetElement (dev : IOHIDDevice) (index : Nat) : Option IOHIDElement :=
  dev.elementArray[index]?

/-- `GetHeadElement(slot, type)`. -/
def GetHeadElement (dev : IOHIDDevice) (slot : Nat) (type : IOHIDReportType) : Option Nat :=
  dev.reportHandlers slot type

/-- Dispatch table update `_reportHandlers[slot].head[type] = head`. -/
def setHeadElement (handlers : Nat → IOHIDReportType → Option Nat) (slot : Nat)
    (type : IOHIDReportType) (head : Option Nat) : Nat → IOHIDReportType → Option Nat :=
  fun s t => if s = slot ∧ t = type then head else handlers s t

/-- A device before any element is registered: empty element array and a zeroed
dispatch table. -/
def emptyDevice : IOHIDDevice where
  elementArray := []
  reportHandlers := fun _ _ => none
  dataElementIndex := 0
  reportCount := 0
  readyForInputReports := false
  maxInputReportSize := 0
  maxOutputReportSize := 0
  maxFeatureReportSize := 0
  elementValuesDescriptor := none

/-! ## registerElement -/

/-- `IOHIDDevice::registerElement`.  `setObjectOk` is the outcome of
`_elementArray->setObject(index, element)`.  Returns the success flag, the
cookie and the new device; on failure nothing changes and no cookie is
written. -/
def registerElement (dev : IOHIDDevice) (element : IOHIDElement) (setObjectOk : Bool) :
    Bool × Option Nat × IOHIDDevice :=
  let index := dev.elementArray.length
  if setObjectOk != true then
    (false, none, dev)
  else
    match element.getReportType with
    | some reportType =>
      let slot := GetReportHandlerSlot element.reportID
      let element1 :=
        match dev.reportHandlers slot reportType with
        | some head => element.setNextReportHandler (some head)
        | none => element
      (true, some index,
        { dev with
          elementArray := dev.elementArray ++ [element1]
          reportHandlers := setHeadElement dev.reportHandlers slot reportType (some index) })
    | none =>
      (true, some index, { dev with elementArray := dev.elementArray ++ [element] })

/-- A sequence of `registerElement` calls, each with its own `setObject`
outcome. -/
def registerElements (dev : IOHIDDevice) : List (IOHIDElement × Bool) → IOHIDDevice
  | [] => dev
  | (e, ok) :: rest => registerElements (registerElement dev e ok).2.2 rest

/-! ## Walking a dispatch chain -/

/-- The loop `while ( element ) { ... }` over a dispatch chain.  `step` is the
loop body: from the index of the current element, the element and the
loop-carried locals it gives the updated element, the updated locals and the
next element pointer.  Returns `none` when the fuel runs out before the chain
ends or a pointer leaves the element array. -/
def walkChain {σ : Type} (step : Nat → IOHIDElement → σ → IOHIDElement × σ × Option Nat) :
    Nat → List IOHIDElement → Option Nat → σ → Option (List IOHIDElement × σ)
  | _, arr, none, s => some (arr, s)
  | 0, _, some _, _ => none
  | fuel + 1, arr, some i, s =>
    match arr[i]? with
    | none => none
    | some e =>
      let r := step i e s
      walkChain step fuel (arr.set i r.1) r.2.2 r.2.1

/-- The elements of a chain in walking order, following `nextReportHandler`. -/
def chainFrom : Nat → List IOHIDElement → Option Nat → Option (List Nat)
  | _, _, none => some []
  | 0, _, some _ => none
  | fuel + 1, arr, some i =>
    match arr[i]? with
    | none => none
    | some e => (chainFrom fuel arr e.nextReportHandler).map (fun l => i :: l)

/-! ## Report routing -/

/-- Modelled from the spec: part of the bit extraction of `IOHIDElement`, which
is not in this file.  The value of a byte buffer read as one little-endian
number. -/
def bufferToNat : List Nat → Nat
  | [] => 0
  | b :: rest => b % 256 + 256 * bufferToNat rest

/-- Modelled from the spec: the bit extraction of `IOHIDElement`, which is not
in this file ("bit-level, not byte-aligned").  Bits `startBit .. startBit +
bits - 1` of the buffer, bit 0 being the least significant bit of byte 0. -/
def readReportBits (reportData : List Nat) (startBit bits : Nat) : Nat :=
  (bufferToNat reportData / 2 ^ startBit) % 2 ^ bits

/-- Modelled from the spec: `IOHIDElement::processReport` is not part of this
file.  The "consume report bits" operation "verifies the element's own report ID
matches (skip otherwise), extracts its bit range from the buffer ..., compares
against its previous cached value, updates the Value Store slice, and reports
whether the value changed"; the transaction state "flips away from Pending as a
side effect of routing".  The third component is the next chain element written
through the `next` out-parameter. -/
def IOHIDElement.processReport (e : IOHIDElement) (reportID : Nat) (reportData : List Nat)
    (_reportBits : Nat) : Bool × IOHIDElement × Option Nat :=
  if e.reportID != reportID then
    (false, e, e.nextReportHandler)
  else
    let v := readReportBits reportData e.reportStartBit e.reportBits
    (v != e.value,
      { e with value := v, transactionState := kIOHIDTransactionStateIdle },
      e.nextReportHandler)

/-- What `handleReport` produced: the return code, the local `changed`, the
device afterwards, and the elements whose `processReport` was invoked, in call
order. -/
structure HandleReportResult where
  ret : IOReturn
  changed : Bool
  dev : IOHIDDevice
  processed : List Nat

/-- The report ID `handleReport` dispatches on:
`( _reportCount > 1 ) ? *((UInt8 *) reportData) : 0`. -/
def handleReportID (dev : IOHIDDevice) (reportData : List Nat) : Nat :=
  if dev.reportCount > 1 then reportData.headD 0 % 256 else 0

/-- Body of the `while ( element )` loop of `handleReport`:
`changed |= element->processReport( reportID, reportData, reportLength << 3,
&currentTime, &element )`.  The loop state is `changed` and the list of
elements processed so far. -/
def handleReportStep (reportID : Nat) (reportData : List Nat) (i : Nat)
    (e : IOHIDElement) (s : Bool × List Nat) : IOHIDElement × (Bool × List Nat) × Option Nat :=
  let r := e.processReport reportID reportData (reportData.length * 8)
  (r.2.1, (s.1 || r.1, s.2 ++ [i]), r.2.2)

/-- `IOHIDDevice::handleReport`.  `reportData` is the content of the memory
descriptor (its length is `reportLength`), `segmentSize` the size of its first
segment and `mallocOk` the outcome of the copy-buffer `IOMalloc`.  The result is
`none` when the chain walk does not end. -/
def handleReport (dev : IOHIDDevice) (reportData : List Nat) (segmentSize : Nat)
    (mallocOk : Bool) (reportType : IOHIDReportType) : Option HandleReportResult :=
  let reportLength := reportData.length
  if reportLength = 0 then
    some { ret := kIOReturnBadArgument, changed := false, dev := dev, processed := [] }
  else if segmentSize ≠ reportLength ∧ mallocOk = false then
    some { ret := kIOReturnNoMemory, changed := false, dev := dev, processed := [] }
  else if dev.readyForInputReports then
    let reportID := handleReportID dev reportData
    match walkChain (handleReportStep reportID reportData) dev.elementArray.length
        dev.elementArray (GetHeadElement dev (GetReportHandlerSlot reportID) reportType)
        (false, []) with
    | none => none
    | some (arr, s) =>
      some { ret := kIOReturnSuccess, changed := s.1,
             dev := { dev with elementArray := arr }, processed := s.2 }
  else
    some { ret := kIOReturnNotReady, changed := false, dev := dev, processed := [] }

/-! ## Transactions -/

/-- The loop `SetCookiesTransactionState(element, cookies, count, state, index,
offset)` with `count` the length of `cookies`: every cookie from position
`offset` on that resolves to an element gets the state.  The second component is
the value the loop leaves in `index`. -/
def SetCookiesTransactionState (arr : List IOHIDElement) (cookies : List Nat)
    (state : IOHIDTransactionState) (offset : Nat) : List IOHIDElement × Nat :=
  ((cookies.drop offset).foldl
      (fun a c =>
        match a[c]? with
        | none => a
        | some element => a.set c (element.setTransactionState state))
      arr,
    max offset cookies.length)

/-- The transport below the device: the overrides of the virtual functions
`getReport` and `setReport` by the transport driver.  `getReport n type id` is
the outcome of the call of `getReport` made after `n` earlier calls: the
return code and the content of the report buffer after the call.  `setReport n
data type id` is the outcome of the call of `setReport` made after `n` earlier
calls. -/
structure Transport where
  getReport : Nat → IOHIDReportType → Nat → IOReturn × List Nat
  setReport : Nat → List Nat → IOHIDReportType → Nat → IOReturn

/-- `IOHIDDevice::getReport` and `IOHIDDevice::setReport` of the base class:
both return `kIOReturnUnsupported`. -/
def baseTransport : Transport where
  getReport := fun _ _ _ => (kIOReturnUnsupported, [])
  setReport := fun _ _ _ _ => kIOReturnUnsupported

/-- Locals of the `for` loop of `updateElementValues` when it is left: the
device, `ret`, `index`, and the `(type, ID)` arguments of the `getReport` calls
made so far. -/
structure UpdateLoopState where
  dev : IOHIDDevice
  ret : IOReturn
  index : Nat
  fetched : List (IOHIDReportType × Nat)

/-- The `for (index = 0; index < cookieCount; index++)` loop of
`updateElementValues`, over the cookies not visited yet.  A `break` leaves
`index` at the position of the failing cookie. -/
def updateElementValuesLoop (tr : Transport) :
    List Nat → UpdateLoopState → Option UpdateLoopState
  | [], st => some st
  | cookie :: rest, st =>
    match GetElement st.dev cookie with
    | none => updateElementValuesLoop tr rest { st with index := st.index + 1 }
    | some element =>
      if element.transactionState ≠ kIOHIDTransactionStatePending then
        updateElementValuesLoop tr rest { st with index := st.index + 1 }
      else
        match element.getReportType with
        | none => updateElementValuesLoop tr rest { st with index := st.index + 1 }
        | some reportType =>
          let reportID := element.reportID
          let got := tr.getReport st.fetched.length reportType reportID
          let fetched := st.fetched ++ [(reportType, reportID)]
          if got.1 ≠ kIOReturnSuccess then
            some { st with ret := got.1, fetched := fetched }
          else
            match handleReport st.dev got.2 got.2.length true reportType with
            | none => none
            | some r =>
              if r.ret ≠ kIOReturnSuccess then
                some { dev := r.dev, ret := r.ret, index := st.index, fetched := fetched }
              else
                updateElementValuesLoop tr rest
                  { dev := r.dev, ret := r.ret, index := st.index + 1, fetched := fetched }

/-- What `updateElementValues` produced: return code, device afterwards, and
the `getReport` calls made. -/
structure UpdateResult where
  ret : IOReturn
  dev : IOHIDDevice
  fetched : List (IOHIDReportType × Nat)

/-- `IOHIDDevice::updateElementValues`.  `reportAllocOk` is the outcome of the
scratch buffer allocation `IOBufferMemoryDescriptor::withCapacity`. -/
def updateElementValues (dev : IOHIDDevice) (cookies : List Nat) (reportAllocOk : Bool)
    (tr : Transport) : Option UpdateResult :=
  let pending := SetCookiesTransactionState dev.elementArray cookies
    kIOHIDTransactionStatePending 0
  let dev1 := { dev with elementArray := pending.1 }
  let index := pending.2
  if reportAllocOk = false then
    some { ret := kIOReturnNoMemory,
           dev := { dev1 with elementArray :=
             (SetCookiesTransactionState dev1.elementArray cookies
               kIOHIDTransactionStateIdle index).1 },
           fetched := [] }
  else
    match updateElementValuesLoop tr cookies
        { dev := dev1, ret := kIOReturnError, index := 0, fetched := [] } with
    | none => none
    | some st =>
      some { ret := st.ret,
             dev := { st.dev with elementArray :=
               (SetCookiesTransactionState st.dev.elementArray cookies
                 kIOHIDTransactionStateIdle st.index).1 },
             fetched := st.fetched }

/-- Modelled from the spec: part of the bit insertion of `IOHIDElement`, which
is not in this file.  A buffer of `len` bytes holding the little-endian number
`n`. -/
def natToBuffer (n len : Nat) : List Nat :=
  (List.range len).map (fun k => (n / 256 ^ k) % 256)

/-- Modelled from the spec: the bit insertion of `IOHIDElement`, which is not in
this file.  The buffer with bits `startBit .. startBit + bits - 1` replaced by
the low `bits` bits of `value`; the buffer keeps its length. -/
def writeReportBits (reportData : List Nat) (startBit bits value : Nat) : List Nat :=
  let old := bufferToNat reportData
  let field := (old / 2 ^ startBit) % 2 ^ bits
  natToBuffer (old - field * 2 ^ startBit + (value % 2 ^ bits) * 2 ^ startBit) reportData.length

/-- Modelled from the spec: `IOHIDElement::createReport` is not part of this
file.  The "serialize into buffer" operation "writes only if its own report ID
matches, and signals back the finished length when it is the terminal/head
contributor for that report"; serializing services the element, so it leaves
the Pending state.  The components are the element afterwards, the buffer
afterwards, the length written through `reportLength` (0 when it is left
alone) and the next chain element written through `next`. -/
def IOHIDElement.createReport (e : IOHIDElement) (reportID : Nat) (reportData : List Nat) :
    IOHIDElement × List Nat × Nat × Option Nat :=
  if e.reportID != reportID then
    (e, reportData, 0, e.nextReportHandler)
  else
    ({ e with transactionState := kIOHIDTransactionStateIdle },
      writeReportBits reportData e.reportStartBit e.reportBits e.value,
      (e.reportSize + 7) / 8,
      e.nextReportHandler)

/-- An `IOBufferMemoryDescriptor`: the bytes of its capacity and its current
length. -/
structure ReportBuffer where
  bytes : List Nat
  length : Nat
deriving DecidableEq, Repr

/-- Body of the `while ( element )` loop of `postElementValues`: serialize the
element, and take over the report length when it was set.  The local
`reportLength` is zero whenever `createReport` is called, being reset right
after each use. -/
def postElementValuesStep (reportID : Nat) (_i : Nat) (e : IOHIDElement) (report : ReportBuffer) :
    IOHIDElement × ReportBuffer × Option Nat :=
  let r := e.createReport reportID report.bytes
  let reportLength := r.2.2.1
  (r.1,
    if reportLength ≠ 0 then { bytes := r.2.1, length := reportLength }
    else { bytes := r.2.1, length := report.length },
    r.2.2.2)

/-- Locals of the first `for` loop of `postElementValues` when it is left.
`reportType` and `reportID` are `none` while still unassigned. -/
structure PostLoopState where
  dev : IOHIDDevice
  ret : IOReturn
  index : Nat
  reportType : Option IOHIDReportType
  reportID : Option Nat
  pendingReports : List ReportBuffer

/-- The `for (index = 0; index < cookieCount; index ++)` loop of
`postElementValues`, over the cookies not visited yet.  `reportAllocOk n` is
the outcome of the buffer allocation made when `n` reports are pending. -/
def postElementValuesLoop (reportAllocOk : Nat → Bool) (maxReportLength : Nat) :
    List Nat → PostLoopState → Option PostLoopState
  | [], st => some st
  | cookie :: rest, st =>
    match GetElement st.dev cookie with
    | none =>
      postElementValuesLoop reportAllocOk maxReportLength rest { st with index := st.index + 1 }
    | some cookieElement =>
      if cookieElement.transactionState ≠ kIOHIDTransactionStatePending then
        postElementValuesLoop reportAllocOk maxReportLength rest
          { st with index := st.index + 1 }
      else
        match cookieElement.getReportType with
        | none =>
          postElementValuesLoop reportAllocOk maxReportLength rest
            { st with index := st.index + 1 }
        | some reportType =>
          if reportAllocOk st.pendingReports.length = false then
            some { st with ret := kIOReturnNoMemory, reportType := some reportType }
          else
            let reportID := cookieElement.reportID
            match walkChain (postElementValuesStep reportID) st.dev.elementArray.length
                st.dev.elementArray
                (GetHeadElement st.dev (GetReportHandlerSlot reportID) reportType)
                { bytes := List.replicate maxReportLength 0, length := maxReportLength } with
            | none => none
            | some (arr, report) =>
              let report1 : ReportBuffer :=
                if st.dev.reportCount > 1 then
                  { bytes := report.bytes.set 0 reportID, length := report.length }
                else report
              postElementValuesLoop reportAllocOk maxReportLength rest
                { dev := { st.dev with elementArray := arr },
                  ret := st.ret,
                  index := st.index + 1,
                  reportType := some reportType,
                  reportID := some reportID,
                  pendingReports := st.pendingReports ++ [report1] }

/-- The second `for` loop of `postElementValues`: send the pending reports in
turn, all with the same `reportType` and `reportID` locals, stopping at the
first failure.  The last component lists the `setReport` calls made. -/
def postElementValuesSend (tr : Transport) (reportType : IOHIDReportType) (reportID : Nat) :
    List ReportBuffer → IOReturn → List (List Nat × IOHIDReportType × Nat) →
      IOReturn × List (List Nat × IOHIDReportType × Nat)
  | [], ret, sent => (ret, sent)
  | report :: rest, _, sent =>
    let data := report.bytes.take report.length
    let ret := tr.setReport sent.length data reportType reportID
    let sent1 := sent ++ [(data, reportType, reportID)]
    if ret ≠ kIOReturnSuccess then (ret, sent1)
    else postElementValuesSend tr reportType reportID rest ret sent1

/-- What `postElementValues` produced: return code, device afterwards, the
buffers built and the `setReport` calls made. -/
structure PostResult where
  ret : IOReturn
  dev : IOHIDDevice
  pendingReports : List ReportBuffer
  sent : List (List Nat × IOHIDReportType × Nat)

/-- `IOHIDDevice::postElementValues`.  `pendingReportsOk` is the outcome of
`OSArray::withCapacity(1)`; when it fails the code goes on to call
`pendingReports->getCount()` on the null array, which gives no result. -/
def postElementValues (dev : IOHIDDevice) (cookies : List Nat) (pendingReportsOk : Bool)
    (reportAllocOk : Nat → Bool) (tr : Transport) : Option PostResult :=
  if cookies.length = 0 then
    some { ret := kIOReturnError, dev := dev, pendingReports := [], sent := [] }
  else
    let pending := SetCookiesTransactionState dev.elementArray cookies
      kIOHIDTransactionStatePending 0
    let dev1 := { dev with elementArray := pending.1 }
    if pendingReportsOk = false then
      none
    else
      let maxReportLength := max dev.maxOutputReportSize dev.maxFeatureReportSize
      match postElementValuesLoop reportAllocOk maxReportLength cookies
          { dev := dev1, ret := kIOReturnError, index := 0, reportType := none,
            reportID := none, pendingReports := [] } with
      | none => none
      | some st =>
        let dev2 := { st.dev with elementArray :=
          (SetCookiesTransactionState st.dev.elementArray cookies
            kIOHIDTransactionStateIdle st.index).1 }
        match st.reportType, st.reportID with
        | some reportType, some reportID =>
          let r := postElementValuesSend tr reportType reportID st.pendingReports st.ret []
          some { ret := r.1, dev := dev2, pendingReports := st.pendingReports, sent := r.2 }
        | _, _ =>
          some { ret := st.ret, dev := dev2, pendingReports := st.pendingReports, sent := [] }

/-! ## Value memory -/

/-- The three report types in the order of the inner `for` loops
(`type = 0 .. kIOHIDReportTypeCount - 1`). -/
def reportTypes : List IOHIDReportType :=
  [kIOHIDReportTypeInput, kIOHIDReportTypeOutput, kIOHIDReportTypeFeature]

/-- The `(slot, type)` pairs in the order of the nested `for` loops of
`createMemoryForElementValues`: slot-major, then report type. -/
def dispatchOrder : List (Nat × IOHIDReportType) :=
  (List.range kReportHandlerSlots).flatMap (fun slot => reportTypes.map (fun type => (slot, type)))

/-- The nested loops `for slot, for type, while ( element )`: walk every chain
of the dispatch table in turn with the same loop body. -/
def walkAllChains {σ : Type} (step : Nat → IOHIDElement → σ → IOHIDElement × σ × Option Nat)
    (fuel : Nat) (handlers : Nat → IOHIDReportType → Option Nat) :
    List (Nat × IOHIDReportType) → List IOHIDElement → σ → Option (List IOHIDElement × σ)
  | [], arr, s => some (arr, s)
  | (slot, type) :: rest, arr, s =>
    match walkChain step fuel arr (handlers slot type) s with
    | none => none
    | some r => walkAllChains step fuel handlers rest r.1 r.2

/-- Body of the first chain loop: `capacity += element->getElementValueSize()`
in 32-bit arithmetic. -/
def capacityStep (_i : Nat) (e : IOHIDElement) (capacity : Nat) :
    IOHIDElement × Nat × Option Nat :=
  (e, (capacity + e.elementValueSize) % 2 ^ 32, e.nextReportHandler)

/-- Body of the second chain loop.  The state is the offset `buffer - start`
and whether `assert ( buffer < (start + capacity) )` has held at every
iteration so far; the element records the offset handed to
`setMemoryForElementValue`. -/
def assignStep (capacity : Nat) (_i : Nat) (e : IOHIDElement) (s : Nat × Bool) :
    IOHIDElement × (Nat × Bool) × Option Nat :=
  ({ e with valueLocation := some s.1 },
    (s.1 + e.elementValueSize, s.2 && decide (s.1 < capacity)),
    e.nextReportHandler)

/-- What `createMemoryForElementValues` produced: the capacity of the
descriptor, or `none` for the null descriptor, the device afterwards, and
whether the assertion held throughout. -/
structure ValueMemory where
  descriptor : Option Nat
  dev : IOHIDDevice
  assertHeld : Bool

/-- `IOHIDDevice::createMemoryForElementValues`.  `descriptorOk` is the outcome
of `IOBufferMemoryDescriptor::withOptions`. -/
def createMemoryForElementValues (dev : IOHIDDevice) (descriptorOk : Bool) :
    Option ValueMemory :=
  match walkAllChains capacityStep dev.elementArray.length dev.reportHandlers dispatchOrder
      dev.elementArray 0 with
  | none => none
  | some (_, capacity) =>
    if descriptorOk = false then
      some { descriptor := none, dev := dev, assertHeld := true }
    else
      match walkAllChains (assignStep capacity) dev.elementArray.length dev.reportHandlers
          dispatchOrder dev.elementArray (0, true) with
      | none => none
      | some (arr, s) =>
        some { descriptor := some capacity,
               dev := { dev with elementArray := arr },
               assertHeld := s.2 }

/-! ## Report sizes -/

/-- The chain loop of `IOHIDDevice::setReportSize`: the first element of the
chain with the given report ID gets the report size. -/
def setReportSizeLoop (reportID numberOfBits : Nat) :
    Nat → List IOHIDElement → Option Nat → Option (List IOHIDElement × Bool)
  | _, arr, none => some (arr, false)
  | 0, _, some _ => none
  | fuel + 1, arr, some i =>
    match arr[i]? with
    | none => none
    | some e =>
      if e.reportID = reportID then
        some (arr.set i { e with reportSize := numberOfBits }, true)
      else
        setReportSizeLoop reportID numberOfBits fuel arr e.nextReportHandler

/-- `IOHIDDevice::setReportSize`. -/
def setReportSize (dev : IOHIDDevice) (reportID : Nat) (reportType : IOHIDReportType)
    (numberOfBits : Nat) : Option (Bool × IOHIDDevice) :=
  (setReportSizeLoop reportID numberOfBits dev.elementArray.length dev.elementArray
      (GetHeadElement dev (GetReportHandlerSlot reportID) reportType)).map
    (fun r => (r.2, { dev with elementArray := r.1 }))

/-! ## The capability source -/

/-- Report types of the HID parser library. -/
inductive HIDReportType where
  | kHIDInputReport
  | kHIDOutputReport
  | kHIDFeatureReport
deriving DecidableEq, Repr

open HIDReportType

/-- Status code `kHIDSuccess` of the HID parser library. -/
def kHIDSuccess : Int := 0

/-- `HIDCapabilities`: the counts and report byte lengths. -/
structure HIDCapabilities where
  inputReportByteLength : Nat
  outputReportByteLength : Nat
  featureReportByteLength : Nat
  numberCollectionNodes : Nat
  numberInputButtonCaps : Nat
  numberInputValueCaps : Nat
  numberOutputButtonCaps : Nat
  numberOutputValueCaps : Nat
  numberFeatureButtonCaps : Nat
  numberFeatureValueCaps : Nat
deriving DecidableEq, Repr

/-- `HIDCollectionNode`: a collection with the index of its parent. -/
structure HIDCollectionNode where
  parent : Nat
deriving DecidableEq, Repr

/-- `HIDButtonCapabilities`: a button with its parent collection, report ID and
bit offset. -/
structure HIDButtonCapabilities where
  collection : Nat
  reportID : Nat
  startBit : Nat
deriving DecidableEq, Repr

/-- `HIDValueCapabilities`: a value with its parent collection, report ID, bit
offset and bit width. -/
structure HIDValueCapabilities where
  collection : Nat
  reportID : Nat
  startBit : Nat
  bitSize : Nat
deriving DecidableEq, Repr

/-- `HIDReportSizes`: the bit counts of one report ID. -/
structure HIDReportSizes where
  reportID : Nat
  inputBitCount : Nat
  outputBitCount : Nat
  featureBitCount : Nat
deriving DecidableEq, Repr

/-- Modelled from the spec: the pre-parsed descriptor `HIDPreparsedData` and its
accessors belong to the parser library, not to this file.  The capability source
"exposes, for a parsed descriptor, counts and flattened arrays of collection
nodes, button capabilities, and value capabilities"; each accessor also has a
status code. -/
structure HIDPreparsedData where
  capabilitiesStatus : Int
  caps : HIDCapabilities
  collectionNodesStatus : Int
  collectionNodes : List HIDCollectionNode
  buttonCapsStatus : HIDReportType → Int
  buttonCaps : HIDReportType → List HIDButtonCapabilities
  valueCapsStatus : HIDReportType → Int
  valueCaps : HIDReportType → List HIDValueCapabilities
  reportCount : Nat
  reports : List HIDReportSizes

/-- Modelled from the spec: `HIDGetCollectionNodes` is part of the parser
library.  It fills the caller's array with at most `count` collection nodes "in
capability-source order" and reports how many it wrote. -/
def HIDGetCollectionNodes (count : Nat) (parseData : HIDPreparsedData) :
    Int × List HIDCollectionNode :=
  (parseData.collectionNodesStatus, parseData.collectionNodes.take count)

/-- Modelled from the spec: `HIDGetButtonCapabilities` is part of the parser
library.  It fills the caller's array with at most `count` button capabilities
of the report type, in capability-source order. -/
def HIDGetButtonCapabilities (hidReportType : HIDReportType) (count : Nat)
    (parseData : HIDPreparsedData) : Int × List HIDButtonCapabilities :=
  (parseData.buttonCapsStatus hidReportType, (parseData.buttonCaps hidReportType).take count)

/-- Modelled from the spec: `HIDGetValueCapabilities` is part of the parser
library.  It fills the caller's array with at most `count` value capabilities of
the report type, in capability-source order. -/
def HIDGetValueCapabilities (hidReportType : HIDReportType) (count : Nat)
    (parseData : HIDPreparsedData) : Int × List HIDValueCapabilities :=
  (parseData.valueCapsStatus hidReportType, (parseData.valueCaps hidReportType).take count)

/-- Outcomes of the allocations made while the element hierarchy is built, and
the value size of an element as a function of its width in bits
(`getElementValueSize` is not part of this file). -/
structure BuildEnv where
  /-- `OSArray::withCapacity` for the element array. -/
  elementArrayOk : Bool
  /-- `IOMalloc` of the collection node array. -/
  collectionsMallocOk : Bool
  /-- `IOMalloc` of the button capability array of a report type. -/
  buttonsMallocOk : HIDReportType → Bool
  /-- `IOMalloc` of the value capability array of a report type. -/
  valuesMallocOk : HIDReportType → Bool
  /-- Creation and registration of the element that would get the given
  index. -/
  elementOk : Nat → Bool
  /-- `IOBufferMemoryDescriptor::withOptions` for the value memory. -/
  descriptorOk : Bool
  /-- Value size in bytes of an element of the given width. -/
  valueSize : Nat → Nat

/-! ## Element factories -/

/-- Modelled from the spec: the initialisation of an `IOHIDElement`, which is
not in this file.  A new element of the given type: idle, without value, chain
successor, parent, children or subscribers. -/
def newElement (type : IOHIDElementType) (reportID startBit bits valueSize : Nat) :
    IOHIDElement where
  type := type
  reportID := reportID
  reportStartBit := startBit
  reportBits := bits
  reportSize := 0
  elementValueSize := valueSize
  value := 0
  transactionState := kIOHIDTransactionStateIdle
  nextReportHandler := none
  parent := none
  childArray := []
  queues := []
  valueLocation := none

/-- Modelled from the spec: first half of `IOHIDElement::addChildElement`.  The
child reference stored in the parent: the child index joins the parent's
ordered sequence of children. -/
def recordChild (arr : List IOHIDElement) (parentIndex childIndex : Nat) : List IOHIDElement :=
  match arr[parentIndex]? with
  | none => arr
  | some p => arr.set parentIndex { p with childArray := p.childArray ++ [childIndex] }

/-- Modelled from the spec: second half of `IOHIDElement::addChildElement`.
The parent reference stored in the child. -/
def recordParent (arr : List IOHIDElement) (parentIndex childIndex : Nat) : List IOHIDElement :=
  match arr[childIndex]? with
  | none => arr
  | some c => arr.set childIndex { c with parent := some parentIndex }

/-- Modelled from the spec: the effect of an `IOHIDElement::addChildElement`
that is accepted; the function is not part of this file.  Attaching a child
records the child in the parent's ordered sequence of child references and the
parent in the child's parent reference. -/
def attachChild (arr : List IOHIDElement) (parentIndex childIndex : Nat) :
    List IOHIDElement :=
  recordParent (recordChild arr parentIndex childIndex) parentIndex childIndex

/-- Modelled from the spec: the cycle test behind the result of
`IOHIDElement::addChildElement`, which is not part of this file.  Whether
`target` is met on the way from element `i` up the parent references, `i`
included.  A way that has not ended after `fuel` steps runs in a cycle that is
there already, and counts as met. -/
def onParentPath : Nat → List IOHIDElement → Nat → Nat → Bool
  | 0, _, _, _ => true
  | fuel + 1, arr, i, target =>
    if i = target then true
    else
      match arr[i]? with
      | none => false
      | some e =>
        match e.parent with
        | none => false
        | some q => onParentPath fuel arr q target

/-- Modelled from the spec: `IOHIDElement::addChildElement` is not part of this
file.  The builder "fails the whole build if any parent index is out of range
or a cycle is introduced", and after the range test of `linkToParent` this call
is all that is left to fail: the parent refuses a child that is the parent
itself or one of its ancestors, leaving both as they are, and attaches any other
child.  The flag is the result of the call. -/
def addChildElement (arr : List IOHIDElement) (parentIndex childIndex : Nat) :
    Bool × List IOHIDElement :=
  if onParentPath arr.length arr parentIndex childIndex then (false, arr)
  else (true, attachChild arr parentIndex childIndex)

/-- Modelled from the spec: `IOHIDElement::collectionElement` is not part of
this file.  The builder "instantiates one Element per capability record"; the
new element registers itself with its owner.  `none` is the null result. -/
def collectionElement (env : BuildEnv) (owner : IOHIDDevice) (type : IOHIDElementType)
    (_collection : HIDCollectionNode) : Option IOHIDDevice :=
  let r := registerElement owner (newElement type 0 0 0 0)
    (env.elementOk owner.elementArray.length)
  if r.1 then some r.2.2 else none

/-- Modelled from the spec: `IOHIDElement::buttonElement` is not part of this
file.  One element per button capability, one bit wide, registered with its
owner and attached to its parent collection when there is one. -/
def buttonElement (env : BuildEnv) (owner : IOHIDDevice) (type : IOHIDElementType)
    (button : HIDButtonCapabilities) (parent : Option Nat) : Option IOHIDDevice :=
  let r := registerElement owner
    (newElement type button.reportID button.startBit 1 (env.valueSize 1))
    (env.elementOk owner.elementArray.length)
  if r.1 then
    match parent with
    | some p =>
      some { r.2.2 with
        elementArray := attachChild r.2.2.elementArray p owner.elementArray.length }
    | none => some r.2.2
  else none

/-- Modelled from the spec: `IOHIDElement::valueElement` is not part of this
file.  One element per value capability, registered with its owner and
attached to its parent collection when there is one. -/
def valueElement (env : BuildEnv) (owner : IOHIDDevice) (type : IOHIDElementType)
    (value : HIDValueCapabilities) (parent : Option Nat) : Option IOHIDDevice :=
  let r := registerElement owner
    (newElement type value.reportID value.startBit value.bitSize (env.valueSize value.bitSize))
    (env.elementOk owner.elementArray.length)
  if r.1 then
    match parent with
    | some p =>
      some { r.2.2 with
        elementArray := attachChild r.2.2.elementArray p owner.elementArray.length }
    | none => some r.2.2
  else none

/-! ## Building the element hierarchy -/

/-- `IOHIDDevice::linkToParent`: false when the parent index is past the end of
the array, otherwise the result of `parent->addChildElement( child )`. -/
def linkToParent (arr : List IOHIDElement) (parentIndex childIndex : Nat) :
    Bool × List IOHIDElement :=
  match arr[parentIndex]? with
  | some _ => addChildElement arr parentIndex childIndex
  | none => (false, arr)

/-- First loop of `createCollectionElements`: one collection element per node,
stopping at the first null element.  The flag tells whether the loop ran to
the end (`index < count` is false afterwards). -/
def createCollectionLoop (env : BuildEnv) :
    List HIDCollectionNode → IOHIDDevice → Bool × IOHIDDevice
  | [], dev => (true, dev)
  | node :: rest, dev =>
    match collectionElement env dev kIOHIDElementTypeCollection node with
    | none => (false, dev)
    | some dev1 => createCollectionLoop env rest dev1

/-- Second loop of `createCollectionElements`: link the collections from
`index` on to their parents, stopping at the first failed link. -/
def linkCollectionLoop : List HIDCollectionNode → Nat → List IOHIDElement →
    Bool × List IOHIDElement
  | [], _, arr => (true, arr)
  | node :: rest, index, arr =>
    let r := linkToParent arr node.parent index
    if r.1 then linkCollectionLoop rest (index + 1) r.2 else (false, r.2)

/-- `IOHIDDevice::createCollectionElements`, with `array` the element array of
the device. -/
def createCollectionElements (env : BuildEnv) (parseData : HIDPreparsedData)
    (dev : IOHIDDevice) (maxCount : Nat) : Bool × IOHIDDevice :=
  if env.collectionsMallocOk = false then (false, dev)
  else
    let got := HIDGetCollectionNodes maxCount parseData
    if got.1 ≠ kHIDSuccess then (false, dev)
    else
      let created := createCollectionLoop env got.2 dev
      if created.1 = false then (false, created.2)
      else
        let linked := linkCollectionLoop (got.2.drop 1) 1 created.2.elementArray
        (linked.1, { created.2 with elementArray := linked.2 })

/-- The element pointer `array->getObject( index )` as an optional index. -/
def getObjectIndex (arr : List IOHIDElement) (index : Nat) : Option Nat :=
  if index < arr.length then some index else none

/-- The `for` loop of `createButtonElements`; the flag is `ret`. -/
def createButtonLoop (env : BuildEnv) (elementType : IOHIDElementType) :
    List HIDButtonCapabilities → IOHIDDevice → Bool × IOHIDDevice
  | [], dev => (true, dev)
  | button :: rest, dev =>
    let parent := getObjectIndex dev.elementArray button.collection
    match buttonElement env dev elementType button parent with
    | none => (false, dev)
    | some dev1 => createButtonLoop env elementType rest dev1

/-- `IOHIDDevice::createButtonElements`. -/
def createButtonElements (env : BuildEnv) (parseData : HIDPreparsedData) (dev : IOHIDDevice)
    (hidReportType : HIDReportType) (elementType : IOHIDElementType) (maxCount : Nat) :
    Bool × IOHIDDevice :=
  if maxCount = 0 then (true, dev)
  else if env.buttonsMallocOk hidReportType = false then (false, dev)
  else
    let got := HIDGetButtonCapabilities hidReportType maxCount parseData
    if got.1 ≠ kHIDSuccess then (false, dev)
    else createButtonLoop env elementType got.2 dev

/-- The `for` loop of `createValueElements`; the flag is `ret`. -/
def createValueLoop (env : BuildEnv) (elementType : IOHIDElementType) :
    List HIDValueCapabilities → IOHIDDevice → Bool × IOHIDDevice
  | [], dev => (true, dev)
  | value :: rest, dev =>
    let parent := getObjectIndex dev.elementArray value.collection
    match valueElement env dev elementType value parent with
    | none => (false, dev)
    | some dev1 => createValueLoop env elementType rest dev1

/-- `IOHIDDevice::createValueElements`. -/
def createValueElements (env : BuildEnv) (parseData : HIDPreparsedData) (dev : IOHIDDevice)
    (hidReportType : HIDReportType) (elementType : IOHIDElementType) (maxCount : Nat) :
    Bool × IOHIDDevice :=
  if maxCount = 0 then (true, dev)
  else if env.valuesMallocOk hidReportType = false then (false, dev)
  else
    let got := HIDGetValueCapabilities hidReportType maxCount parseData
    if got.1 ≠ kHIDSuccess then (false, dev)
    else createValueLoop env elementType got.2 dev

/-- The pattern `if ( !create...( ... ) ) break;` inside the `do { } while
( false )` of `createElementHierarchy`: a failed step leaves the block with
`ret` still `kIOReturnNoMemory`, a successful one goes on with the rest. -/
def orBreak (r : Bool × IOHIDDevice) (rest : IOHIDDevice → Option (IOReturn × IOHIDDevice)) :
    Option (IOReturn × IOHIDDevice) :=
  if r.1 = true then rest r.2 else some (kIOReturnNoMemory, r.2)

/-- `IOHIDDevice::createElementHierarchy`.  The result is `none` only when a
chain walk of `createMemoryForElementValues` does not end. -/
def createElementHierarchy (env : BuildEnv) (parseData : HIDPreparsedData) (dev : IOHIDDevice) :
    Option (IOReturn × IOHIDDevice) :=
  if parseData.capabilitiesStatus ≠ kHIDSuccess then some (kIOReturnError, dev)
  else
    let caps := parseData.caps
    let dev0 := { dev with
      maxInputReportSize := caps.inputReportByteLength
      maxOutputReportSize := caps.outputReportByteLength
      maxFeatureReportSize := caps.featureReportByteLength }
    if env.elementArrayOk = false then some (kIOReturnNoMemory, dev0)
    else
      orBreak (createCollectionElements env parseData { dev0 with elementArray := [] }
        caps.numberCollectionNodes) fun c =>
      orBreak (createButtonElements env parseData
        { c with dataElementIndex := c.elementArray.length }
        kHIDInputReport kIOHIDElementTypeInput_Button caps.numberInputButtonCaps) fun b1 =>
      orBreak (createButtonElements env parseData b1 kHIDOutputReport
        kIOHIDElementTypeOutput caps.numberOutputButtonCaps) fun b2 =>
      orBreak (createButtonElements env parseData b2 kHIDFeatureReport
        kIOHIDElementTypeFeature caps.numberFeatureButtonCaps) fun b3 =>
      orBreak (createValueElements env parseData b3 kHIDInputReport
        kIOHIDElementTypeInput_Misc caps.numberInputValueCaps) fun v1 =>
      orBreak (createValueElements env parseData v1 kHIDOutputReport
        kIOHIDElementTypeOutput caps.numberOutputValueCaps) fun v2 =>
      orBreak (createValueElements env parseData v2 kHIDFeatureReport
        kIOHIDElementTypeFeature caps.numberFeatureValueCaps) fun v3 =>
      match createMemoryForElementValues v3 env.descriptorOk with
      | none => none
      | some m =>
        match m.descriptor with
        | none => some (kIOReturnNoMemory, m.dev)
        | some capacity =>
          some (kIOReturnSuccess, { m.dev with elementValuesDescriptor := some capacity })

/-- The `for` loop of `getReportCountAndSizes`: the three `setReportSize` calls
for each report. -/
def getReportCountAndSizesLoop : List HIDReportSizes → IOHIDDevice → Option IOHIDDevice
  | [], dev => some dev
  | report :: rest, dev =>
    match setReportSize dev report.reportID kIOHIDReportTypeInput report.inputBitCount with
    | none => none
    | some r1 =>
      match setReportSize r1.2 report.reportID kIOHIDReportTypeOutput report.outputBitCount with
      | none => none
      | some r2 =>
        match setReportSize r2.2 report.reportID kIOHIDReportTypeFeature
            report.featureBitCount with
        | none => none
        | some r3 => getReportCountAndSizesLoop rest r3.2

/-- `IOHIDDevice::getReportCountAndSizes`. -/
def getReportCountAndSizes (parseData : HIDPreparsedData) (dev : IOHIDDevice) :
    Option IOHIDDevice :=
  getReportCountAndSizesLoop (parseData.reports.take parseData.reportCount)
    { dev with reportCount := parseData.reportCount }

/-- `IOHIDDevice::parseReportDescriptor` from the point where
`HIDOpenReportDescriptor` has delivered `parseData`: build the element
hierarchy, then take over the report count and the report sizes, whatever the
build returned, and return the result of the build. -/
def parseReportDescriptor (env : BuildEnv) (parseData : HIDPreparsedData) (dev : IOHIDDevice) :
    Option (IOReturn × IOHIDDevice) :=
  match createElementHierarchy env parseData dev with
  | none => none
  | some (ret, dev1) =>
    match getReportCountAndSizes parseData dev1 with
    | none => none
    | some dev2 => some (ret, dev2)

/-! ## Event delivery -/

/-- Modelled from the spec: `IOHIDElement::addEventQueue` is not part of this
file.  `subscribe(element, subscriber)` adds the subscriber to the element's
set of subscriber handles; a subscriber already in the set stays there once.
`ok` is the outcome of the allocation the set may need; the flag tells whether
the element accepted the queue. -/
def IOHIDElement.addEventQueue (e : IOHIDElement) (queue : Nat) (ok : Bool) :
    Bool × IOHIDElement :=
  if queue ∈ e.queues then (true, e)
  else if ok then (true, { e with queues := e.queues ++ [queue] })
  else (false, e)

/-- Modelled from the spec: `IOHIDElement::removeEventQueue` is not part of
this file.  `unsubscribe(element, subscriber)` takes the subscriber out of the
element's set of subscriber handles; the flag, which `stopEventDelivery`
collects in `removed`, tells whether the queue was in the set.  The null queue
is in no set. -/
def IOHIDElement.removeEventQueue (e : IOHIDElement) (queue : Option Nat) :
    Bool × IOHIDElement :=
  match queue with
  | none => (false, e)
  | some q => (decide (q ∈ e.queues), { e with queues := e.queues.filter (fun x => x ≠ q) })

/-- Modelled from the spec: `IOHIDElement::hasEventQueue` is not part of this
file.  `isSubscribed(element, subscriber)`: membership in the element's set of
subscriber handles. -/
def IOHIDElement.hasEventQueue (e : IOHIDElement) (queue : Option Nat) : Bool :=
  match queue with
  | none => false
  | some q => decide (q ∈ e.queues)

/-- `IOHIDDevice::startEventDelivery`.  `queue` is `none` for the null pointer;
`addOk` is the outcome of the allocation inside `addEventQueue`. -/
def startEventDelivery (dev : IOHIDDevice) (queue : Option Nat) (cookie : Nat) (addOk : Bool) :
    IOReturn × IOHIDDevice :=
  match queue with
  | none => (kIOReturnBadArgument, dev)
  | some q =>
    if cookie < dev.dataElementIndex then (kIOReturnBadArgument, dev)
    else
      match GetElement dev cookie with
      | none => (kIOReturnBadArgument, dev)
      | some element =>
        let r := element.addEventQueue q addOk
        (if r.1 then kIOReturnSuccess else kIOReturnNoMemory,
          { dev with elementArray := dev.elementArray.set cookie r.2 })

/-- The `do { ... } while ( cookie == 0 )` loop of `stopEventDelivery`, from
`elementIndex` on; the state is the element array and `removed`.  The result is
`none` when the fuel runs out. -/
def stopEventDeliveryLoop (queue : Option Nat) (cookie : Nat) :
    Nat → Nat → List IOHIDElement → Bool → Option (List IOHIDElement × Bool)
  | 0, _, _, _ => none
  | fuel + 1, elementIndex, arr, removed =>
    match arr[elementIndex]? with
    | none => some (arr, removed)
    | some element =>
      let r := element.removeEventQueue queue
      if cookie = 0 then
        stopEventDeliveryLoop queue cookie fuel (elementIndex + 1) (arr.set elementIndex r.2)
          (r.1 || removed)
      else
        some (arr.set elementIndex r.2, r.1 || removed)

/-- `IOHIDDevice::stopEventDelivery`.  `queue` is `none` for the null
pointer. -/
def stopEventDelivery (dev : IOHIDDevice) (queue : Option Nat) (cookie : Nat) :
    Option (IOReturn × IOHIDDevice) :=
  if cookie ≠ 0 ∧ (queue = none ∨ cookie < dev.dataElementIndex) then
    some (kIOReturnBadArgument, dev)
  else
    let elementIndex := if cookie = 0 then dev.dataElementIndex else cookie
    match stopEventDeliveryLoop queue cookie (dev.elementArray.length + 1) elementIndex
        dev.elementArray false with
    | none => none
    | some r =>
      some (if r.2 then kIOReturnSuccess else kIOReturnNotFound,
        { dev with elementArray := r.1 })

/-- `IOHIDDevice::checkEventDelivery`: the return code and the value written
to `started`.  `startedPtr` tells whether the `started` pointer is non-null. -/
def checkEventDelivery (dev : IOHIDDevice) (queue : Option Nat) (cookie : Nat)
    (startedPtr : Bool) : IOReturn × Option Bool :=
  match GetElement dev cookie with
  | none => (kIOReturnBadArgument, none)
  | some element =>
    if queue = none ∨ startedPtr = false then (kIOReturnBadArgument, none)
    else (kIOReturnSuccess, some (element.hasEventQueue queue))

/-! ## Specification vocabulary -/

/-- `IsChain arr cur l`: following `nextReportHandler` from `cur` visits exactly
the elements `l`, in this order, and then reaches the null pointer. -/
def IsChain (arr : List IOHIDElement) : Option Nat → List Nat → Prop
  | none, [] => True
  | some i, j :: l => i = j ∧ ∃ e, arr[i]? = some e ∧ IsChain arr e.nextReportHandler l
  | none, _ :: _ => False
  | some _, [] => False

/-- The loop body `step` applied along the list of elements `l`, skipping
indices past the end of the array. -/
def walkList {σ : Type} (step : Nat → IOHIDElement → σ → IOHIDElement × σ × Option Nat) :
    List Nat → List IOHIDElement → σ → List IOHIDElement × σ
  | [], arr, s => (arr, s)
  | i :: l, arr, s =>
    match arr[i]? with
    | none => walkList step l arr s
    | some e => walkList step l (arr.set i (step i e s).1) (step i e s).2.1

/-- The dispatch chain of `(slot, type)` in a device, in walking order. -/
def dispatchChain (dev : IOHIDDevice) (slot : Nat) (type : IOHIDReportType) :
    Option (List Nat) :=
  chainFrom dev.elementArray.length dev.elementArray (GetHeadElement dev slot type)

/-- Element `i` of the table belongs to the dispatch chain of `(slot, type)`:
it has that report type and its report ID falls into that slot. -/
def OnChain (arr : List IOHIDElement) (slot : Nat) (type : IOHIDReportType) (i : Nat) : Prop :=
  ∃ e, arr[i]? = some e ∧ e.getReportType = some type ∧ GetReportHandlerSlot e.reportID = slot

/-- The chains of a device are well formed: every head starts a chain that
lists, in decreasing index order, exactly the elements belonging to it. -/
def ChainsWF (dev : IOHIDDevice) : Prop :=
  ∀ slot type, ∃ l, IsChain dev.elementArray (dev.reportHandlers slot type) l ∧
    l.Pairwise (fun a b => b < a) ∧ ∀ i, i ∈ l ↔ OnChain dev.elementArray slot type i

/-- The creation data of an element: its type, report ID, first bit and
width. -/
def describe (e : IOHIDElement) : IOHIDElementType × Nat × Nat × Nat :=
  (e.type, e.reportID, e.reportStartBit, e.reportBits)

/-- The capability counts agree with the capability arrays, the shape of a
well-formed capability source. -/
def CapsWellFormed (p : HIDPreparsedData) : Prop :=
  p.caps.numberCollectionNodes = p.collectionNodes.length ∧
  p.caps.numberInputButtonCaps = (p.buttonCaps kHIDInputReport).length ∧
  p.caps.numberOutputButtonCaps = (p.buttonCaps kHIDOutputReport).length ∧
  p.caps.numberFeatureButtonCaps = (p.buttonCaps kHIDFeatureReport).length ∧
  p.caps.numberInputValueCaps = (p.valueCaps kHIDInputReport).length ∧
  p.caps.numberOutputValueCaps = (p.valueCaps kHIDOutputReport).length ∧
  p.caps.numberFeatureValueCaps = (p.valueCaps kHIDFeatureReport).length

/-- Creation data of the element made from a button capability. -/
def describeButton (type : IOHIDElementType) (b : HIDButtonCapabilities) :
    IOHIDElementType × Nat × Nat × Nat :=
  (type, b.reportID, b.startBit, 1)

/-- Creation data of the element made from a value capability. -/
def describeValue (type : IOHIDElementType) (v : HIDValueCapabilities) :
    IOHIDElementType × Nat × Nat × Nat :=
  (type, v.reportID, v.startBit, v.bitSize)

/-- The creation data of the element table in the order the builder promises:
collections, then input, output and feature buttons, then input, output and
feature values, each group in source order. -/
def expectedTable (p : HIDPreparsedData) : List (IOHIDElementType × Nat × Nat × Nat) :=
  p.collectionNodes.map (fun _ => (kIOHIDElementTypeCollection, 0, 0, 0)) ++
  (p.buttonCaps kHIDInputReport).map (describeButton kIOHIDElementTypeInput_Button) ++
  (p.buttonCaps kHIDOutputReport).map (describeButton kIOHIDElementTypeOutput) ++
  (p.buttonCaps kHIDFeatureReport).map (describeButton kIOHIDElementTypeFeature) ++
  (p.valueCaps kHIDInputReport).map (describeValue kIOHIDElementTypeInput_Misc) ++
  (p.valueCaps kHIDOutputReport).map (describeValue kIOHIDElementTypeOutput) ++
  (p.valueCaps kHIDFeatureReport).map (describeValue kIOHIDElementTypeFeature)

/-- The elements reached by walking the chains of the given `(slot, type)`
pairs one after the other, in walking order. -/
def chainedElements (fuel : Nat) (arr : List IOHIDElement)
    (handlers : Nat → IOHIDReportType → Option Nat) :
    List (Nat × IOHIDReportType) → Option (List Nat)
  | [] => some []
  | (slot, type) :: rest =>
    match chainFrom fuel arr (handlers slot type), chainedElements fuel arr handlers rest with
    | some l, some r => some (l ++ r)
    | _, _ => none

/-- The elements on the dispatch chains of a device, in the traversal order of
`createMemoryForElementValues`. -/
def valueOrder (dev : IOHIDDevice) : Option (List Nat) :=
  chainedElements dev.elementArray.length dev.elementArray dev.reportHandlers dispatchOrder

/-- Value size of element `i`, 0 past the end of the table. -/
def valueSizeAt (arr : List IOHIDElement) (i : Nat) : Nat :=
  (arr[i]?.map (fun e => e.elementValueSize)).getD 0

/-- The byte range `[offset, offset + valueSize)` assigned to element `i`, as
the pair of its bounds. -/
def valueRange (arr : List IOHIDElement) (i : Nat) : Option (Nat × Nat) :=
  arr[i]?.bind (fun e => e.valueLocation.map (fun off => (off, off + e.elementValueSize)))

/-- The elements `l` lie back to back in the value memory from `off` on. -/
def Layout (arr : List IOHIDElement) : List Nat → Nat → Prop
  | [], _ => True
  | i :: l, off =>
    ∃ e, arr[i]? = some e ∧ e.valueLocation = some off ∧
      Layout arr l (off + e.elementValueSize)

/-- The element reached from element `i` by following parent links until an
element without parent; `none` when the fuel runs out or a link leaves the
table. -/
def followParent : Nat → List IOHIDElement → Nat → Option Nat
  | 0, _, _ => none
  | fuel + 1, arr, i =>
    match arr[i]? with
    | none => none
    | some e =>
      match e.parent with
      | none => some i
      | some q => followParent fuel arr q

/-- `LeadingPart built full`: the list `built` is an initial segment of
`full`. -/
def LeadingPart {α : Type} (built full : List α) : Prop :=
  ∃ rest, full = built ++ rest

/-- The parent references the builder promises for a source that lists
parents before children: none for the root, the named parent for every other
collection, the named collection for every button and value, in table
order. -/
def expectedParents (p : HIDPreparsedData) : List (Option Nat) :=
  (p.collectionNodes.take 1).map (fun _ => none) ++
  (p.collectionNodes.drop 1).map (fun n => some n.parent) ++
  (p.buttonCaps kHIDInputReport).map (fun b => some b.collection) ++
  (p.buttonCaps kHIDOutputReport).map (fun b => some b.collection) ++
  (p.buttonCaps kHIDFeatureReport).map (fun b => some b.collection) ++
  (p.valueCaps kHIDInputReport).map (fun v => some v.collection) ++
  (p.valueCaps kHIDOutputReport).map (fun v => some v.collection) ++
  (p.valueCaps kHIDFeatureReport).map (fun v => some v.collection)

/-- Two dispatch tables agree on the allocated slots `0 ..
kReportHandlerSlots - 1`. -/
def SameSlots (h1 h2 : Nat → IOHIDReportType → Option Nat) : Prop :=
  ∀ slot type, slot < kReportHandlerSlots → h1 slot type = h2 slot type

/-- The element with its transaction state set aside: the dispatch chains and
the content of a report depend on nothing else of it. -/
def IOHIDElement.dropTransactionState (e : IOHIDElement) : IOHIDElement :=
  { e with transactionState := kIOHIDTransactionStateIdle }

/-- What `createReport` leaves of the element: Idle when the report ID matches,
untouched otherwise. -/
def IOHIDElement.afterCreateReport (reportID : Nat) (e : IOHIDElement) : IOHIDElement :=
  if e.reportID != reportID then e else { e with transactionState := kIOHIDTransactionStateIdle }

/-- The report an element contributes to, as a `(report type, report ID)` pair;
`none` for an element that contributes to no report. -/
def reportKey (e : IOHIDElement) : Option (IOHIDReportType × Nat) :=
  e.getReportType.map (fun t => (t, e.reportID))

/-- The reports named by a list of handles, one entry per handle that resolves
to a report-contributing element, in the order of the handles. -/
def handleReports (dev : IOHIDDevice) (cookies : List Nat) : List (IOHIDReportType × Nat) :=
  cookies.filterMap (fun c => (GetElement dev c).bind reportKey)

/-- Add a report to the end of the list of reports seen unless it is there. -/
def noteFirst (seen : List (IOHIDReportType × Nat)) (k : IOHIDReportType × Nat) :
    List (IOHIDReportType × Nat) :=
  if k ∈ seen then seen else seen ++ [k]

/-- The distinct entries of a list of reports in order of first appearance. -/
def firstAppearances (l : List (IOHIDReportType × Nat)) : List (IOHIDReportType × Nat) :=
  l.foldl noteFirst []

/-- The empty report buffer `postElementValues` allocates for a device: zeroed,
of the larger of the output and feature report sizes. -/
def freshReport (dev : IOHIDDevice) : ReportBuffer :=
  { bytes := List.replicate (max dev.maxOutputReportSize dev.maxFeatureReportSize) 0,
    length := max dev.maxOutputReportSize dev.maxFeatureReportSize }

/-- The statement `if ( _reportCount > 1 ) reportData[0] = reportID;`. -/
def withReportID (dev : IOHIDDevice) (reportID : Nat) (report : ReportBuffer) : ReportBuffer :=
  if dev.reportCount > 1 then
    { bytes := report.bytes.set 0 reportID, length := report.length }
  else report

/-- The buffer expected for a report: every element of its dispatch chain, in
chain order, serializes into one fresh buffer, which then gets the report ID
byte when the device has several reports. -/
def expectedReport (dev : IOHIDDevice) (k : IOHIDReportType × Nat) : ReportBuffer :=
  withReportID dev k.2
    (walkList (postElementValuesStep k.2)
      ((dispatchChain dev (GetReportHandlerSlot k.2) k.1).getD [])
      dev.elementArray (freshReport dev)).2

/-- Invariant of the first loop of `postElementValues` on the handles `cookies`
of `dev`, with `seen` the reports that have a buffer so far: the state differs
from the device in transaction states only, the pending buffers are those of
`seen`, the elements of the reports in `seen` are Idle, the elements named by
a handle of any other report are still Pending, and the locals `reportType` and
`reportID` are assigned once a buffer exists. -/
def PostInvariant (dev : IOHIDDevice) (cookies : List Nat)
    (seen : List (IOHIDReportType × Nat)) (st : PostLoopState) : Prop :=
  st.dev.reportHandlers = dev.reportHandlers ∧
  st.dev.reportCount = dev.reportCount ∧
  st.dev.elementArray.map IOHIDElement.dropTransactionState
    = dev.elementArray.map IOHIDElement.dropTransactionState ∧
  st.pendingReports = seen.map (expectedReport dev) ∧
  (∀ (i : Nat) (e : IOHIDElement) (k : IOHIDReportType × Nat),
    st.dev.elementArray[i]? = some e → reportKey e = some k → k ∈ seen →
    e.transactionState = kIOHIDTransactionStateIdle) ∧
  (∀ (c : Nat) (e : IOHIDElement) (k : IOHIDReportType × Nat), c ∈ cookies →
    st.dev.elementArray[c]? = some e → reportKey e = some k → k ∉ seen →
    e.transactionState = kIOHIDTransactionStatePending) ∧
  (seen ≠ [] → st.reportType.isSome = true ∧ st.reportID.isSome = true)

/-- What the dispatch chains depend on in an element: its type, its report ID
and its chain successor. -/
def chainData (e : IOHIDElement) : IOHIDElementType × Nat × Option Nat :=
  (e.type, e.reportID, e.nextReportHandler)

/-- Invariant of the loop of `updateElementValues` on the handles `cookies` of
`dev`, with `seen` the reports fetched so far: the state differs from the
device in values and transaction states only, the `getReport` calls made are
those for `seen`, the elements of the reports in `seen` are Idle, the elements
named by a handle of any other report are still Pending, and `ret` is success
once a report has been fetched. -/
def UpdateInvariant (dev : IOHIDDevice) (cookies : List Nat)
    (seen : List (IOHIDReportType × Nat)) (st : UpdateLoopState) : Prop :=
  st.dev.reportHandlers = dev.reportHandlers ∧
  st.dev.reportCount = dev.reportCount ∧
  st.dev.readyForInputReports = dev.readyForInputReports ∧
  st.dev.elementArray.map chainData = dev.elementArray.map chainData ∧
  st.fetched = seen ∧
  (∀ (i : Nat) (e : IOHIDElement) (k : IOHIDReportType × Nat),
    st.dev.elementArray[i]? = some e → reportKey e = some k → k ∈ seen →
    e.transactionState = kIOHIDTransactionStateIdle) ∧
  (∀ (c : Nat) (e : IOHIDElement) (k : IOHIDReportType × Nat), c ∈ cookies →
    st.dev.elementArray[c]? = some e → reportKey e = some k → k ∉ seen →
    e.transactionState = kIOHIDTransactionStatePending) ∧
  (seen ≠ [] → st.ret = kIOReturnSuccess)

/-- The transport serves the reports of the handles: a `getReport` for one of
them succeeds with a non-empty buffer that `handleReport` routes under the
report ID asked for. -/
def ServesReports (dev : IOHIDDevice) (cookies : List Nat) (tr : Transport) : Prop :=
  ∀ (n : Nat) (k : IOHIDReportType × Nat), k ∈ handleReports dev cookies →
    (tr.getReport n k.1 k.2).1 = kIOReturnSuccess ∧
    (tr.getReport n k.1 k.2).2.length ≠ 0 ∧
    handleReportID dev (tr.getReport n k.1 k.2).2 = k.2

/-- What starts a button stage of the build goes well: the stage has no button,
so that nothing is allocated or asked for, or the capability array is
allocated and `HIDGetButtonCapabilities` succeeds. -/
def buttonStageOk (env : BuildEnv) (p : HIDPreparsedData) (t : HIDReportType) : Bool :=
  decide ((p.buttonCaps t).length = 0) ||
    (env.buttonsMallocOk t && decide (p.buttonCapsStatus t = kHIDSuccess))

/-- What starts a value stage of the build goes well: the stage has no value, or
the capability array is allocated and `HIDGetValueCapabilities` succeeds. -/
def valueStageOk (env : BuildEnv) (p : HIDPreparsedData) (t : HIDReportType) : Bool :=
  decide ((p.valueCaps t).length = 0) ||
    (env.valuesMallocOk t && decide (p.valueCapsStatus t = kHIDSuccess))

/-- The six data stages of the build in order, each with the table index of its
first element and whether its start goes well. -/
def dataStages (env : BuildEnv) (p : HIDPreparsedData) : List (Nat × Bool) :=
  [(p.collectionNodes.length, buttonStageOk env p kHIDInputReport),
   (p.collectionNodes.length + (p.buttonCaps kHIDInputReport).length,
     buttonStageOk env p kHIDOutputReport),
   (p.collectionNodes.length + (p.buttonCaps kHIDInputReport).length +
     (p.buttonCaps kHIDOutputReport).length, buttonStageOk env p kHIDFeatureReport),
   (p.collectionNodes.length + (p.buttonCaps kHIDInputReport).length +
     (p.buttonCaps kHIDOutputReport).length + (p.buttonCaps kHIDFeatureReport).length,
     valueStageOk env p kHIDInputReport),
   (p.collectionNodes.length + (p.buttonCaps kHIDInputReport).length +
     (p.buttonCaps kHIDOutputReport).length + (p.buttonCaps kHIDFeatureReport).length +
     (p.valueCaps kHIDInputReport).length, valueStageOk env p kHIDOutputReport),
   (p.collectionNodes.length + (p.buttonCaps kHIDInputReport).length +
     (p.buttonCaps kHIDOutputReport).length + (p.buttonCaps kHIDFeatureReport).length +
     (p.valueCaps kHIDInputReport).length + (p.valueCaps kHIDOutputReport).length,
     valueStageOk env p kHIDFeatureReport)]

/-- The collection list names every parent before its children: the parent
index of a collection other than the root is smaller than its own index. -/
def ParentsFirst (nodes : List HIDCollectionNode) : Prop :=
  ∀ (i : Nat) (node : HIDCollectionNode), nodes[i]? = some node → 1 ≤ i → node.parent < i

/-- Every step of the build needed for the first `n` elements of the table goes
well: these `n` elements are created; when there is any element, the capability
summary is read, the element array is allocated and the collection array is
allocated and filled; the collections name their parents first when there is a
data element; and every data stage that starts below `n` starts well. -/
def BuildsUpTo (env : BuildEnv) (p : HIDPreparsedData) (n : Nat) : Prop :=
  n ≤ (expectedTable p).length ∧
  (∀ i, i < n → env.elementOk i = true) ∧
  (0 < n → p.capabilitiesStatus = kHIDSuccess ∧ env.elementArrayOk = true ∧
    env.collectionsMallocOk = true ∧ p.collectionNodesStatus = kHIDSuccess) ∧
  (p.collectionNodes.length < n → ParentsFirst p.collectionNodes) ∧
  (∀ g ∈ dataStages env p, g.1 < n → g.2 = true)

/-- The parent a collection list gives to collection `i`; none for collection
0, the root, whose entry is not linked. -/
def collectionParent (nodes : List HIDCollectionNode) (i : Nat) : Option Nat :=
  if i = 0 then none else nodes[i]?.map (fun n => n.parent)

/-- The collection reached from collection `i` after `k` steps along the
parents of the list, if the steps can be made. -/
def parentIterate (nodes : List HIDCollectionNode) : Nat → Nat → Option Nat
  | 0, i => some i
  | k + 1, i => (parentIterate nodes k i).bind (collectionParent nodes)

/-- The parent indices of a collection list introduce a cycle: some collection
comes back to itself after at least one step along the parents. -/
def ParentCycle (nodes : List HIDCollectionNode) : Prop :=
  ∃ i k, 0 < k ∧ parentIterate nodes k i = some i

/-! ## Concrete devices -/

/-- Five registrations: a collection, an input button of report 1, an input
value of report 9 (same slot as report 1), an output element whose `setObject`
fails, and an input value of report 1. -/
def sampleCalls : List (IOHIDElement × Bool) :=
  [(newElement kIOHIDElementTypeCollection 0 0 0 0, true),
   (newElement kIOHIDElementTypeInput_Button 1 0 1 4, true),
   (newElement kIOHIDElementTypeInput_Misc 9 8 8 4, true),
   (newElement kIOHIDElementTypeOutput 1 0 1 4, false),
   (newElement kIOHIDElementTypeInput_Misc 1 1 7 4, true)]

/-- The device after `sampleCalls`, declaring two reports, ready for input
reports. -/
def sampleDevice : IOHIDDevice :=
  { registerElements emptyDevice sampleCalls with
    reportCount := 2
    readyForInputReports := true
    maxInputReportSize := 2 }

/-- The same device while not ready for input reports. -/
def sampleDeviceNotReady : IOHIDDevice :=
  { sampleDevice with readyForInputReports := false }

/-- A transport whose `getReport` always delivers the two bytes `[1, 131]` and
whose `setReport` always succeeds. -/
def sampleTransport : Transport where
  getReport := fun _ _ _ => (kIOReturnSuccess, [1, 131])
  setReport := fun _ _ _ _ => kIOReturnSuccess

/-- A build environment in which every allocation succeeds; an element value
takes 20 bytes plus 4 bytes for every 32 bits beyond the first 32. -/
def sampleEnv : BuildEnv where
  elementArrayOk := true
  collectionsMallocOk := true
  buttonsMallocOk := fun _ => true
  valuesMallocOk := fun _ => true
  elementOk := fun _ => true
  descriptorOk := true
  valueSize := fun bits => 20 + 4 * ((bits + 31) / 32 - 1)

/-- The capability source of a device with 2 collections (the root and one
child), one input button (report ID 1, bit 0) and one input value (report ID 1,
bits 1 to 8). -/
def sampleCaps : HIDPreparsedData where
  capabilitiesStatus := 0
  caps :=
    { inputReportByteLength := 2, outputReportByteLength := 0, featureReportByteLength := 0,
      numberCollectionNodes := 2, numberInputButtonCaps := 1, numberInputValueCaps := 1,
      numberOutputButtonCaps := 0, numberOutputValueCaps := 0,
      numberFeatureButtonCaps := 0, numberFeatureValueCaps := 0 }
  collectionNodesStatus := 0
  collectionNodes := [{ parent := 0 }, { parent := 0 }]
  buttonCapsStatus := fun _ => 0
  buttonCaps := fun t =>
    match t with
    | kHIDInputReport => [{ collection := 1, reportID := 1, startBit := 0 }]
    | _ => []
  valueCapsStatus := fun _ => 0
  valueCaps := fun t =>
    match t with
    | kHIDInputReport => [{ collection := 1, reportID := 1, startBit := 1, bitSize := 8 }]
    | _ => []
  reportCount := 1
  reports := [{ reportID := 1, inputBitCount := 9, outputBitCount := 0, featureBitCount := 0 }]

/-- The device built from `sampleCaps` on the empty device. -/
def sampleBuilt : IOHIDDevice :=
  ((createElementHierarchy sampleEnv sampleCaps emptyDevice).getD
    (kIOReturnError, emptyDevice)).2

/-- A capability source with the given collection nodes and no buttons or
values, every accessor succeeding. -/
def collectionsOnlyCaps (nodes : List HIDCollectionNode) : HIDPreparsedData where
  capabilitiesStatus := 0
  caps :=
    { inputReportByteLength := 0, outputReportByteLength := 0, featureReportByteLength := 0,
      numberCollectionNodes := nodes.length, numberInputButtonCaps := 0,
      numberInputValueCaps := 0, numberOutputButtonCaps := 0, numberOutputValueCaps := 0,
      numberFeatureButtonCaps := 0, numberFeatureValueCaps := 0 }
  collectionNodesStatus := 0
  collectionNodes := nodes
  buttonCapsStatus := fun _ => 0
  buttonCaps := fun _ => []
  valueCapsStatus := fun _ => 0
  valueCaps := fun _ => []
  reportCount := 0
  reports := []

/-- Two collections, the second naming itself as parent. -/
def selfParentCaps : HIDPreparsedData :=
  collectionsOnlyCaps [{ parent := 0 }, { parent := 1 }]

/-- Two collections, the second naming parent 5, past the end of the table. -/
def badParentCaps : HIDPreparsedData :=
  collectionsOnlyCaps [{ parent := 0 }, { parent := 5 }]

/-- The source `sampleCaps` with a failing `HIDGetValueCapabilities`. -/
def failingValueCaps : HIDPreparsedData :=
  { sampleCaps with valueCapsStatus := fun _ => 1 }

/-- The device left by the failed build from `failingValueCaps`. -/
def sampleFailedBuild : IOHIDDevice :=
  ((createElementHierarchy sampleEnv failingValueCaps emptyDevice).getD
    (kIOReturnError, emptyDevice)).2

/-- The state of the `updateElementValues` loop on `sampleDevice` and the
handles `[0, 1, 3]` once handle 0, a collection, has been passed. -/
def sampleUpdateState : UpdateLoopState where
  dev := { sampleDevice with elementArray :=
    (SetCookiesTransactionState sampleDevice.elementArray [0, 1, 3]
      kIOHIDTransactionStatePending 0).1 }
  ret := kIOReturnError
  index := 1
  fetched := []

/-- The input button of `sampleDevice` while Pending. -/
def samplePendingButton : IOHIDElement :=
  (newElement kIOHIDElementTypeInput_Button 1 0 1 4).setTransactionState
    kIOHIDTransactionStatePending

/-- The device of the scenario once `start` has parsed the descriptor: built from
`sampleCaps` by `parseReportDescriptor`, then marked ready for input reports. -/
def sampleStarted : IOHIDDevice :=
  { ((parseReportDescriptor sampleEnv sampleCaps emptyDevice).getD
      (kIOReturnError, emptyDevice)).2 with readyForInputReports := true }

/-- The registration calls made while the scenario device is built: the two
collections, the input button and the input value of report 1. -/
def scenarioCalls : List (IOHIDElement × Bool) :=
  [(newElement kIOHIDElementTypeCollection 0 0 0 0, true),
   (newElement kIOHIDElementTypeCollection 0 0 0 0, true),
   (newElement kIOHIDElementTypeInput_Button 1 0 1 20, true),
   (newElement kIOHIDElementTypeInput_Misc 1 1 8 20, true)]

/-- A transport that delivers for every request the two bytes `[id, 131]`,
`id` being the report ID asked for, and whose `setReport` always succeeds. -/
def echoTransport : Transport where
  getReport := fun _ _ id => (kIOReturnSuccess, [id, 131])
  setReport := fun _ _ _ _ => kIOReturnSuccess

/-- Registration calls of a device with output and feature elements: a
collection, an output button and an output value of report 1, a feature value of
report 2, and an output value of report 9, which shares the dispatch slot of
report 1. -/
def sampleOutputCalls : List (IOHIDElement × Bool) :=
  [(newElement kIOHIDElementTypeCollection 0 0 0 0, true),
   (newElement kIOHIDElementTypeOutput 1 8 1 4, true),
   (newElement kIOHIDElementTypeOutput 1 9 7 4, true),
   (newElement kIOHIDElementTypeFeature 2 8 8 4, true),
   (newElement kIOHIDElementTypeOutput 9 8 8 4, true)]

/-- The device after `sampleOutputCalls`, declaring three reports of two bytes. -/
def sampleOutputDevice : IOHIDDevice :=
  { registerElements emptyDevice sampleOutputCalls with
    reportCount := 3
    maxOutputReportSize := 2
    maxFeatureReportSize := 2 }

/-! ## Dispatch chains: basic facts -/

theorem GetReportHandlerSlot_eq_mod (id : Nat) : GetReportHandlerSlot id = id % 8 := by
  unfold GetReportHandlerSlot kReportHandlerSlots
  exact Nat.and_pow_two_sub_one_eq_mod id 3

theorem isChain_none {arr : List IOHIDElement} {l : List Nat} :
    IsChain arr none l ↔ l = [] := by
  cases l <;> simp [IsChain]

theorem isChain_some {arr : List IOHIDElement} {i : Nat} {l : List Nat} :
    IsChain arr (some i) l ↔
      ∃ e l1, l = i :: l1 ∧ arr[i]? = some e ∧ IsChain arr e.nextReportHandler l1 := by
  cases l with
  | nil => simp [IsChain]
  | cons j l1 =>
    simp only [IsChain, List.cons.injEq]
    constructor
    · rintro ⟨rfl, e, he, hc⟩
      exact ⟨e, l1, ⟨rfl, rfl⟩, he, hc⟩
    · rintro ⟨e, l2, ⟨rfl, rfl⟩, he, hc⟩
      exact ⟨rfl, e, he, hc⟩

theorem isChain_lt {arr : List IOHIDElement} {cur : Option Nat} {l : List Nat}
    (h : IsChain arr cur l) : ∀ i ∈ l, i < arr.length := by
  induction l generalizing cur with
  | nil => simp
  | cons j l ih =>
    cases cur with
    | none => simp [IsChain] at h
    | some i =>
      obtain ⟨rfl, e, he, hc⟩ := h
      intro k hk
      rcases List.mem_cons.1 hk with rfl | hk
      · exact (List.getElem?_eq_some.1 he).1
      · exact ih hc k hk

theorem isChain_append {arr : List IOHIDElement} {cur : Option Nat} {l : List Nat}
    (x : List IOHIDElement) (h : IsChain arr cur l) : IsChain (arr ++ x) cur l := by
  induction l generalizing cur with
  | nil => cases cur <;> simp_all [IsChain]
  | cons j l ih =>
    cases cur with
    | none => simp [IsChain] at h
    | some i =>
      obtain ⟨rfl, e, he, hc⟩ := h
      refine ⟨rfl, e, ?_, ih hc⟩
      rw [List.getElem?_append_left (List.getElem?_eq_some.1 he).1]
      exact he

theorem isChain_set {arr : List IOHIDElement} {cur : Option Nat} {l : List Nat}
    (k : Nat) (x : IOHIDElement) (hk : k ∉ l) (h : IsChain arr cur l) :
    IsChain (arr.set k x) cur l := by
  induction l generalizing cur with
  | nil => cases cur <;> simp_all [IsChain]
  | cons j l ih =>
    cases cur with
    | none => simp [IsChain] at h
    | some i =>
      obtain ⟨rfl, e, he, hc⟩ := h
      simp only [List.mem_cons, not_or] at hk
      refine ⟨rfl, e, ?_, ih hk.2 hc⟩
      rw [List.getElem?_set_ne hk.1]
      exact he

theorem isChain_unique {arr : List IOHIDElement} {cur : Option Nat} {l1 l2 : List Nat}
    (h1 : IsChain arr cur l1) (h2 : IsChain arr cur l2) : l1 = l2 := by
  induction l1 generalizing cur l2 with
  | nil =>
    cases cur with
    | none => exact (isChain_none.1 h2).symm
    | some i => simp [IsChain] at h1
  | cons j l ih =>
    cases cur with
    | none => simp [IsChain] at h1
    | some i =>
      obtain ⟨rfl, e, he, hc⟩ := h1
      obtain ⟨e2, l3, rfl, he2, hc2⟩ := isChain_some.1 h2
      rw [he] at he2
      cases he2
      rw [ih hc hc2]

theorem chainFrom_of_isChain {arr : List IOHIDElement} {cur : Option Nat} {l : List Nat}
    (h : IsChain arr cur l) (fuel : Nat) (hf : l.length ≤ fuel) :
    chainFrom fuel arr cur = some l := by
  induction l generalizing cur fuel with
  | nil =>
    cases cur with
    | none => cases fuel <;> simp [chainFrom]
    | some i => simp [IsChain] at h
  | cons j l ih =>
    cases cur with
    | none => simp [IsChain] at h
    | some i =>
      obtain ⟨rfl, e, he, hc⟩ := h
      cases fuel with
      | zero => simp at hf
      | succ fuel =>
        simp only [chainFrom, he]
        rw [ih hc fuel (by simpa using hf)]
        rfl

theorem isChain_of_chainFrom {arr : List IOHIDElement} {cur : Option Nat} {l : List Nat}
    (fuel : Nat) (h : chainFrom fuel arr cur = some l) : IsChain arr cur l := by
  induction fuel generalizing cur l with
  | zero =>
    cases cur with
    | none => simp [chainFrom] at h; subst h; trivial
    | some i => simp [chainFrom] at h
  | succ fuel ih =>
    cases cur with
    | none => simp [chainFrom] at h; subst h; trivial
    | some i =>
      simp only [chainFrom] at h
      cases he : arr[i]? with
      | none => simp [he] at h
      | some e =>
        simp only [he] at h
        cases hc : chainFrom fuel arr e.nextReportHandler with
        | none => simp [hc] at h
        | some l1 =>
          simp [hc] at h
          subst h
          exact ⟨rfl, e, he, ih hc⟩

theorem length_le_of_pairwise_lt {l : List Nat} {n : Nat} (hp : l.Pairwise (fun a b => b < a))
    (hl : ∀ i ∈ l, i < n) : l.length ≤ n := by
  induction l generalizing n with
  | nil => simp
  | cons a l ih =>
    rw [List.pairwise_cons] at hp
    have h1 : l.length ≤ a := ih hp.2 (fun i hi => hp.1 i hi)
    have h2 : a < n := hl a (List.mem_cons_self _ _)
    simp only [List.length_cons]
    omega

theorem nodup_of_pairwise_lt {l : List Nat} (hp : l.Pairwise (fun a b => b < a)) : l.Nodup := by
  refine List.Pairwise.imp ?_ hp
  intro a b hab
  omega

theorem onChain_lt {arr : List IOHIDElement} {slot : Nat} {type : IOHIDReportType} {i : Nat}
    (h : OnChain arr slot type i) : i < arr.length := by
  obtain ⟨e, he, _⟩ := h
  exact (List.getElem?_eq_some.1 he).1

theorem onChain_append_old {arr : List IOHIDElement} {slot : Nat} {type : IOHIDReportType}
    {i : Nat} (x : IOHIDElement) (hi : i < arr.length) :
    OnChain (arr ++ [x]) slot type i ↔ OnChain arr slot type i := by
  unfold OnChain
  rw [List.getElem?_append_left hi]

theorem onChain_append_new {arr : List IOHIDElement} {slot : Nat} {type : IOHIDReportType}
    (x : IOHIDElement) :
    OnChain (arr ++ [x]) slot type arr.length ↔
      (x.getReportType = some type ∧ GetReportHandlerSlot x.reportID = slot) := by
  unfold OnChain
  simp

theorem onChain_append {arr : List IOHIDElement} {slot : Nat} {type : IOHIDReportType}
    (x : IOHIDElement) (i : Nat) :
    OnChain (arr ++ [x]) slot type i ↔
      (OnChain arr slot type i ∨
        (i = arr.length ∧ x.getReportType = some type ∧ GetReportHandlerSlot x.reportID = slot)) := by
  rcases Nat.lt_trichotomy i arr.length with h | h | h
  · rw [onChain_append_old x h]
    constructor
    · exact Or.inl
    · rintro (h1 | ⟨h1, _⟩)
      · exact h1
      · omega
  · subst h
    rw [onChain_append_new]
    constructor
    · intro h1
      exact Or.inr ⟨rfl, h1⟩
    · rintro (h1 | ⟨_, h1⟩)
      · exact absurd (onChain_lt h1) (lt_irrefl _)
      · exact h1
  · constructor
    · intro h1
      have := onChain_lt h1
      simp at this
      omega
    · rintro (h1 | ⟨h1, _⟩)
      · have := onChain_lt h1
        omega
      · omega

theorem chainsWF_emptyDevice : ChainsWF emptyDevice := by
  intro slot type
  refine ⟨[], trivial, List.Pairwise.nil, ?_⟩
  intro i
  simp [OnChain, emptyDevice]

theorem registerElement_fail (dev : IOHIDDevice) (element : IOHIDElement) :
    registerElement dev element false = (false, none, dev) := by
  simp [registerElement]

theorem registerElement_untyped (dev : IOHIDDevice) (element : IOHIDElement)
    (hty : element.getReportType = none) :
    registerElement dev element true =
      (true, some dev.elementArray.length,
        { dev with elementArray := dev.elementArray ++ [element] }) := by
  simp [registerElement, hty]

theorem registerElement_typed (dev : IOHIDDevice) (element : IOHIDElement)
    (reportType : IOHIDReportType) (hty : element.getReportType = some reportType) :
    ∃ e1 : IOHIDElement,
      e1 = { element with nextReportHandler := e1.nextReportHandler } ∧
      (element.nextReportHandler = none →
        e1.nextReportHandler =
          dev.reportHandlers (GetReportHandlerSlot element.reportID) reportType) ∧
      registerElement dev element true =
        (true, some dev.elementArray.length,
          { dev with
            elementArray := dev.elementArray ++ [e1]
            reportHandlers := setHeadElement dev.reportHandlers
              (GetReportHandlerSlot element.reportID) reportType
              (some dev.elementArray.length) }) := by
  cases hh : dev.reportHandlers (GetReportHandlerSlot element.reportID) reportType with
  | none =>
    refine ⟨element, rfl, fun h => h, ?_⟩
    simp [registerElement, hty, hh]
  | some head =>
    refine ⟨element.setNextReportHandler (some head), rfl, fun _ => rfl, ?_⟩
    simp [registerElement, hty, hh]

theorem chainsWF_registerElement (dev : IOHIDDevice) (element : IOHIDElement) (ok : Bool)
    (hfresh : element.nextReportHandler = none) (h : ChainsWF dev) :
    ChainsWF (registerElement dev element ok).2.2 := by
  cases ok with
  | false => rw [registerElement_fail]; exact h
  | true =>
    cases hty : element.getReportType with
    | none =>
      rw [registerElement_untyped dev element hty]
      intro slot type
      obtain ⟨l, hc, hp, hm⟩ := h slot type
      refine ⟨l, isChain_append _ hc, hp, ?_⟩
      intro i
      rw [onChain_append, hm]
      simp [hty]
    | some reportType =>
      obtain ⟨e1, he1, hnext, hreg⟩ := registerElement_typed dev element reportType hty
      rw [hreg]
      have h1 : e1.getReportType = some reportType := by
        rw [he1]; exact hty
      have h2 : e1.reportID = element.reportID := by
        rw [he1]
      intro slot type
      obtain ⟨l, hc, hp, hm⟩ := h slot type
      simp only [setHeadElement]
      by_cases hst : slot = GetReportHandlerSlot element.reportID ∧ type = reportType
      · obtain ⟨rfl, rfl⟩ := hst
        simp only [and_self, ↓reduceIte]
        refine ⟨dev.elementArray.length :: l, ?_, ?_, ?_⟩
        · refine ⟨rfl, e1, by simp, ?_⟩
          rw [hnext hfresh]
          exact isChain_append _ hc
        · rw [List.pairwise_cons]
          exact ⟨fun i hi => isChain_lt hc i hi, hp⟩
        · intro i
          rw [onChain_append, List.mem_cons, hm, h1, h2]
          simp [or_comm]
      · simp only [hst, ↓reduceIte]
        refine ⟨l, isChain_append _ hc, hp, ?_⟩
        intro i
        rw [onChain_append, hm, h1, h2]
        constructor
        · exact Or.inl
        · rintro (h3 | ⟨_, h3, h4⟩)
          · exact h3
          · exact absurd ⟨h4.symm, (Option.some.inj h3).symm⟩ hst

theorem chainsWF_registerElements (calls : List (IOHIDElement × Bool)) (dev : IOHIDDevice)
    (hfresh : ∀ c ∈ calls, c.1.nextReportHandler = none) (h : ChainsWF dev) :
    ChainsWF (registerElements dev calls) := by
  induction calls generalizing dev with
  | nil => exact h
  | cons c rest ih =>
    obtain ⟨e, ok⟩ := c
    simp only [registerElements]
    apply ih
    · intro c hc
      exact hfresh c (List.mem_cons_of_mem _ hc)
    · exact chainsWF_registerElement dev e ok (hfresh (e, ok) (List.mem_cons_self _ _)) h

theorem walkChain_eq_walkList {σ : Type}
    (step : Nat → IOHIDElement → σ → IOHIDElement × σ × Option Nat)
    (hnext : ∀ i e s, (step i e s).2.2 = e.nextReportHandler)
    {arr : List IOHIDElement} {cur : Option Nat} {l : List Nat}
    (h : IsChain arr cur l) (hnd : l.Nodup) (fuel : Nat) (hf : l.length ≤ fuel) (s : σ) :
    walkChain step fuel arr cur s = some (walkList step l arr s) := by
  induction l generalizing cur arr fuel s with
  | nil =>
    cases cur with
    | none => cases fuel <;> simp [walkChain, walkList]
    | some i => simp [IsChain] at h
  | cons j l ih =>
    cases cur with
    | none => simp [IsChain] at h
    | some i =>
      obtain ⟨rfl, e, he, hc⟩ := h
      cases fuel with
      | zero => simp at hf
      | succ fuel =>
        rw [List.nodup_cons] at hnd
        simp only [walkChain, walkList, he]
        rw [hnext]
        exact ih (isChain_set i _ hnd.1 hc) hnd.2 fuel (by simpa using hf) _

theorem walkList_length {σ : Type}
    (step : Nat → IOHIDElement → σ → IOHIDElement × σ × Option Nat)
    (l : List Nat) (arr : List IOHIDElement) (s : σ) :
    (walkList step l arr s).1.length = arr.length := by
  induction l generalizing arr s with
  | nil => rfl
  | cons i l ih =>
    simp only [walkList]
    cases he : arr[i]? with
    | none => exact ih arr s
    | some e => simp [ih]

theorem walkList_getElem_of_not_mem {σ : Type}
    (step : Nat → IOHIDElement → σ → IOHIDElement × σ × Option Nat)
    (l : List Nat) (arr : List IOHIDElement) (s : σ) (k : Nat) (hk : k ∉ l) :
    (walkList step l arr s).1[k]? = arr[k]? := by
  induction l generalizing arr s with
  | nil => rfl
  | cons i l ih =>
    simp only [List.mem_cons, not_or] at hk
    simp only [walkList]
    cases he : arr[i]? with
    | none => exact ih arr s hk.2
    | some e =>
      simp only []
      rw [ih _ _ hk.2, List.getElem?_set_ne (Ne.symm hk.1)]

/-! ## Report routing: `handleReport` -/

theorem dispatchChain_of_chainsWF {dev : IOHIDDevice} (h : ChainsWF dev) (slot : Nat)
    (type : IOHIDReportType) :
    ∃ l, dispatchChain dev slot type = some l ∧
      IsChain dev.elementArray (dev.reportHandlers slot type) l ∧ l.Nodup ∧
      l.length ≤ dev.elementArray.length ∧
      ∀ i, i ∈ l ↔ OnChain dev.elementArray slot type i := by
  obtain ⟨l, hc, hp, hm⟩ := h slot type
  have hlen := length_le_of_pairwise_lt hp (isChain_lt hc)
  exact ⟨l, chainFrom_of_isChain hc _ hlen, hc, nodup_of_pairwise_lt hp, hlen, hm⟩

theorem chainsWF_sampleDevice : ChainsWF sampleDevice :=
  chainsWF_registerElements sampleCalls emptyDevice (by decide) chainsWF_emptyDevice

theorem chainsWF_sampleDeviceNotReady : ChainsWF sampleDeviceNotReady :=
  chainsWF_registerElements sampleCalls emptyDevice (by decide) chainsWF_emptyDevice

theorem handleReportStep_next (reportID : Nat) (reportData : List Nat) (i : Nat)
    (e : IOHIDElement) (s : Bool × List Nat) :
    (handleReportStep reportID reportData i e s).2.2 = e.nextReportHandler := by
  unfold handleReportStep IOHIDElement.processReport
  split <;> rfl

/-- The walk of `handleReport` along a list of distinct elements: the state
afterwards, and every element of the array afterwards. -/
theorem walkList_handleReportStep (reportID : Nat) (reportData : List Nat) (l : List Nat) :
    ∀ (arr : List IOHIDElement) (c : Bool) (tr : List Nat),
      (∀ i ∈ l, i < arr.length) → l.Nodup →
      ((walkList (handleReportStep reportID reportData) l arr (c, tr)).2.2 = tr ++ l) ∧
      ((walkList (handleReportStep reportID reportData) l arr (c, tr)).2.1 = true ↔
        c = true ∨ ∃ i ∈ l, ∃ e, arr[i]? = some e ∧
          (e.processReport reportID reportData (reportData.length * 8)).1 = true) ∧
      (∀ k, k ∈ l → ∀ e, arr[k]? = some e →
        (walkList (handleReportStep reportID reportData) l arr (c, tr)).1[k]? =
          some (e.processReport reportID reportData (reportData.length * 8)).2.1) := by
  induction l with
  | nil =>
    intro arr c tr _ _
    simp [walkList]
  | cons i l ih =>
    intro arr c tr hlt hnd
    rw [List.nodup_cons] at hnd
    have hi : i < arr.length := hlt i (List.mem_cons_self _ _)
    have he : arr[i]? = some arr[i] := List.getElem?_eq_getElem hi
    have hlt2 : ∀ j ∈ l, j < (arr.set i
        (handleReportStep reportID reportData i arr[i] (c, tr)).1).length := by
      intro j hj
      rw [List.length_set]
      exact hlt j (List.mem_cons_of_mem _ hj)
    obtain ⟨h1, h2, h3⟩ := ih (arr.set i (handleReportStep reportID reportData i arr[i] (c, tr)).1)
      (c || (arr[i].processReport reportID reportData (reportData.length * 8)).1) (tr ++ [i])
      hlt2 hnd.2
    have hstep : (handleReportStep reportID reportData i arr[i] (c, tr)).2.1 =
        (c || (arr[i].processReport reportID reportData (reportData.length * 8)).1,
          tr ++ [i]) := rfl
    have hother : ∀ j ∈ l, (arr.set i
        (handleReportStep reportID reportData i arr[i] (c, tr)).1)[j]? = arr[j]? := by
      intro j hj
      apply List.getElem?_set_ne
      rintro rfl
      exact hnd.1 hj
    simp only [walkList, he, hstep]
    refine ⟨?_, ?_, ?_⟩
    · rw [h1]; simp
    · rw [h2]
      simp only [Bool.or_eq_true, List.mem_cons, exists_eq_or_imp, he, Option.some.injEq,
        exists_eq_left']
      constructor
      · rintro (⟨hc | hc⟩ | ⟨j, hj, e, hje, hch⟩)
        · exact Or.inl hc
        · exact Or.inr (Or.inl hc)
        · rw [hother j hj] at hje
          exact Or.inr (Or.inr ⟨j, hj, e, hje, hch⟩)
      · rintro (hc | hc | ⟨j, hj, e, hje, hch⟩)
        · exact Or.inl (Or.inl hc)
        · exact Or.inl (Or.inr hc)
        · rw [← hother j hj] at hje
          exact Or.inr ⟨j, hj, e, hje, hch⟩
    · intro k hk e hke
      rcases List.mem_cons.1 hk with rfl | hk
      · rw [walkList_getElem_of_not_mem _ _ _ _ _ hnd.1]
        rw [he] at hke
        cases hke
        simp [List.getElem?_set, hi]
        rfl
      · apply h3 k hk
        rw [hother k hk]
        exact hke

/-- `handleReport` on a ready device with well-formed chains: the walk ends, it
visits the dispatch chain of the report, and each visited element is replaced
by the result of its `processReport`. -/
theorem handleReport_ready (dev : IOHIDDevice) (hwf : ChainsWF dev) (reportData : List Nat)
    (hne : reportData.length ≠ 0) (segmentSize : Nat) (mallocOk : Bool)
    (halloc : segmentSize = reportData.length ∨ mallocOk = true)
    (hready : dev.readyForInputReports = true) (reportType : IOHIDReportType) :
    ∃ r l, handleReport dev reportData segmentSize mallocOk reportType = some r ∧
      dispatchChain dev (GetReportHandlerSlot (handleReportID dev reportData)) reportType
        = some l ∧
      l.Nodup ∧
      (∀ i, i ∈ l ↔ OnChain dev.elementArray
        (GetReportHandlerSlot (handleReportID dev reportData)) reportType i) ∧
      r.ret = kIOReturnSuccess ∧
      r.processed = l ∧
      (r.changed = true ↔ ∃ i ∈ l, ∃ e, dev.elementArray[i]? = some e ∧
        (e.processReport (handleReportID dev reportData) reportData
          (reportData.length * 8)).1 = true) ∧
      (∀ k ∈ l, ∀ e, dev.elementArray[k]? = some e →
        r.dev.elementArray[k]? = some (e.processReport (handleReportID dev reportData)
          reportData (reportData.length * 8)).2.1) ∧
      (∀ k, k ∉ l → r.dev.elementArray[k]? = dev.elementArray[k]?) ∧
      r.dev.reportHandlers = dev.reportHandlers := by
  obtain ⟨l, hd, hc, hnd, hlen, hm⟩ := dispatchChain_of_chainsWF hwf
    (GetReportHandlerSlot (handleReportID dev reportData)) reportType
  have hlt := isChain_lt hc
  have hwalk := walkChain_eq_walkList (handleReportStep (handleReportID dev reportData) reportData)
    (handleReportStep_next _ _) hc hnd dev.elementArray.length hlen (false, [])
  obtain ⟨h1, h2, h3⟩ := walkList_handleReportStep (handleReportID dev reportData) reportData l
    dev.elementArray false [] hlt hnd
  have hnot : ¬(segmentSize ≠ reportData.length ∧ mallocOk = false) := by
    rintro ⟨ha, hb⟩
    rcases halloc with h | h
    · exact ha h
    · rw [h] at hb; cases hb
  have hres : handleReport dev reportData segmentSize mallocOk reportType =
      some { ret := kIOReturnSuccess,
             changed := (walkList (handleReportStep (handleReportID dev reportData) reportData)
               l dev.elementArray (false, [])).2.1,
             dev := { dev with elementArray :=
               (walkList (handleReportStep (handleReportID dev reportData) reportData)
                 l dev.elementArray (false, [])).1 },
             processed := (walkList (handleReportStep (handleReportID dev reportData)
               reportData) l dev.elementArray (false, [])).2.2 } := by
    unfold handleReport
    simp only [hne, hnot, hready, ↓reduceIte, GetHeadElement, hwalk]
  refine ⟨_, l, hres, hd, hnd, hm, rfl, ?_, ?_, h3, ?_, rfl⟩
  · simpa using h1
  · simpa using h2
  · intro k hk
    exact walkList_getElem_of_not_mem _ _ _ _ _ hk

/-- `handleReport` on a device that is not ready: nothing is processed, the
device is unchanged, and the code is `kIOReturnNotReady` unless the copy buffer
was needed and could not be allocated. -/
theorem handleReport_of_notReady (dev : IOHIDDevice)
    (hready : dev.readyForInputReports = false)
    (reportData : List Nat) (hne : reportData.length ≠ 0) (segmentSize : Nat)
    (mallocOk : Bool) (reportType : IOHIDReportType) :
    ∃ r, handleReport dev reportData segmentSize mallocOk reportType = some r ∧
      r.processed = [] ∧ r.dev = dev ∧ r.changed = false ∧
      r.ret = (if segmentSize ≠ reportData.length ∧ mallocOk = false then kIOReturnNoMemory
        else kIOReturnNotReady) := by
  by_cases h : segmentSize ≠ reportData.length ∧ mallocOk = false
  · refine ⟨{ ret := kIOReturnNoMemory, changed := false, dev := dev, processed := [] },
      ?_, rfl, rfl, rfl, ?_⟩
    · simp only [handleReport, hne, h, ↓reduceIte, and_self, ne_eq, not_false_eq_true]
    · rw [if_pos h]
  · refine ⟨{ ret := kIOReturnNotReady, changed := false, dev := dev, processed := [] },
      ?_, rfl, rfl, rfl, ?_⟩
    · simp only [handleReport, hne, h, hready, ↓reduceIte, Bool.false_eq_true]
    · rw [if_neg h]

theorem processReport_of_ne (e : IOHIDElement) (reportID : Nat) (reportData : List Nat)
    (bits : Nat) (h : e.reportID ≠ reportID) :
    e.processReport reportID reportData bits = (false, e, e.nextReportHandler) := by
  simp [IOHIDElement.processReport, h]

/-- C2: on a ready device with well-formed dispatch chains, routing a non-empty
report of type `reportType` whose extracted report ID is `R` ends; every element
with report type `reportType` and report ID `R` has `processReport` invoked on
it exactly once and is replaced by the result of that one step; every element
whose report ID differs from `R`, in the same slot or not, is left as it
was. -/
theorem handleReport_routes_matching_elements (dev : IOHIDDevice) (hwf : ChainsWF dev)
    (reportData : List Nat) (hne : reportData.length ≠ 0) (segmentSize : Nat)
    (mallocOk : Bool) (halloc : segmentSize = reportData.length ∨ mallocOk = true)
    (hready : dev.readyForInputReports = true) (reportType : IOHIDReportType) :
    ∃ r, handleReport dev reportData segmentSize mallocOk reportType = some r ∧
      (∀ (i : Nat) (e : IOHIDElement), dev.elementArray[i]? = some e → e.getReportType = some reportType →
        e.reportID = handleReportID dev reportData →
        r.processed.count i = 1 ∧
        r.dev.elementArray[i]? = some (e.processReport (handleReportID dev reportData)
          reportData (reportData.length * 8)).2.1) ∧
      (∀ (i : Nat) (e : IOHIDElement), dev.elementArray[i]? = some e → e.reportID ≠ handleReportID dev reportData →
        r.dev.elementArray[i]? = some e) := by
  obtain ⟨r, l, hr, _, hnd, hm, _, hp, _, hin, hout, _⟩ :=
    handleReport_ready dev hwf reportData hne segmentSize mallocOk halloc hready reportType
  refine ⟨r, hr, ?_, ?_⟩
  · intro i e he hty hid
    have hi : i ∈ l := (hm i).2 ⟨e, he, hty, by rw [hid]⟩
    exact ⟨by rw [hp]; exact List.count_eq_one_of_mem hnd hi, hin i hi e he⟩
  · intro i e he hid
    by_cases hi : i ∈ l
    · rw [hin i hi e he, processReport_of_ne e _ _ _ hid]
    · rw [hout i hi, he]

/-- The routing theorem at `sampleDevice` and the report `[1, 131]`. -/
theorem handleReport_routes_matching_elements_witness :
    ChainsWF sampleDevice ∧ ([1, 131] : List Nat).length ≠ 0 ∧
    sampleDevice.readyForInputReports = true ∧
    ∃ r, handleReport sampleDevice [1, 131] 2 true kIOHIDReportTypeInput = some r ∧
      (∀ (i : Nat) (e : IOHIDElement), sampleDevice.elementArray[i]? = some e →
        e.getReportType = some kIOHIDReportTypeInput →
        e.reportID = handleReportID sampleDevice [1, 131] →
        r.processed.count i = 1 ∧
        r.dev.elementArray[i]? = some (e.processReport (handleReportID sampleDevice [1, 131])
          [1, 131] (([1, 131] : List Nat).length * 8)).2.1) ∧
      (∀ (i : Nat) (e : IOHIDElement), sampleDevice.elementArray[i]? = some e →
        e.reportID ≠ handleReportID sampleDevice [1, 131] →
        r.dev.elementArray[i]? = some e) :=
  ⟨chainsWF_sampleDevice, by decide, rfl,
    handleReport_routes_matching_elements sampleDevice chainsWF_sampleDevice [1, 131]
      (by decide) 2 true (Or.inl rfl) rfl kIOHIDReportTypeInput⟩

/-- C3: on a ready device with well-formed dispatch chains, `handleReport` on a
buffer with first byte `b` returns after dispatching on one report ID `id`: it
walks the chain at the head of slot `GetReportHandlerSlot id` and calls
`processReport` with `id` on every element of that chain and on no other
element.  This `id` is the first byte `b` when the report count is greater than
one, and 0 when the report count is zero or one, whatever the buffer holds. -/
theorem handleReport_reportID (dev : IOHIDDevice) (hwf : ChainsWF dev) (b : Nat)
    (rest : List Nat) (hb : b < 256) (segmentSize : Nat) (mallocOk : Bool)
    (halloc : segmentSize = (b :: rest).length ∨ mallocOk = true)
    (hready : dev.readyForInputReports = true) (reportType : IOHIDReportType) :
    ∃ r l id, handleReport dev (b :: rest) segmentSize mallocOk reportType = some r ∧
      (1 < dev.reportCount → id = b) ∧
      (dev.reportCount ≤ 1 → id = 0) ∧
      dispatchChain dev (GetReportHandlerSlot id) reportType = some l ∧
      r.processed = l ∧
      (∀ k ∈ l, ∀ e, dev.elementArray[k]? = some e →
        r.dev.elementArray[k]? =
          some (e.processReport id (b :: rest) ((b :: rest).length * 8)).2.1) ∧
      (∀ k, k ∉ l → r.dev.elementArray[k]? = dev.elementArray[k]?) := by
  obtain ⟨r, l, hr, hd, _, _, _, hproc, _, hin, hout, _⟩ :=
    handleReport_ready dev hwf (b :: rest) (by simp) segmentSize mallocOk halloc hready
      reportType
  refine ⟨r, l, handleReportID dev (b :: rest), hr, ?_, ?_, hd, hproc, hin, hout⟩
  · intro h
    unfold handleReportID
    rw [if_pos h, List.headD_cons, Nat.mod_eq_of_lt hb]
  · intro h
    unfold handleReportID
    rw [if_neg (by omega)]

/-- The report ID theorem at `sampleDevice`, whose report count is 2, and the
buffer `[1, 131]`. -/
theorem handleReport_reportID_witness :
    ChainsWF sampleDevice ∧ (1 : Nat) < 256 ∧
    ((2 : Nat) = ((1 : Nat) :: [131]).length ∨ true = true) ∧
    sampleDevice.readyForInputReports = true ∧
    ∃ r l id, handleReport sampleDevice (1 :: [131]) 2 true kIOHIDReportTypeInput = some r ∧
      (1 < sampleDevice.reportCount → id = 1) ∧
      (sampleDevice.reportCount ≤ 1 → id = 0) ∧
      dispatchChain sampleDevice (GetReportHandlerSlot id) kIOHIDReportTypeInput = some l ∧
      r.processed = l ∧
      (∀ k ∈ l, ∀ e, sampleDevice.elementArray[k]? = some e →
        r.dev.elementArray[k]? =
          some (e.processReport id (1 :: [131]) (((1 : Nat) :: [131]).length * 8)).2.1) ∧
      (∀ k, k ∉ l → r.dev.elementArray[k]? = sampleDevice.elementArray[k]?) :=
  ⟨chainsWF_sampleDevice, by decide, Or.inl rfl, rfl,
    handleReport_reportID sampleDevice chainsWF_sampleDevice 1 [131] (by decide) 2 true
      (Or.inl rfl) rfl kIOHIDReportTypeInput⟩

/-- C4, as stated, fails: on a device that is not ready, a non-empty report
spanning several segments whose copy buffer cannot be allocated makes
`handleReport` return `kIOReturnNoMemory`, not `kIOReturnNotReady`. -/
theorem handleReport_noMemory_before_ready_check :
    sampleDeviceNotReady.readyForInputReports = false ∧ ([1, 131] : List Nat).length ≠ 0 ∧
    ∃ r, handleReport sampleDeviceNotReady [1, 131] 1 false kIOHIDReportTypeInput = some r ∧
      r.ret = kIOReturnNoMemory ∧ r.ret ≠ kIOReturnNotReady :=
  ⟨rfl, by decide, _, rfl, rfl, by decide⟩

/-- C4, amended: on a device that is not ready, `handleReport` on a non-empty
buffer invokes `processReport` on no element, leaves the whole device (every
element value and transaction state) unchanged, reports `changed = false`, and
returns `kIOReturnNotReady`, unless the report spans several segments and the
copy buffer cannot be allocated, in which case it returns
`kIOReturnNoMemory`. -/
theorem handleReport_notReady (dev : IOHIDDevice) (hready : dev.readyForInputReports = false)
    (reportData : List Nat) (hne : reportData.length ≠ 0) (segmentSize : Nat)
    (mallocOk : Bool) (reportType : IOHIDReportType) :
    ∃ r, handleReport dev reportData segmentSize mallocOk reportType = some r ∧
      r.processed = [] ∧ r.dev = dev ∧ r.changed = false ∧
      r.ret = (if segmentSize ≠ reportData.length ∧ mallocOk = false then kIOReturnNoMemory
        else kIOReturnNotReady) := by
  exact handleReport_of_notReady dev hready reportData hne segmentSize mallocOk reportType

/-- The not-ready theorem at `sampleDeviceNotReady` and the report `[1, 131]`. -/
theorem handleReport_notReady_witness :
    sampleDeviceNotReady.readyForInputReports = false ∧ ([1, 131] : List Nat).length ≠ 0 ∧
    ∃ r, handleReport sampleDeviceNotReady [1, 131] 2 true kIOHIDReportTypeInput = some r ∧
      r.processed = [] ∧ r.dev = sampleDeviceNotReady ∧ r.changed = false ∧
      r.ret = (if 2 ≠ ([1, 131] : List Nat).length ∧ true = false then kIOReturnNoMemory
        else kIOReturnNotReady) :=
  ⟨rfl, by decide,
    handleReport_notReady sampleDeviceNotReady rfl [1, 131] (by decide) 2 true
      kIOHIDReportTypeInput⟩

/-- C5: with the copy buffer allocated (or not needed), `handleReport` on a
device with well-formed dispatch chains returns; the code is
`kIOReturnBadArgument` exactly when the report length is zero, whatever the
ready flag; for a non-empty report it is `kIOReturnNotReady` when the device is
not ready and `kIOReturnSuccess` when it is, whatever the report IDs of the
elements on the chain. -/
theorem handleReport_return_code (dev : IOHIDDevice) (hwf : ChainsWF dev)
    (reportData : List Nat) (segmentSize : Nat) (mallocOk : Bool)
    (halloc : segmentSize = reportData.length ∨ mallocOk = true)
    (reportType : IOHIDReportType) :
    ∃ r, handleReport dev reportData segmentSize mallocOk reportType = some r ∧
      (r.ret = kIOReturnBadArgument ↔ reportData.length = 0) ∧
      (reportData.length ≠ 0 → dev.readyForInputReports = false →
        r.ret = kIOReturnNotReady) ∧
      (reportData.length ≠ 0 → dev.readyForInputReports = true →
        r.ret = kIOReturnSuccess) := by
  by_cases hlen : reportData.length = 0
  · refine ⟨{ ret := kIOReturnBadArgument, changed := false, dev := dev, processed := [] },
      ?_, ?_, ?_, ?_⟩
    · simp [handleReport, hlen]
    · simp [hlen]
    · intro h; exact absurd hlen h
    · intro h; exact absurd hlen h
  · cases hready : dev.readyForInputReports with
    | false =>
      obtain ⟨r, hr, _, _, _, hret⟩ :=
        handleReport_of_notReady dev hready reportData hlen segmentSize mallocOk reportType
      have hnot : ¬(segmentSize ≠ reportData.length ∧ mallocOk = false) := by
        rintro ⟨ha, hb⟩
        rcases halloc with h | h
        · exact ha h
        · rw [h] at hb; cases hb
      rw [if_neg hnot] at hret
      refine ⟨r, hr, ?_, ?_, ?_⟩
      · rw [hret]; simp [hlen]
      · intro _ _; exact hret
      · intro _ h; cases h
    | true =>
      obtain ⟨r, l, hr, _, _, _, hret, _⟩ :=
        handleReport_ready dev hwf reportData hlen segmentSize mallocOk halloc hready reportType
      refine ⟨r, hr, ?_, ?_, ?_⟩
      · rw [hret]; simp [hlen]
      · intro _ h; cases h
      · intro _ _; exact hret

/-- The return code theorem at `sampleDevice` and the report `[1, 131]`. -/
theorem handleReport_return_code_witness :
    ChainsWF sampleDevice ∧ ((2 : Nat) = ([1, 131] : List Nat).length ∨ true = true) ∧
    ∃ r, handleReport sampleDevice [1, 131] 2 true kIOHIDReportTypeInput = some r ∧
      (r.ret = kIOReturnBadArgument ↔ ([1, 131] : List Nat).length = 0) ∧
      (([1, 131] : List Nat).length ≠ 0 → sampleDevice.readyForInputReports = false →
        r.ret = kIOReturnNotReady) ∧
      (([1, 131] : List Nat).length ≠ 0 → sampleDevice.readyForInputReports = true →
        r.ret = kIOReturnSuccess) :=
  ⟨chainsWF_sampleDevice, Or.inl rfl,
    handleReport_return_code sampleDevice chainsWF_sampleDevice [1, 131] 2 true (Or.inl rfl)
      kIOHIDReportTypeInput⟩

/-- C6: for a report routed on a ready device with well-formed dispatch chains,
the elements processed are exactly the dispatch chain of the report, in chain
order, and `changed` is true exactly when `processReport` reported a change for
at least one element of that chain; it is false for an empty chain. -/
theorem handleReport_changed_iff (dev : IOHIDDevice) (hwf : ChainsWF dev)
    (reportData : List Nat) (hne : reportData.length ≠ 0) (segmentSize : Nat)
    (mallocOk : Bool) (halloc : segmentSize = reportData.length ∨ mallocOk = true)
    (hready : dev.readyForInputReports = true) (reportType : IOHIDReportType) :
    ∃ r l, handleReport dev reportData segmentSize mallocOk reportType = some r ∧
      dispatchChain dev (GetReportHandlerSlot (handleReportID dev reportData)) reportType
        = some l ∧
      r.processed = l ∧
      (r.changed = true ↔ ∃ i ∈ l, ∃ e, dev.elementArray[i]? = some e ∧
        (e.processReport (handleReportID dev reportData) reportData
          (reportData.length * 8)).1 = true) ∧
      (l = [] → r.changed = false) := by
  obtain ⟨r, l, hr, hd, _, _, _, hp, hch, _⟩ :=
    handleReport_ready dev hwf reportData hne segmentSize mallocOk halloc hready reportType
  refine ⟨r, l, hr, hd, hp, hch, ?_⟩
  intro hl
  subst hl
  cases hc : r.changed with
  | false => rfl
  | true => simpa using hch.1 hc

/-- The changed-flag theorem at `sampleDevice` and the report `[1, 131]`. -/
theorem handleReport_changed_iff_witness :
    ChainsWF sampleDevice ∧ ([1, 131] : List Nat).length ≠ 0 ∧
    sampleDevice.readyForInputReports = true ∧
    ∃ r l, handleReport sampleDevice [1, 131] 2 true kIOHIDReportTypeInput = some r ∧
      dispatchChain sampleDevice (GetReportHandlerSlot (handleReportID sampleDevice [1, 131]))
        kIOHIDReportTypeInput = some l ∧
      r.processed = l ∧
      (r.changed = true ↔ ∃ i ∈ l, ∃ e, sampleDevice.elementArray[i]? = some e ∧
        (e.processReport (handleReportID sampleDevice [1, 131]) [1, 131]
          (([1, 131] : List Nat).length * 8)).1 = true) ∧
      (l = [] → r.changed = false) :=
  ⟨chainsWF_sampleDevice, by decide, rfl,
    handleReport_changed_iff sampleDevice chainsWF_sampleDevice [1, 131] (by decide) 2 true
      (Or.inl rfl) rfl kIOHIDReportTypeInput⟩

/-! ## The dispatch chains after registration -/

/-- C10: after any sequence of `registerElement` calls of new elements on the
empty device, the dispatch chain of every `(slot, type)` ends, and lists each
exactly once precisely the registered elements with report type `type` whose
report ID is congruent to `slot` modulo 8, whatever their report ID is
otherwise; an element without a report type is on no chain. -/
theorem registerElement_dispatch_chain (calls : List (IOHIDElement × Bool))
    (hfresh : ∀ c ∈ calls, c.1.nextReportHandler = none)
    (slot : Nat) (type : IOHIDReportType) :
    ∃ l, dispatchChain (registerElements emptyDevice calls) slot type = some l ∧
      l.Nodup ∧
      (∀ i, i ∈ l ↔ ∃ e, (registerElements emptyDevice calls).elementArray[i]? = some e ∧
        e.getReportType = some type ∧ e.reportID % 8 = slot) ∧
      (∀ i e, (registerElements emptyDevice calls).elementArray[i]? = some e →
        e.getReportType = none → i ∉ l) := by
  obtain ⟨l, hd, _, hnd, _, hm⟩ := dispatchChain_of_chainsWF
    (chainsWF_registerElements calls emptyDevice hfresh chainsWF_emptyDevice) slot type
  have hm2 : ∀ i, i ∈ l ↔ ∃ e, (registerElements emptyDevice calls).elementArray[i]? = some e ∧
      e.getReportType = some type ∧ e.reportID % 8 = slot := by
    intro i
    rw [hm i]
    unfold OnChain
    simp only [GetReportHandlerSlot_eq_mod]
  refine ⟨l, hd, hnd, hm2, ?_⟩
  intro i e he hty hi
  obtain ⟨e2, he2, hty2, _⟩ := (hm2 i).1 hi
  rw [he] at he2
  cases he2
  rw [hty] at hty2
  cases hty2

/-- The chain theorem at `sampleCalls`, slot 1 and input reports. -/
theorem registerElement_dispatch_chain_witness :
    (∀ c ∈ sampleCalls, c.1.nextReportHandler = none) ∧
    ∃ l, dispatchChain (registerElements emptyDevice sampleCalls) 1 kIOHIDReportTypeInput = some l ∧
      l.Nodup ∧
      (∀ i, i ∈ l ↔ ∃ e, (registerElements emptyDevice sampleCalls).elementArray[i]? = some e ∧
        e.getReportType = some kIOHIDReportTypeInput ∧ e.reportID % 8 = 1) ∧
      (∀ i e, (registerElements emptyDevice sampleCalls).elementArray[i]? = some e →
        e.getReportType = none → i ∉ l) :=
  ⟨by decide, registerElement_dispatch_chain sampleCalls (by decide) 1 kIOHIDReportTypeInput⟩

/-! ## Building the element hierarchy -/

theorem map_set_same {β : Type} (f : IOHIDElement → β) (arr : List IOHIDElement) (i : Nat)
    (e x : IOHIDElement) (he : arr[i]? = some e) (hx : f x = f e) :
    (arr.set i x).map f = arr.map f := by
  apply List.ext_getElem?
  intro n
  simp only [List.getElem?_map, List.getElem?_set]
  split
  · next h =>
    subst h
    split
    · simp [he, hx]
    · next h2 =>
      have := (List.getElem?_eq_some.1 he).1
      exact absurd this h2
  · rfl

theorem walkChain_map {σ β : Type} (f : IOHIDElement → β)
    (step : Nat → IOHIDElement → σ → IOHIDElement × σ × Option Nat)
    (hf : ∀ i e s, f (step i e s).1 = f e) (fuel : Nat) :
    ∀ (arr : List IOHIDElement) (cur : Option Nat) (s : σ) (r : List IOHIDElement × σ),
      walkChain step fuel arr cur s = some r → r.1.map f = arr.map f := by
  induction fuel with
  | zero =>
    intro arr cur s r h
    cases cur with
    | none => simp [walkChain] at h; subst h; rfl
    | some i => simp [walkChain] at h
  | succ fuel ih =>
    intro arr cur s r h
    cases cur with
    | none => simp [walkChain] at h; subst h; rfl
    | some i =>
      simp only [walkChain] at h
      cases he : arr[i]? with
      | none => simp [he] at h
      | some e =>
        simp only [he] at h
        rw [ih _ _ _ _ h]
        exact map_set_same f arr i e _ he (hf i e s)

theorem walkAllChains_map {σ β : Type} (f : IOHIDElement → β)
    (step : Nat → IOHIDElement → σ → IOHIDElement × σ × Option Nat)
    (hf : ∀ i e s, f (step i e s).1 = f e) (fuel : Nat)
    (handlers : Nat → IOHIDReportType → Option Nat) (pairs : List (Nat × IOHIDReportType)) :
    ∀ (arr : List IOHIDElement) (s : σ) (r : List IOHIDElement × σ),
      walkAllChains step fuel handlers pairs arr s = some r → r.1.map f = arr.map f := by
  induction pairs with
  | nil =>
    intro arr s r h
    simp [walkAllChains] at h
    subst h
    rfl
  | cons p rest ih =>
    intro arr s r h
    obtain ⟨slot, type⟩ := p
    simp only [walkAllChains] at h
    cases hw : walkChain step fuel arr (handlers slot type) s with
    | none => simp [hw] at h
    | some r1 =>
      simp only [hw] at h
      rw [ih _ _ _ h]
      exact walkChain_map f step hf fuel _ _ _ _ hw

theorem createMemoryForElementValues_map {β : Type} (f : IOHIDElement → β)
    (hf : ∀ (e : IOHIDElement) (loc : Option Nat), f { e with valueLocation := loc } = f e)
    (dev : IOHIDDevice) (ok : Bool) (m : ValueMemory)
    (h : createMemoryForElementValues dev ok = some m) :
    m.dev.elementArray.map f = dev.elementArray.map f ∧
      m.dev.dataElementIndex = dev.dataElementIndex ∧
      m.dev.reportHandlers = dev.reportHandlers := by
  unfold createMemoryForElementValues at h
  cases h1 : walkAllChains capacityStep dev.elementArray.length dev.reportHandlers dispatchOrder
      dev.elementArray 0 with
  | none => simp [h1] at h
  | some r1 =>
    simp only [h1] at h
    cases ok with
    | false =>
      simp at h
      subst h
      exact ⟨rfl, rfl, rfl⟩
    | true =>
      simp only [Bool.true_eq_false, ↓reduceIte] at h
      cases h2 : walkAllChains (assignStep r1.2) dev.elementArray.length dev.reportHandlers
          dispatchOrder dev.elementArray (0, true) with
      | none => simp [h2] at h
      | some r2 =>
        simp only [h2, Option.some.injEq] at h
        subst h
        refine ⟨?_, rfl, rfl⟩
        exact walkAllChains_map f (assignStep r1.2) (fun i e s => hf e _) _ _ _ _ _ _ h2

theorem registerElement_map {β : Type} (f : IOHIDElement → β)
    (hf : ∀ (e : IOHIDElement) (next : Option Nat), f { e with nextReportHandler := next } = f e)
    (dev : IOHIDDevice) (element : IOHIDElement) :
    (registerElement dev element true).1 = true ∧
    (registerElement dev element true).2.2.elementArray.map f =
      dev.elementArray.map f ++ [f element] ∧
    (registerElement dev element true).2.2.dataElementIndex = dev.dataElementIndex := by
  cases hty : element.getReportType with
  | none =>
    rw [registerElement_untyped dev element hty]
    simp
  | some reportType =>
    obtain ⟨e1, he1, _, hreg⟩ := registerElement_typed dev element reportType hty
    rw [hreg]
    have : f e1 = f element := by rw [he1]; exact hf _ _
    simp [this]

theorem registerElement_false_of_fail (dev : IOHIDDevice) (element : IOHIDElement) :
    (registerElement dev element false).1 = false := by
  rw [registerElement_fail]

theorem recordChild_map {β : Type} (f : IOHIDElement → β)
    (hf : ∀ (e : IOHIDElement) (l : List Nat), f { e with childArray := l } = f e)
    (arr : List IOHIDElement) (p c : Nat) :
    (recordChild arr p c).map f = arr.map f := by
  unfold recordChild
  cases hp : arr[p]? with
  | none => rfl
  | some q => exact map_set_same f arr p q _ hp (hf _ _)

theorem recordParent_map_describe (arr : List IOHIDElement) (p c : Nat) :
    (recordParent arr p c).map describe = arr.map describe := by
  unfold recordParent
  cases hc : arr[c]? with
  | none => rfl
  | some q => exact map_set_same describe arr c q _ hc rfl

theorem recordParent_map_parent (arr : List IOHIDElement) (p c : Nat) :
    (recordParent arr p c).map (fun e => e.parent) =
      (arr.map (fun e => e.parent)).set c (some p) := by
  unfold recordParent
  cases hc : arr[c]? with
  | none =>
    have hlen : arr.length ≤ c := List.getElem?_eq_none_iff.1 hc
    rw [List.set_eq_of_length_le (by simpa using hlen)]
  | some q =>
    simp only []
    rw [List.map_set]

theorem attachChild_map_describe (arr : List IOHIDElement) (p c : Nat) :
    (attachChild arr p c).map describe = arr.map describe := by
  unfold attachChild
  rw [recordParent_map_describe, recordChild_map describe (fun _ _ => rfl)]

theorem attachChild_map_parent (arr : List IOHIDElement) (p c : Nat) :
    (attachChild arr p c).map (fun e => e.parent) =
      (arr.map (fun e => e.parent)).set c (some p) := by
  unfold attachChild
  rw [recordParent_map_parent, recordChild_map (fun e => e.parent) (fun _ _ => rfl)]

theorem set_length_append_singleton {β : Type} (l : List β) (a x : β) :
    (l ++ [a]).set l.length x = l ++ [x] := by
  induction l with
  | nil => rfl
  | cons b l ih => simp [ih]

theorem set_length_append_cons {β : Type} (l : List β) (a x : β) (t : List β) :
    (l ++ a :: t).set l.length x = l ++ x :: t := by
  induction l with
  | nil => rfl
  | cons b l ih => simp [ih]

theorem collectionElement_some (env : BuildEnv) (dev dev1 : IOHIDDevice)
    (type : IOHIDElementType) (node : HIDCollectionNode)
    (h : collectionElement env dev type node = some dev1) :
    dev1.elementArray.map describe = dev.elementArray.map describe ++ [(type, 0, 0, 0)] ∧
    dev1.elementArray.map (fun e => e.parent) =
      dev.elementArray.map (fun e => e.parent) ++ [none] ∧
    dev1.dataElementIndex = dev.dataElementIndex := by
  unfold collectionElement at h
  cases hok : env.elementOk dev.elementArray.length with
  | false =>
    rw [hok, registerElement_fail] at h
    simp at h
  | true =>
    rw [hok] at h
    obtain ⟨h1, h2, h3⟩ := registerElement_map describe (fun _ _ => rfl) dev
      (newElement type 0 0 0 0)
    obtain ⟨_, h4, _⟩ := registerElement_map (fun e => e.parent) (fun _ _ => rfl) dev
      (newElement type 0 0 0 0)
    simp only [h1, ↓reduceIte, Option.some.injEq] at h
    subst h
    exact ⟨h2, h4, h3⟩

/-- What attaching a newly registered element to its parent does to the two
maps. -/
theorem attach_maps (dev : IOHIDDevice) (element : IOHIDElement) (parent : Option Nat)
    (hpar : element.parent = none) (dev1 : IOHIDDevice)
    (h : (match parent with
      | some p =>
        some { (registerElement dev element true).2.2 with
          elementArray := attachChild (registerElement dev element true).2.2.elementArray
            p dev.elementArray.length }
      | none => some (registerElement dev element true).2.2) = some dev1) :
    dev1.elementArray.map describe = dev.elementArray.map describe ++ [describe element] ∧
    dev1.elementArray.map (fun e => e.parent) =
      dev.elementArray.map (fun e => e.parent) ++ [parent] ∧
    dev1.dataElementIndex = dev.dataElementIndex := by
  obtain ⟨_, h2, h3⟩ := registerElement_map describe (fun _ _ => rfl) dev element
  obtain ⟨_, h4, _⟩ := registerElement_map (fun e => e.parent) (fun _ _ => rfl) dev element
  cases parent with
  | none =>
    simp only [Option.some.injEq] at h
    subst h
    rw [hpar] at h4
    exact ⟨h2, h4, h3⟩
  | some p =>
    simp only [Option.some.injEq] at h
    subst h
    refine ⟨?_, ?_, h3⟩
    · simp only []
      rw [attachChild_map_describe, h2]
    · simp only []
      rw [attachChild_map_parent, h4, hpar]
      have := set_length_append_singleton (dev.elementArray.map (fun e => e.parent)) none (some p)
      simp

theorem buttonElement_some (env : BuildEnv) (dev dev1 : IOHIDDevice)
    (type : IOHIDElementType) (button : HIDButtonCapabilities) (parent : Option Nat)
    (h : buttonElement env dev type button parent = some dev1) :
    dev1.elementArray.map describe =
      dev.elementArray.map describe ++ [describeButton type button] ∧
    dev1.elementArray.map (fun e => e.parent) =
      dev.elementArray.map (fun e => e.parent) ++ [parent] ∧
    dev1.dataElementIndex = dev.dataElementIndex := by
  unfold buttonElement at h
  cases hok : env.elementOk dev.elementArray.length with
  | false =>
    rw [hok, registerElement_fail] at h
    simp at h
  | true =>
    rw [hok] at h
    have h1 := (registerElement_map describe (fun _ _ => rfl) dev
      (newElement type button.reportID button.startBit 1 (env.valueSize 1))).1
    simp only [h1, ↓reduceIte] at h
    exact attach_maps dev _ parent rfl dev1 h

theorem valueElement_some (env : BuildEnv) (dev dev1 : IOHIDDevice)
    (type : IOHIDElementType) (value : HIDValueCapabilities) (parent : Option Nat)
    (h : valueElement env dev type value parent = some dev1) :
    dev1.elementArray.map describe =
      dev.elementArray.map describe ++ [describeValue type value] ∧
    dev1.elementArray.map (fun e => e.parent) =
      dev.elementArray.map (fun e => e.parent) ++ [parent] ∧
    dev1.dataElementIndex = dev.dataElementIndex := by
  unfold valueElement at h
  cases hok : env.elementOk dev.elementArray.length with
  | false =>
    rw [hok, registerElement_fail] at h
    simp at h
  | true =>
    rw [hok] at h
    have h1 := (registerElement_map describe (fun _ _ => rfl) dev
      (newElement type value.reportID value.startBit value.bitSize
        (env.valueSize value.bitSize))).1
    simp only [h1, ↓reduceIte] at h
    exact attach_maps dev _ parent rfl dev1 h

theorem createCollectionLoop_true (env : BuildEnv) (nodes : List HIDCollectionNode) :
    ∀ (dev dev1 : IOHIDDevice), createCollectionLoop env nodes dev = (true, dev1) →
      dev1.elementArray.map describe = dev.elementArray.map describe ++
        nodes.map (fun _ => (kIOHIDElementTypeCollection, 0, 0, 0)) ∧
      dev1.elementArray.map (fun e => e.parent) =
        dev.elementArray.map (fun e => e.parent) ++ List.replicate nodes.length none ∧
      dev1.dataElementIndex = dev.dataElementIndex := by
  induction nodes with
  | nil =>
    intro dev dev1 h
    simp only [createCollectionLoop, Prod.mk.injEq, true_and] at h
    subst h
    simp
  | cons node rest ih =>
    intro dev dev1 h
    simp only [createCollectionLoop] at h
    cases hc : collectionElement env dev kIOHIDElementTypeCollection node with
    | none => simp [hc] at h
    | some dev2 =>
      simp only [hc] at h
      obtain ⟨a1, a2, a3⟩ := collectionElement_some env dev dev2 _ node hc
      obtain ⟨b1, b2, b3⟩ := ih dev2 dev1 h
      refine ⟨?_, ?_, ?_⟩
      · rw [b1, a1]; simp
      · rw [b2, a2]; simp [List.replicate_succ]
      · rw [b3, a3]

theorem createButtonLoop_true (env : BuildEnv) (type : IOHIDElementType)
    (buttons : List HIDButtonCapabilities) :
    ∀ (dev dev1 : IOHIDDevice), createButtonLoop env type buttons dev = (true, dev1) →
      dev1.elementArray.map describe = dev.elementArray.map describe ++
        buttons.map (describeButton type) ∧
      (∃ extra, dev1.elementArray.map (fun e => e.parent) =
        dev.elementArray.map (fun e => e.parent) ++ extra) ∧
      dev1.dataElementIndex = dev.dataElementIndex := by
  induction buttons with
  | nil =>
    intro dev dev1 h
    simp only [createButtonLoop, Prod.mk.injEq, true_and] at h
    subst h
    exact ⟨by simp, ⟨[], by simp⟩, rfl⟩
  | cons button rest ih =>
    intro dev dev1 h
    simp only [createButtonLoop] at h
    cases hc : buttonElement env dev type button
        (getObjectIndex dev.elementArray button.collection) with
    | none => simp [hc] at h
    | some dev2 =>
      simp only [hc] at h
      obtain ⟨a1, a2, a3⟩ := buttonElement_some env dev dev2 _ button _ hc
      obtain ⟨b1, ⟨extra, b2⟩, b3⟩ := ih dev2 dev1 h
      refine ⟨?_, ⟨getObjectIndex dev.elementArray button.collection :: extra, ?_⟩, ?_⟩
      · rw [b1, a1]; simp
      · rw [b2, a2]; simp
      · rw [b3, a3]

theorem createValueLoop_true (env : BuildEnv) (type : IOHIDElementType)
    (values : List HIDValueCapabilities) :
    ∀ (dev dev1 : IOHIDDevice), createValueLoop env type values dev = (true, dev1) →
      dev1.elementArray.map describe = dev.elementArray.map describe ++
        values.map (describeValue type) ∧
      (∃ extra, dev1.elementArray.map (fun e => e.parent) =
        dev.elementArray.map (fun e => e.parent) ++ extra) ∧
      dev1.dataElementIndex = dev.dataElementIndex := by
  induction values with
  | nil =>
    intro dev dev1 h
    simp only [createValueLoop, Prod.mk.injEq, true_and] at h
    subst h
    exact ⟨by simp, ⟨[], by simp⟩, rfl⟩
  | cons value rest ih =>
    intro dev dev1 h
    simp only [createValueLoop] at h
    cases hc : valueElement env dev type value
        (getObjectIndex dev.elementArray value.collection) with
    | none => simp [hc] at h
    | some dev2 =>
      simp only [hc] at h
      obtain ⟨a1, a2, a3⟩ := valueElement_some env dev dev2 _ value _ hc
      obtain ⟨b1, ⟨extra, b2⟩, b3⟩ := ih dev2 dev1 h
      refine ⟨?_, ⟨getObjectIndex dev.elementArray value.collection :: extra, ?_⟩, ?_⟩
      · rw [b1, a1]; simp
      · rw [b2, a2]; simp
      · rw [b3, a3]

/-- The two outcomes of `linkToParent`: the child is attached, the parent being
in the table and the child not on the way up from it, or nothing changes. -/
theorem linkToParent_cases (arr : List IOHIDElement) (parentIndex childIndex : Nat) :
    (linkToParent arr parentIndex childIndex = (true, attachChild arr parentIndex childIndex) ∧
      (∃ q, arr[parentIndex]? = some q) ∧
      onParentPath arr.length arr parentIndex childIndex = false) ∨
    (linkToParent arr parentIndex childIndex = (false, arr) ∧
      (arr[parentIndex]? = none ∨
        onParentPath arr.length arr parentIndex childIndex = true)) := by
  unfold linkToParent addChildElement
  cases hp : arr[parentIndex]? with
  | none => exact Or.inr ⟨rfl, Or.inl rfl⟩
  | some q =>
    cases hc : onParentPath arr.length arr parentIndex childIndex with
    | true => exact Or.inr ⟨by simp, Or.inr rfl⟩
    | false => exact Or.inl ⟨by simp, ⟨q, rfl⟩, rfl⟩

theorem linkCollectionLoop_true (nodes : List HIDCollectionNode) :
    ∀ (index : Nat) (arr arr1 : List IOHIDElement),
      linkCollectionLoop nodes index arr = (true, arr1) →
      arr1.map describe = arr.map describe ∧
      ∀ (pre post : List (Option Nat)),
        arr.map (fun e => e.parent) = pre ++ (List.replicate nodes.length none ++ post) →
        pre.length = index →
        arr1.map (fun e => e.parent) = pre ++ (nodes.map (fun n => some n.parent) ++ post) := by
  induction nodes with
  | nil =>
    intro index arr arr1 h
    simp only [linkCollectionLoop, Prod.mk.injEq, true_and] at h
    subst h
    exact ⟨rfl, fun pre post h1 _ => by simpa using h1⟩
  | cons node rest ih =>
    intro index arr arr1 h
    simp only [linkCollectionLoop] at h
    rcases linkToParent_cases arr node.parent index with ⟨hl, _, _⟩ | ⟨hl, _⟩
    · rw [hl] at h
      simp only [↓reduceIte] at h
      obtain ⟨b1, b2⟩ := ih (index + 1) _ arr1 h
      refine ⟨?_, ?_⟩
      · rw [b1, attachChild_map_describe]
      · intro pre post hpre hlen
        have := b2 (pre ++ [some node.parent]) post (by
          rw [attachChild_map_parent, hpre, ← hlen]
          simp only [List.length_cons, List.replicate_succ, List.cons_append]
          rw [set_length_append_cons]
          simp) (by simp [hlen])
        rw [this]
        simp
    · rw [hl] at h
      simp at h

theorem createCollectionElements_true (env : BuildEnv) (p : HIDPreparsedData)
    (dev dev1 : IOHIDDevice) (maxCount : Nat) (hmax : maxCount = p.collectionNodes.length)
    (hempty : dev.elementArray = [])
    (h : createCollectionElements env p dev maxCount = (true, dev1)) :
    dev1.elementArray.map describe =
      p.collectionNodes.map (fun _ => (kIOHIDElementTypeCollection, 0, 0, 0)) ∧
    dev1.elementArray.map (fun e => e.parent) =
      (p.collectionNodes.take 1).map (fun _ => none) ++
        (p.collectionNodes.drop 1).map (fun n => some n.parent) := by
  unfold createCollectionElements at h
  cases hm : env.collectionsMallocOk with
  | false => simp [hm] at h
  | true =>
    simp only [hm, Bool.true_eq_false, ↓reduceIte, HIDGetCollectionNodes, hmax,
      List.take_length] at h
    by_cases hs : p.collectionNodesStatus ≠ kHIDSuccess
    · simp [hs] at h
    · simp only [hs, ↓reduceIte] at h
      cases hc : createCollectionLoop env p.collectionNodes dev with
      | mk ok dev2 =>
        rw [hc] at h
        cases ok with
        | false => simp at h
        | true =>
          simp only [Bool.true_eq_false, ↓reduceIte, Prod.mk.injEq] at h
          obtain ⟨a1, a2, _⟩ := createCollectionLoop_true env _ dev dev2 hc
          rw [hempty] at a1 a2
          obtain ⟨hl, hd⟩ := h
          cases hlk : linkCollectionLoop (p.collectionNodes.drop 1) 1 dev2.elementArray with
          | mk ok2 arr2 =>
            rw [hlk] at hl hd
            simp only at hl hd
            subst hl
            subst hd
            obtain ⟨b1, b2⟩ := linkCollectionLoop_true _ 1 _ arr2 hlk
            refine ⟨?_, ?_⟩
            · simp only []
              rw [b1, a1]
              simp
            · simp only []
              cases hn : p.collectionNodes with
              | nil =>
                rw [hn] at a2 hlk
                simp at a2
                simp [linkCollectionLoop] at hlk
                rw [← hlk, a2]
                simp
              | cons n rest =>
                rw [hn] at a2 b2
                have := b2 [none] [] (by rw [a2]; simp [List.replicate_succ]) rfl
                rw [this]
                simp

theorem createButtonElements_true (env : BuildEnv) (p : HIDPreparsedData)
    (dev : IOHIDDevice) (hid : HIDReportType) (type : IOHIDElementType) (maxCount : Nat)
    (hmax : maxCount = (p.buttonCaps hid).length)
    (h : (createButtonElements env p dev hid type maxCount).1 = true) :
    (createButtonElements env p dev hid type maxCount).2.elementArray.map describe =
      dev.elementArray.map describe ++ (p.buttonCaps hid).map (describeButton type) ∧
    (∃ extra, (createButtonElements env p dev hid type maxCount).2.elementArray.map
        (fun e => e.parent) = dev.elementArray.map (fun e => e.parent) ++ extra) ∧
    (createButtonElements env p dev hid type maxCount).2.dataElementIndex =
      dev.dataElementIndex := by
  unfold createButtonElements at h ⊢
  by_cases h0 : maxCount = 0
  · have hnil : p.buttonCaps hid = [] := by
      rw [h0] at hmax
      exact List.length_eq_zero.1 hmax.symm
    simp only [h0, ↓reduceIte, hnil]
    exact ⟨by simp, ⟨[], by simp⟩, by trivial⟩
  · simp only [h0, ↓reduceIte] at h ⊢
    cases hm : env.buttonsMallocOk hid with
    | false => simp [hm] at h
    | true =>
      simp only [hm, Bool.true_eq_false, ↓reduceIte, HIDGetButtonCapabilities, hmax,
        List.take_length] at h ⊢
      by_cases hs : p.buttonCapsStatus hid ≠ kHIDSuccess
      · simp [hs] at h
      · simp only [hs, ↓reduceIte] at h ⊢
        exact createButtonLoop_true env type _ dev _ (Prod.ext h rfl)

theorem createValueElements_true (env : BuildEnv) (p : HIDPreparsedData)
    (dev : IOHIDDevice) (hid : HIDReportType) (type : IOHIDElementType) (maxCount : Nat)
    (hmax : maxCount = (p.valueCaps hid).length)
    (h : (createValueElements env p dev hid type maxCount).1 = true) :
    (createValueElements env p dev hid type maxCount).2.elementArray.map describe =
      dev.elementArray.map describe ++ (p.valueCaps hid).map (describeValue type) ∧
    (∃ extra, (createValueElements env p dev hid type maxCount).2.elementArray.map
        (fun e => e.parent) = dev.elementArray.map (fun e => e.parent) ++ extra) ∧
    (createValueElements env p dev hid type maxCount).2.dataElementIndex =
      dev.dataElementIndex := by
  unfold createValueElements at h ⊢
  by_cases h0 : maxCount = 0
  · have hnil : p.valueCaps hid = [] := by
      rw [h0] at hmax
      exact List.length_eq_zero.1 hmax.symm
    simp only [h0, ↓reduceIte, hnil]
    exact ⟨by simp, ⟨[], by simp⟩, by trivial⟩
  · simp only [h0, ↓reduceIte] at h ⊢
    cases hm : env.valuesMallocOk hid with
    | false => simp [hm] at h
    | true =>
      simp only [hm, Bool.true_eq_false, ↓reduceIte, HIDGetValueCapabilities, hmax,
        List.take_length] at h ⊢
      by_cases hs : p.valueCapsStatus hid ≠ kHIDSuccess
      · simp [hs] at h
      · simp only [hs, ↓reduceIte] at h ⊢
        exact createValueLoop_true env type _ dev _ (Prod.ext h rfl)

theorem orBreak_success (r : Bool × IOHIDDevice)
    (rest : IOHIDDevice → Option (IOReturn × IOHIDDevice)) (dev1 : IOHIDDevice)
    (h : orBreak r rest = some (kIOReturnSuccess, dev1)) :
    r.1 = true ∧ rest r.2 = some (kIOReturnSuccess, dev1) := by
  unfold orBreak at h
  by_cases h1 : r.1 = true
  · rw [if_pos h1] at h
    exact ⟨h1, h⟩
  · rw [if_neg h1] at h
    simp at h

/-- The stages of a successful `createElementHierarchy`. -/
theorem createElementHierarchy_success (env : BuildEnv) (p : HIDPreparsedData)
    (dev dev1 : IOHIDDevice)
    (h : createElementHierarchy env p dev = some (kIOReturnSuccess, dev1)) :
    ∃ (d0 c b1 b2 b3 v1 v2 v3 : IOHIDDevice) (m : ValueMemory),
      d0.elementArray = [] ∧
      createCollectionElements env p d0 p.caps.numberCollectionNodes = (true, c) ∧
      b1 = (createButtonElements env p { c with dataElementIndex := c.elementArray.length }
        kHIDInputReport kIOHIDElementTypeInput_Button p.caps.numberInputButtonCaps).2 ∧
      (createButtonElements env p { c with dataElementIndex := c.elementArray.length }
        kHIDInputReport kIOHIDElementTypeInput_Button p.caps.numberInputButtonCaps).1 = true ∧
      b2 = (createButtonElements env p b1 kHIDOutputReport kIOHIDElementTypeOutput
        p.caps.numberOutputButtonCaps).2 ∧
      (createButtonElements env p b1 kHIDOutputReport kIOHIDElementTypeOutput
        p.caps.numberOutputButtonCaps).1 = true ∧
      b3 = (createButtonElements env p b2 kHIDFeatureReport kIOHIDElementTypeFeature
        p.caps.numberFeatureButtonCaps).2 ∧
      (createButtonElements env p b2 kHIDFeatureReport kIOHIDElementTypeFeature
        p.caps.numberFeatureButtonCaps).1 = true ∧
      v1 = (createValueElements env p b3 kHIDInputReport kIOHIDElementTypeInput_Misc
        p.caps.numberInputValueCaps).2 ∧
      (createValueElements env p b3 kHIDInputReport kIOHIDElementTypeInput_Misc
        p.caps.numberInputValueCaps).1 = true ∧
      v2 = (createValueElements env p v1 kHIDOutputReport kIOHIDElementTypeOutput
        p.caps.numberOutputValueCaps).2 ∧
      (createValueElements env p v1 kHIDOutputReport kIOHIDElementTypeOutput
        p.caps.numberOutputValueCaps).1 = true ∧
      v3 = (createValueElements env p v2 kHIDFeatureReport kIOHIDElementTypeFeature
        p.caps.numberFeatureValueCaps).2 ∧
      (createValueElements env p v2 kHIDFeatureReport kIOHIDElementTypeFeature
        p.caps.numberFeatureValueCaps).1 = true ∧
      createMemoryForElementValues v3 env.descriptorOk = some m ∧
      dev1.elementArray = m.dev.elementArray ∧
      dev1.dataElementIndex = m.dev.dataElementIndex ∧
      dev1.reportHandlers = m.dev.reportHandlers ∧
      dev1.elementValuesDescriptor = m.descriptor ∧ m.descriptor ≠ none := by
  unfold createElementHierarchy at h
  by_cases g1 : p.capabilitiesStatus ≠ kHIDSuccess
  · rw [if_pos g1] at h
    simp at h
  · rw [if_neg g1] at h
    simp only [] at h
    by_cases g2 : env.elementArrayOk = false
    · rw [if_pos g2] at h
      simp at h
    · rw [if_neg g2] at h
      obtain ⟨c1, h⟩ := orBreak_success _ _ _ h
      obtain ⟨c2, h⟩ := orBreak_success _ _ _ h
      obtain ⟨c3, h⟩ := orBreak_success _ _ _ h
      obtain ⟨c4, h⟩ := orBreak_success _ _ _ h
      obtain ⟨c5, h⟩ := orBreak_success _ _ _ h
      obtain ⟨c6, h⟩ := orBreak_success _ _ _ h
      obtain ⟨c7, h⟩ := orBreak_success _ _ _ h
      cases hm : createMemoryForElementValues
          (createValueElements env p _ kHIDFeatureReport kIOHIDElementTypeFeature
            p.caps.numberFeatureValueCaps).2 env.descriptorOk with
      | none =>
        rw [hm] at h
        simp at h
      | some m =>
        rw [hm] at h
        cases hd : m.descriptor with
        | none =>
          simp only [hd] at h
          simp at h
        | some capacity =>
          simp only [hd, Option.some.injEq, Prod.mk.injEq, true_and] at h
          subst h
          exact ⟨_, _, _, _, _, _, _, _, m, rfl, Prod.ext c1 rfl, rfl, c2, rfl, c3, rfl, c4,
            rfl, c5, rfl, c6, rfl, c7, hm, rfl, rfl, rfl, hd.symm, by simp [hd]⟩

/-- The element table of a successful build from a well-formed capability
source: creation data in the promised order, first data index, and parents of
the collections. -/
theorem createElementHierarchy_table (env : BuildEnv) (p : HIDPreparsedData)
    (dev dev1 : IOHIDDevice) (hwf : CapsWellFormed p)
    (h : createElementHierarchy env p dev = some (kIOReturnSuccess, dev1)) :
    dev1.elementArray.map describe = expectedTable p ∧
    dev1.dataElementIndex = p.collectionNodes.length ∧
    ∃ extra, dev1.elementArray.map (fun e => e.parent) =
      ((p.collectionNodes.take 1).map (fun _ => none) ++
        (p.collectionNodes.drop 1).map (fun n => some n.parent)) ++ extra := by
  obtain ⟨w1, w2, w3, w4, w5, w6, w7⟩ := hwf
  obtain ⟨d0, c, b1, b2, b3, v1, v2, v3, m, hd0, hc, e1, s1, e2, s2, e3, s3, e4, s4, e5, s5,
    e6, s6, hm, ha, hi, _, _, _⟩ := createElementHierarchy_success env p dev dev1 h
  obtain ⟨c1, c2⟩ := createCollectionElements_true env p d0 c _ w1 hd0 hc
  obtain ⟨x1, ⟨p1, y1⟩, z1⟩ := createButtonElements_true env p _ _ _ _ w2 s1
  rw [← e1] at x1 y1 z1
  obtain ⟨x2, ⟨p2, y2⟩, z2⟩ := createButtonElements_true env p b1 _ _ _ w3 s2
  rw [← e2] at x2 y2 z2
  obtain ⟨x3, ⟨p3, y3⟩, z3⟩ := createButtonElements_true env p b2 _ _ _ w4 s3
  rw [← e3] at x3 y3 z3
  obtain ⟨x4, ⟨p4, y4⟩, z4⟩ := createValueElements_true env p b3 _ _ _ w5 s4
  rw [← e4] at x4 y4 z4
  obtain ⟨x5, ⟨p5, y5⟩, z5⟩ := createValueElements_true env p v1 _ _ _ w6 s5
  rw [← e5] at x5 y5 z5
  obtain ⟨x6, ⟨p6, y6⟩, z6⟩ := createValueElements_true env p v2 _ _ _ w7 s6
  rw [← e6] at x6 y6 z6
  obtain ⟨m1, m2, _⟩ := createMemoryForElementValues_map describe (fun _ _ => rfl) v3 _ m hm
  obtain ⟨m3, _, _⟩ := createMemoryForElementValues_map (fun e => e.parent) (fun _ _ => rfl)
    v3 _ m hm
  have hclen : c.elementArray.length = p.collectionNodes.length := by
    have := congrArg List.length c1
    simpa using this
  refine ⟨?_, ?_, ⟨p1 ++ p2 ++ p3 ++ p4 ++ p5 ++ p6, ?_⟩⟩
  · rw [ha, m1, x6, x5, x4, x3, x2, x1]
    simp only []
    rw [c1]
    rfl
  · rw [hi, m2, z6, z5, z4, z3, z2, z1]
    exact hclen
  · rw [ha, m3, y6, y5, y4, y3, y2, y1]
    simp only []
    rw [c2]
    simp only [List.append_assoc]

/-- C7, as stated, fails: the build from 2 collections, 1 input button and 1
input value succeeds with 4 elements, not `1 + 2 + 1 + 1 = 5`; the root is
collection 0 and is counted in the collection count. -/
theorem sampleBuild_has_four_elements :
    CapsWellFormed sampleCaps ∧
    ∃ dev1, createElementHierarchy sampleEnv sampleCaps emptyDevice =
        some (kIOReturnSuccess, dev1) ∧
      dev1.elementArray.length = 4 ∧
      dev1.elementArray.length ≠ 1 + sampleCaps.caps.numberCollectionNodes +
        (sampleCaps.caps.numberInputButtonCaps + sampleCaps.caps.numberOutputButtonCaps +
          sampleCaps.caps.numberFeatureButtonCaps) +
        (sampleCaps.caps.numberInputValueCaps + sampleCaps.caps.numberOutputValueCaps +
          sampleCaps.caps.numberFeatureValueCaps) :=
  ⟨by unfold CapsWellFormed; decide, _, rfl, rfl, by decide⟩

/-- C7, amended: for every well-formed capability input, after a successful
`createElementHierarchy` the element table holds exactly `collectionCount +
(sum of the three button counts) + (sum of the three value counts)` elements,
the root being one of the collections. -/
theorem createElementHierarchy_count (env : BuildEnv) (p : HIDPreparsedData)
    (dev dev1 : IOHIDDevice) (hwf : CapsWellFormed p)
    (h : createElementHierarchy env p dev = some (kIOReturnSuccess, dev1)) :
    dev1.elementArray.length = p.caps.numberCollectionNodes +
      (p.caps.numberInputButtonCaps + p.caps.numberOutputButtonCaps +
        p.caps.numberFeatureButtonCaps) +
      (p.caps.numberInputValueCaps + p.caps.numberOutputValueCaps +
        p.caps.numberFeatureValueCaps) := by
  have h1 := congrArg List.length (createElementHierarchy_table env p dev dev1 hwf h).1
  obtain ⟨w1, w2, w3, w4, w5, w6, w7⟩ := hwf
  simp only [List.length_map, expectedTable, List.length_append] at h1
  omega

/-- The element count theorem at the build from `sampleCaps`. -/
theorem createElementHierarchy_count_witness :
    CapsWellFormed sampleCaps ∧
    createElementHierarchy sampleEnv sampleCaps emptyDevice =
      some (kIOReturnSuccess, sampleBuilt) ∧
    sampleBuilt.elementArray.length =
      sampleCaps.caps.numberCollectionNodes +
      (sampleCaps.caps.numberInputButtonCaps + sampleCaps.caps.numberOutputButtonCaps +
        sampleCaps.caps.numberFeatureButtonCaps) +
      (sampleCaps.caps.numberInputValueCaps + sampleCaps.caps.numberOutputValueCaps +
        sampleCaps.caps.numberFeatureValueCaps) :=
  ⟨by unfold CapsWellFormed; decide, rfl,
    createElementHierarchy_count sampleEnv sampleCaps emptyDevice sampleBuilt
      (by unfold CapsWellFormed; decide) rfl⟩

/-- C8: after a successful build from a well-formed capability source the
recorded first data index equals the number of collections, and the element
table lists the collections in source order (index 0 the root, without parent,
every other collection with the parent its node names), then the input, output
and feature buttons, then the input, output and feature values, each group in
source order. -/
theorem createElementHierarchy_order (env : BuildEnv) (p : HIDPreparsedData)
    (dev dev1 : IOHIDDevice) (hwf : CapsWellFormed p)
    (h : createElementHierarchy env p dev = some (kIOReturnSuccess, dev1)) :
    dev1.dataElementIndex = p.caps.numberCollectionNodes ∧
    dev1.elementArray.map describe = expectedTable p ∧
    (dev1.elementArray.take p.caps.numberCollectionNodes).map (fun e => e.parent) =
      (p.collectionNodes.take 1).map (fun _ => none) ++
        (p.collectionNodes.drop 1).map (fun n => some n.parent) := by
  obtain ⟨h1, h2, extra, h3⟩ := createElementHierarchy_table env p dev dev1 hwf h
  refine ⟨by rw [h2, hwf.1], h1, ?_⟩
  rw [List.map_take, h3, hwf.1]
  have hlen : ((p.collectionNodes.take 1).map (fun _ => (none : Option Nat)) ++
      (p.collectionNodes.drop 1).map (fun n => some n.parent)).length =
      p.collectionNodes.length := by
    simp only [List.length_append, List.length_map, List.length_take, List.length_drop]
    omega
  rw [List.take_append_of_le_length (by rw [hlen]), ← hlen, List.take_length]

/-- The ordering theorem at the build from `sampleCaps`: the four handles are the
root, the collection, the button and the value. -/
theorem createElementHierarchy_order_witness :
    CapsWellFormed sampleCaps ∧
    createElementHierarchy sampleEnv sampleCaps emptyDevice =
      some (kIOReturnSuccess, sampleBuilt) ∧
    (sampleBuilt.dataElementIndex = sampleCaps.caps.numberCollectionNodes ∧
    sampleBuilt.elementArray.map describe = expectedTable sampleCaps ∧
    (sampleBuilt.elementArray.take sampleCaps.caps.numberCollectionNodes).map
        (fun e => e.parent) =
      (sampleCaps.collectionNodes.take 1).map (fun _ => none) ++
        (sampleCaps.collectionNodes.drop 1).map (fun n => some n.parent)) ∧
    sampleBuilt.elementArray.map (fun e => e.type) =
      [kIOHIDElementTypeCollection, kIOHIDElementTypeCollection,
        kIOHIDElementTypeInput_Button, kIOHIDElementTypeInput_Misc] :=
  ⟨by unfold CapsWellFormed; decide, rfl,
    createElementHierarchy_order sampleEnv sampleCaps emptyDevice sampleBuilt
      (by unfold CapsWellFormed; decide) rfl, by decide⟩

/-! ## Value memory layout -/

theorem walkList_append {σ : Type}
    (step : Nat → IOHIDElement → σ → IOHIDElement × σ × Option Nat) (l1 l2 : List Nat) :
    ∀ (arr : List IOHIDElement) (s : σ),
      walkList step (l1 ++ l2) arr s =
        walkList step l2 (walkList step l1 arr s).1 (walkList step l1 arr s).2 := by
  induction l1 with
  | nil => intro arr s; rfl
  | cons i l ih =>
    intro arr s
    simp only [List.cons_append, walkList]
    cases arr[i]? with
    | none => exact ih arr s
    | some e => exact ih _ _

theorem getElem?_map_eq {β : Type} (f : IOHIDElement → β) {arr arr1 : List IOHIDElement}
    (h : arr1.map f = arr.map f) (i : Nat) : arr1[i]?.map f = arr[i]?.map f := by
  rw [← List.getElem?_map, ← List.getElem?_map, h]

theorem chainFrom_congr {arr arr1 : List IOHIDElement}
    (h : arr1.map (fun e => e.nextReportHandler) = arr.map (fun e => e.nextReportHandler))
    (fuel : Nat) : ∀ cur, chainFrom fuel arr1 cur = chainFrom fuel arr cur := by
  induction fuel with
  | zero => intro cur; cases cur <;> rfl
  | succ fuel ih =>
    intro cur
    cases cur with
    | none => rfl
    | some i =>
      simp only [chainFrom]
      have hi := getElem?_map_eq _ h i
      cases h1 : arr1[i]? with
      | none =>
        rw [h1] at hi
        cases h2 : arr[i]? with
        | none => rfl
        | some e => rw [h2] at hi; simp at hi
      | some e1 =>
        rw [h1] at hi
        cases h2 : arr[i]? with
        | none => rw [h2] at hi; simp at hi
        | some e =>
          rw [h2] at hi
          simp only [Option.map_some', Option.some.injEq] at hi
          simp only [hi, ih]

theorem chainedElements_congr {arr arr1 : List IOHIDElement}
    (h : arr1.map (fun e => e.nextReportHandler) = arr.map (fun e => e.nextReportHandler))
    (fuel : Nat) (handlers : Nat → IOHIDReportType → Option Nat)
    (pairs : List (Nat × IOHIDReportType)) :
    chainedElements fuel arr1 handlers pairs = chainedElements fuel arr handlers pairs := by
  induction pairs with
  | nil => rfl
  | cons p rest ih =>
    obtain ⟨slot, type⟩ := p
    simp only [chainedElements, ih, chainFrom_congr h]

theorem chainFrom_length (fuel : Nat) :
    ∀ (arr : List IOHIDElement) (cur : Option Nat) (l : List Nat),
      chainFrom fuel arr cur = some l → l.length ≤ fuel := by
  induction fuel with
  | zero =>
    intro arr cur l h
    cases cur with
    | none => simp [chainFrom] at h; subst h; simp
    | some i => simp [chainFrom] at h
  | succ fuel ih =>
    intro arr cur l h
    cases cur with
    | none => simp [chainFrom] at h; subst h; simp
    | some i =>
      simp only [chainFrom] at h
      cases he : arr[i]? with
      | none => simp [he] at h
      | some e =>
        simp only [he] at h
        cases hc : chainFrom fuel arr e.nextReportHandler with
        | none => simp [hc] at h
        | some l1 =>
          simp [hc] at h
          subst h
          have := ih _ _ _ hc
          simp only [List.length_cons]
          omega

theorem walkAllChains_eq_walkList {σ : Type}
    (step : Nat → IOHIDElement → σ → IOHIDElement × σ × Option Nat)
    (hnext : ∀ i e s, (step i e s).2.2 = e.nextReportHandler)
    (hlink : ∀ i e s, (step i e s).1.nextReportHandler = e.nextReportHandler)
    (fuel : Nat) (handlers : Nat → IOHIDReportType → Option Nat)
    (pairs : List (Nat × IOHIDReportType)) :
    ∀ (arr : List IOHIDElement) (s : σ) (order : List Nat),
      chainedElements fuel arr handlers pairs = some order → order.Nodup →
      walkAllChains step fuel handlers pairs arr s = some (walkList step order arr s) := by
  induction pairs with
  | nil =>
    intro arr s order h _
    simp only [chainedElements, Option.some.injEq] at h
    subst h
    rfl
  | cons p rest ih =>
    intro arr s order h hnd
    obtain ⟨slot, type⟩ := p
    simp only [chainedElements] at h
    cases h1 : chainFrom fuel arr (handlers slot type) with
    | none => simp [h1] at h
    | some l =>
      cases h2 : chainedElements fuel arr handlers rest with
      | none => simp [h1, h2] at h
      | some r =>
        simp only [h1, h2, Option.some.injEq] at h
        subst h
        rw [List.nodup_append] at hnd
        have hw := walkChain_eq_walkList step hnext (isChain_of_chainFrom fuel h1) hnd.1 fuel
          (chainFrom_length fuel _ _ _ h1) s
        simp only [walkAllChains, hw]
        have hmap := walkChain_map (fun e => e.nextReportHandler) step hlink fuel _ _ _ _ hw
        rw [ih _ _ r (by rw [chainedElements_congr hmap]; exact h2) hnd.2.1, walkList_append]

theorem onChain_unique {arr : List IOHIDElement} {s1 s2 : Nat} {t1 t2 : IOHIDReportType}
    {i : Nat} (h1 : OnChain arr s1 t1 i) (h2 : OnChain arr s2 t2 i) : (s1, t1) = (s2, t2) := by
  obtain ⟨e1, he1, ht1, hs1⟩ := h1
  obtain ⟨e2, he2, ht2, hs2⟩ := h2
  rw [he1] at he2
  cases he2
  rw [ht1] at ht2
  cases ht2
  rw [← hs1, ← hs2]

theorem chainedElements_of_chainsWF {dev : IOHIDDevice} (h : ChainsWF dev)
    (pairs : List (Nat × IOHIDReportType)) (hp : pairs.Nodup) :
    ∃ order, chainedElements dev.elementArray.length dev.elementArray dev.reportHandlers pairs
        = some order ∧ order.Nodup ∧
      ∀ i, i ∈ order ↔ ∃ pr ∈ pairs, OnChain dev.elementArray pr.1 pr.2 i := by
  induction pairs with
  | nil => exact ⟨[], rfl, List.nodup_nil, by simp⟩
  | cons p rest ih =>
    obtain ⟨slot, type⟩ := p
    rw [List.nodup_cons] at hp
    obtain ⟨r, hr, hrnd, hrm⟩ := ih hp.2
    obtain ⟨l, hl, _, hlnd, _, hlm⟩ := dispatchChain_of_chainsWF h slot type
    unfold dispatchChain GetHeadElement at hl
    refine ⟨l ++ r, ?_, ?_, ?_⟩
    · simp only [chainedElements, hl, hr]
    · rw [List.nodup_append]
      refine ⟨hlnd, hrnd, ?_⟩
      intro i hi1 hi2
      obtain ⟨pr, hpr, hon⟩ := (hrm i).1 hi2
      have := onChain_unique ((hlm i).1 hi1) hon
      rw [this] at hp
      exact hp.1 hpr
    · intro i
      rw [List.mem_append, hlm, hrm]
      simp

theorem mem_dispatchOrder (slot : Nat) (type : IOHIDReportType) :
    (slot, type) ∈ dispatchOrder ↔ slot < kReportHandlerSlots := by
  unfold dispatchOrder reportTypes
  simp only [List.mem_flatMap, List.mem_range, List.mem_map, Prod.mk.injEq]
  constructor
  · rintro ⟨a, ha, _, _, rfl, _⟩
    exact ha
  · intro h
    refine ⟨slot, h, type, ?_, rfl, rfl⟩
    cases type <;> simp

theorem dispatchOrder_nodup : dispatchOrder.Nodup := by decide

theorem getReportHandlerSlot_lt (id : Nat) : GetReportHandlerSlot id < kReportHandlerSlots := by
  rw [GetReportHandlerSlot_eq_mod]
  unfold kReportHandlerSlots
  omega

/-- On a device with well-formed chains the traversal of
`createMemoryForElementValues` visits every element with a report type exactly
once, and nothing else. -/
theorem valueOrder_of_chainsWF {dev : IOHIDDevice} (h : ChainsWF dev) :
    ∃ order, valueOrder dev = some order ∧ order.Nodup ∧
      ∀ i, i ∈ order ↔ ∃ e, dev.elementArray[i]? = some e ∧ e.getReportType ≠ none := by
  obtain ⟨order, h1, h2, h3⟩ := chainedElements_of_chainsWF h dispatchOrder dispatchOrder_nodup
  refine ⟨order, h1, h2, ?_⟩
  intro i
  rw [h3]
  constructor
  · rintro ⟨pr, _, e, he, hty, _⟩
    exact ⟨e, he, by rw [hty]; simp⟩
  · rintro ⟨e, he, hty⟩
    cases ht : e.getReportType with
    | none => exact absurd ht hty
    | some t =>
      exact ⟨(GetReportHandlerSlot e.reportID, t),
        (mem_dispatchOrder _ _).2 (getReportHandlerSlot_lt _), e, he, ht, rfl⟩

theorem set_self_of_getElem? (arr : List IOHIDElement) (i : Nat) (e : IOHIDElement)
    (he : arr[i]? = some e) : arr.set i e = arr := by
  have := map_set_same id arr i e e he rfl
  simpa using this

theorem walkList_capacityStep (l : List Nat) :
    ∀ (arr : List IOHIDElement) (c : Nat), c < 2 ^ 32 →
      walkList capacityStep l arr c =
        (arr, (c + (l.map (valueSizeAt arr)).sum) % 2 ^ 32) := by
  induction l with
  | nil =>
    intro arr c hc
    show (arr, c) = (arr, (c + 0) % 2 ^ 32)
    rw [Nat.add_zero, Nat.mod_eq_of_lt hc]
  | cons i l ih =>
    intro arr c hc
    simp only [walkList]
    cases he : arr[i]? with
    | none =>
      simp only []
      rw [ih arr c hc]
      simp [valueSizeAt, he]
    | some e =>
      simp only [capacityStep]
      rw [set_self_of_getElem? arr i e he, ih arr _ (Nat.mod_lt _ (by norm_num))]
      simp only [List.map_cons, List.sum_cons, valueSizeAt, he, Option.map_some',
        Option.getD_some]
      rw [Nat.mod_add_mod, Nat.add_assoc]

theorem valueSizeAt_set_location (arr : List IOHIDElement) (i : Nat) (e : IOHIDElement)
    (he : arr[i]? = some e) (loc : Option Nat) (j : Nat) :
    valueSizeAt (arr.set i { e with valueLocation := loc }) j = valueSizeAt arr j := by
  unfold valueSizeAt
  have := getElem?_map_eq (fun e => e.elementValueSize)
    (map_set_same (fun e => e.elementValueSize) arr i e { e with valueLocation := loc } he rfl) j
  rw [this]

theorem walkList_assignStep (capacity : Nat) (l : List Nat) :
    ∀ (arr : List IOHIDElement) (off : Nat) (b : Bool), l.Nodup →
      (∀ i ∈ l, i < arr.length) →
      Layout (walkList (assignStep capacity) l arr (off, b)).1 l off := by
  induction l with
  | nil =>
    intro arr off b _ _
    trivial
  | cons i l ih =>
    intro arr off b hnd hlt
    rw [List.nodup_cons] at hnd
    have hi : i < arr.length := hlt i (List.mem_cons_self _ _)
    have he : arr[i]? = some arr[i] := List.getElem?_eq_getElem hi
    simp only [walkList, he, assignStep]
    refine ⟨{ arr[i] with valueLocation := some off }, ?_, rfl, ?_⟩
    · rw [walkList_getElem_of_not_mem _ _ _ _ _ hnd.1]
      simp [List.getElem?_set, hi]
    · apply ih _ _ _ hnd.2
      intro j hj
      rw [List.length_set]
      exact hlt j (List.mem_cons_of_mem _ hj)

theorem layout_bounds {arr : List IOHIDElement} (l : List Nat) :
    ∀ off, Layout arr l off → ∀ i ∈ l, ∃ r, valueRange arr i = some r ∧ off ≤ r.1 ∧
      r.2 = r.1 + valueSizeAt arr i ∧ r.2 ≤ off + (l.map (valueSizeAt arr)).sum := by
  induction l with
  | nil => intro off _ i hi; simp at hi
  | cons k l ih =>
    intro off h i hi
    obtain ⟨e, he, hloc, hrest⟩ := h
    have hk : valueSizeAt arr k = e.elementValueSize := by simp [valueSizeAt, he]
    rcases List.mem_cons.1 hi with rfl | hi
    · refine ⟨(off, off + e.elementValueSize), ?_, le_refl _, ?_, ?_⟩
      · simp [valueRange, he, hloc]
      · simp [hk]
      · simp only [List.map_cons, List.sum_cons, hk]
        omega
    · obtain ⟨r, h1, h2, h3, h4⟩ := ih _ hrest i hi
      refine ⟨r, h1, by omega, h3, ?_⟩
      simp only [List.map_cons, List.sum_cons, hk]
      omega

theorem layout_disjoint {arr : List IOHIDElement} (l : List Nat) :
    ∀ off, Layout arr l off → ∀ i ∈ l, ∀ j ∈ l, i ≠ j → ∀ ri rj,
      valueRange arr i = some ri → valueRange arr j = some rj →
      ri.2 ≤ rj.1 ∨ rj.2 ≤ ri.1 := by
  induction l with
  | nil => intro off _ i hi; simp at hi
  | cons k l ih =>
    intro off h i hi j hj hij ri rj hri hrj
    obtain ⟨e, he, hloc, hrest⟩ := h
    have hk : valueRange arr k = some (off, off + e.elementValueSize) := by
      simp [valueRange, he, hloc]
    rcases List.mem_cons.1 hi with hik | hil
    · rcases List.mem_cons.1 hj with hjk | hjl
      · exact absurd (hik.trans hjk.symm) hij
      · obtain ⟨r, h1, h2, _, _⟩ := layout_bounds l _ hrest j hjl
        rw [hik, hk] at hri
        rw [h1] at hrj
        cases hri
        cases hrj
        exact Or.inl h2
    · rcases List.mem_cons.1 hj with hjk | hjl
      · obtain ⟨r, h1, h2, _, _⟩ := layout_bounds l _ hrest i hil
        rw [hjk, hk] at hrj
        rw [h1] at hri
        cases hri
        cases hrj
        exact Or.inr h2
      · exact ih _ hrest i hil j hjl hij ri rj hri hrj

theorem layout_cover {arr : List IOHIDElement} (l : List Nat) :
    ∀ off, Layout arr l off → ∀ b, off ≤ b → b < off + (l.map (valueSizeAt arr)).sum →
      ∃ i ∈ l, ∃ r, valueRange arr i = some r ∧ r.1 ≤ b ∧ b < r.2 := by
  induction l with
  | nil =>
    intro off _ b h1 h2
    simp at h2
    omega
  | cons k l ih =>
    intro off h b h1 h2
    obtain ⟨e, he, hloc, hrest⟩ := h
    have hk : valueSizeAt arr k = e.elementValueSize := by simp [valueSizeAt, he]
    simp only [List.map_cons, List.sum_cons, hk] at h2
    by_cases hb : b < off + e.elementValueSize
    · exact ⟨k, List.mem_cons_self _ _, (off, off + e.elementValueSize),
        by simp [valueRange, he, hloc], h1, hb⟩
    · obtain ⟨i, hi, r, hr⟩ := ih _ hrest b (by omega) (by omega)
      exact ⟨i, List.mem_cons_of_mem _ hi, r, hr⟩

theorem valueSizeAt_congr {arr arr1 : List IOHIDElement}
    (h : arr1.map (fun e => e.elementValueSize) = arr.map (fun e => e.elementValueSize))
    (i : Nat) : valueSizeAt arr1 i = valueSizeAt arr i := by
  unfold valueSizeAt
  rw [getElem?_map_eq _ h i]

/-- C9: on a device with well-formed dispatch chains whose chained elements
`order` have value sizes summing to less than `2 ^ 32`,
`createMemoryForElementValues` succeeds with capacity equal to that sum; every
chained element gets a range `[offset, offset + valueSize)` inside `[0,
capacity)`, the ranges of two different chained elements are disjoint, and a
byte lies in `[0, capacity)` exactly when it lies in the range of some chained
element.  The chained elements are exactly the elements with a report type. -/
theorem createMemoryForElementValues_layout (dev : IOHIDDevice) (hwf : ChainsWF dev)
    (order : List Nat) (horder : valueOrder dev = some order)
    (hsum : (order.map (valueSizeAt dev.elementArray)).sum < 2 ^ 32) :
    ∃ m capacity, createMemoryForElementValues dev true = some m ∧
      m.descriptor = some capacity ∧
      capacity = (order.map (valueSizeAt dev.elementArray)).sum ∧
      (∀ i, i ∈ order ↔ ∃ e, dev.elementArray[i]? = some e ∧ e.getReportType ≠ none) ∧
      (∀ i ∈ order, ∃ r, valueRange m.dev.elementArray i = some r ∧
        r.2 = r.1 + valueSizeAt dev.elementArray i ∧ r.2 ≤ capacity) ∧
      (∀ i ∈ order, ∀ j ∈ order, i ≠ j → ∀ ri rj,
        valueRange m.dev.elementArray i = some ri →
        valueRange m.dev.elementArray j = some rj → ri.2 ≤ rj.1 ∨ rj.2 ≤ ri.1) ∧
      (∀ b, b < capacity ↔ ∃ i ∈ order, ∃ r, valueRange m.dev.elementArray i = some r ∧
        r.1 ≤ b ∧ b < r.2) := by
  obtain ⟨order1, h1, hnd, hmem⟩ := valueOrder_of_chainsWF hwf
  rw [horder] at h1
  cases h1
  unfold valueOrder at horder
  have hlt : ∀ i ∈ order, i < dev.elementArray.length := by
    intro i hi
    obtain ⟨e, he, _⟩ := (hmem i).1 hi
    exact (List.getElem?_eq_some.1 he).1
  have hpass1 := walkAllChains_eq_walkList capacityStep (fun _ _ _ => rfl) (fun _ _ _ => rfl)
    dev.elementArray.length dev.reportHandlers dispatchOrder dev.elementArray 0 order horder hnd
  rw [walkList_capacityStep order dev.elementArray 0 (by norm_num), Nat.zero_add,
    Nat.mod_eq_of_lt hsum] at hpass1
  have hpass2 := walkAllChains_eq_walkList
    (assignStep (order.map (valueSizeAt dev.elementArray)).sum)
    (fun _ _ _ => rfl) (fun _ _ _ => rfl)
    dev.elementArray.length dev.reportHandlers dispatchOrder dev.elementArray (0, true) order
    horder hnd
  have hlay := walkList_assignStep (order.map (valueSizeAt dev.elementArray)).sum order
    dev.elementArray 0 true hnd hlt
  have hmap := walkAllChains_map (fun e => e.elementValueSize)
    (assignStep (order.map (valueSizeAt dev.elementArray)).sum) (fun _ _ _ => rfl) _ _ _ _ _ _
    hpass2
  have hsize : ∀ i, valueSizeAt (walkList (assignStep
      (order.map (valueSizeAt dev.elementArray)).sum) order dev.elementArray (0, true)).1 i =
      valueSizeAt dev.elementArray i := by
    intro i
    exact valueSizeAt_congr hmap i
  have hsizes : order.map (valueSizeAt (walkList (assignStep
      (order.map (valueSizeAt dev.elementArray)).sum) order dev.elementArray (0, true)).1) =
      order.map (valueSizeAt dev.elementArray) := by
    apply List.map_congr_left
    intro i _
    exact hsize i
  refine ⟨{ descriptor := some (order.map (valueSizeAt dev.elementArray)).sum,
            dev := { dev with elementArray := (walkList (assignStep
              (order.map (valueSizeAt dev.elementArray)).sum) order dev.elementArray
              (0, true)).1 },
            assertHeld := (walkList (assignStep
              (order.map (valueSizeAt dev.elementArray)).sum) order dev.elementArray
              (0, true)).2.2 },
    (order.map (valueSizeAt dev.elementArray)).sum, ?_, rfl, rfl, hmem, ?_, ?_, ?_⟩
  · unfold createMemoryForElementValues
    simp only [hpass1, hpass2, Bool.true_eq_false, ↓reduceIte]
  · intro i hi
    obtain ⟨r, a1, _, a3, a4⟩ := layout_bounds order 0 hlay i hi
    refine ⟨r, a1, ?_, ?_⟩
    · rw [a3, hsize]
    · rw [hsizes, Nat.zero_add] at a4
      exact a4
  · exact layout_disjoint order 0 hlay
  · intro b
    constructor
    · intro hb
      exact layout_cover order 0 hlay b (Nat.zero_le _) (by rw [hsizes, Nat.zero_add]; exact hb)
    · rintro ⟨i, hi, r, hr, _, hb⟩
      obtain ⟨r1, a1, _, _, a4⟩ := layout_bounds order 0 hlay i hi
      rw [hr] at a1
      cases a1
      rw [hsizes, Nat.zero_add] at a4
      omega

/-- The layout theorem at `sampleDevice`, whose chained elements are 3, 2 and 1. -/
theorem createMemoryForElementValues_layout_witness :
    ChainsWF sampleDevice ∧ valueOrder sampleDevice = some [3, 2, 1] ∧
    (([3, 2, 1] : List Nat).map (valueSizeAt sampleDevice.elementArray)).sum < 2 ^ 32 ∧
    ∃ m capacity, createMemoryForElementValues sampleDevice true = some m ∧
      m.descriptor = some capacity ∧
      capacity = (([3, 2, 1] : List Nat).map (valueSizeAt sampleDevice.elementArray)).sum ∧
      (∀ i, i ∈ ([3, 2, 1] : List Nat) ↔
        ∃ e, sampleDevice.elementArray[i]? = some e ∧ e.getReportType ≠ none) ∧
      (∀ i ∈ ([3, 2, 1] : List Nat), ∃ r, valueRange m.dev.elementArray i = some r ∧
        r.2 = r.1 + valueSizeAt sampleDevice.elementArray i ∧ r.2 ≤ capacity) ∧
      (∀ i ∈ ([3, 2, 1] : List Nat), ∀ j ∈ ([3, 2, 1] : List Nat), i ≠ j → ∀ ri rj,
        valueRange m.dev.elementArray i = some ri →
        valueRange m.dev.elementArray j = some rj → ri.2 ≤ rj.1 ∨ rj.2 ≤ ri.1) ∧
      (∀ b, b < capacity ↔ ∃ i ∈ ([3, 2, 1] : List Nat), ∃ r,
        valueRange m.dev.elementArray i = some r ∧ r.1 ≤ b ∧ b < r.2) :=
  ⟨chainsWF_sampleDevice, by decide, by decide,
    createMemoryForElementValues_layout sampleDevice chainsWF_sampleDevice [3, 2, 1]
      (by decide) (by decide)⟩

/-! ## Transactions -/

/-- C1 fails on the code: a transaction does not always leave the elements of
its handles Idle.  With a failed scratch-buffer allocation `updateElementValues`
on the handle of an input button returns `kIOReturnNoMemory` and leaves the
button Pending, the loop that marked the handles Pending having left `index` at
the cookie count, so that the cleanup loop starting at `index` resets nothing;
and a handle naming a collection is skipped by the transaction loop and stays
Pending in `updateElementValues` and in `postElementValues` alike. -/
theorem transaction_leaves_pending :
    (∃ r, updateElementValues sampleDevice [1] false sampleTransport = some r ∧
      r.ret = kIOReturnNoMemory ∧
      r.dev.elementArray[1]?.map (fun e => e.transactionState)
        = some kIOHIDTransactionStatePending) ∧
    (∃ r, updateElementValues sampleDevice [0] true sampleTransport = some r ∧
      r.ret = kIOReturnError ∧
      r.dev.elementArray[0]?.map (fun e => e.transactionState)
        = some kIOHIDTransactionStatePending) ∧
    (∃ r, postElementValues sampleDevice [0] true (fun _ => true) sampleTransport = some r ∧
      r.ret = kIOReturnError ∧
      r.dev.elementArray[0]?.map (fun e => e.transactionState)
        = some kIOHIDTransactionStatePending) :=
  ⟨⟨_, rfl, rfl, by decide⟩, ⟨_, rfl, rfl, by decide⟩, ⟨_, rfl, rfl, by decide⟩⟩

theorem removeEventQueue_absent (e : IOHIDElement) (q : Nat) (hq : q ∉ e.queues) :
    e.removeEventQueue (some q) = (false, e) := by
  unfold IOHIDElement.removeEventQueue
  have h1 : e.queues.filter (fun x => decide (x ≠ q)) = e.queues := by
    rw [List.filter_eq_self]
    intro a ha
    simp only [ne_eq, decide_eq_true_eq]
    rintro rfl
    exact hq ha
  simp only [h1, hq, decide_False]

/-! ## Event delivery: `stopEventDelivery` -/

/-- C19, as stated, fails: unsubscribing a queue that is not subscribed to a
data element makes `stopEventDelivery` return `kIOReturnNotFound`, which is
not success. -/
theorem stopEventDelivery_absent_queue_not_found :
    sampleBuilt.dataElementIndex ≤ 2 ∧
    (∃ e, sampleBuilt.elementArray[2]? = some e ∧ 7 ∉ e.queues) ∧
    ∃ r, stopEventDelivery sampleBuilt (some 7) 2 = some r ∧
      r.1 = kIOReturnNotFound ∧ r.1 ≠ kIOReturnSuccess :=
  ⟨by decide, ⟨_, rfl, by decide⟩, _, rfl, rfl, by decide⟩

/-- C19, amended: for every data-element cookie and every non-null queue that
is not subscribed to that element, `stopEventDelivery` returns
`kIOReturnNotFound` and leaves the whole device, the element's subscriber set
included, unchanged. -/
theorem stopEventDelivery_not_subscribed (dev : IOHIDDevice) (cookie q : Nat)
    (e : IOHIDElement) (hc : cookie ≠ 0) (hdata : dev.dataElementIndex ≤ cookie)
    (he : dev.elementArray[cookie]? = some e) (hq : q ∉ e.queues) :
    stopEventDelivery dev (some q) cookie = some (kIOReturnNotFound, dev) := by
  unfold stopEventDelivery
  have h1 : ¬(cookie ≠ 0 ∧ ((some q : Option Nat) = none ∨ cookie < dev.dataElementIndex)) := by
    rintro ⟨_, h | h⟩
    · cases h
    · omega
  rw [if_neg h1]
  simp only [hc, ↓reduceIte, stopEventDeliveryLoop, he, removeEventQueue_absent e q hq,
    set_self_of_getElem? dev.elementArray cookie e he, Bool.or_self, Bool.false_eq_true]

/-- The amended unsubscribe theorem at `sampleBuilt`, cookie 2 and queue 7. -/
theorem stopEventDelivery_not_subscribed_witness :
    (2 : Nat) ≠ 0 ∧ sampleBuilt.dataElementIndex ≤ 2 ∧
    sampleBuilt.elementArray[2]? = some (sampleBuilt.elementArray[2]?.getD
      (newElement kIOHIDElementTypeCollection 0 0 0 0)) ∧
    7 ∉ (sampleBuilt.elementArray[2]?.getD
      (newElement kIOHIDElementTypeCollection 0 0 0 0)).queues ∧
    stopEventDelivery sampleBuilt (some 7) 2 = some (kIOReturnNotFound, sampleBuilt) :=
  ⟨by decide, by decide, rfl, by decide,
    stopEventDelivery_not_subscribed sampleBuilt 2 7 _ (by decide) (by decide) rfl (by decide)⟩

theorem stopEventDeliveryLoop_all (queue : Option Nat) (fuel : Nat) :
    ∀ (elementIndex : Nat) (arr : List IOHIDElement) (removed : Bool),
      1 ≤ fuel → arr.length + 1 ≤ fuel + elementIndex →
      ∃ r, stopEventDeliveryLoop queue 0 fuel elementIndex arr removed = some r ∧
        r.1.length = arr.length ∧
        (∀ i, i < elementIndex → r.1[i]? = arr[i]?) ∧
        (∀ i, elementIndex ≤ i → r.1[i]? = arr[i]?.map (fun e => (e.removeEventQueue queue).2)) ∧
        (r.2 = true ↔ removed = true ∨ ∃ i e, elementIndex ≤ i ∧ arr[i]? = some e ∧
          (e.removeEventQueue queue).1 = true) := by
  induction fuel with
  | zero =>
    intro elementIndex arr removed h0 _
    omega
  | succ fuel ih =>
    intro elementIndex arr removed _ h
    simp only [stopEventDeliveryLoop]
    cases he : arr[elementIndex]? with
    | none =>
      have hlen : arr.length ≤ elementIndex := List.getElem?_eq_none_iff.1 he
      refine ⟨(arr, removed), rfl, rfl, fun _ _ => rfl, ?_, ?_⟩
      · intro i hi
        rw [List.getElem?_eq_none_iff.2 (by omega : arr.length ≤ i)]
        rfl
      · constructor
        · exact Or.inl
        · rintro (h1 | ⟨i, e, hi, hie, _⟩)
          · exact h1
          · have := (List.getElem?_eq_some.1 hie).1
            omega
    | some e =>
      simp only [↓reduceIte]
      have hlt : elementIndex < arr.length := (List.getElem?_eq_some.1 he).1
      obtain ⟨r, hr, h1, h2, h3, h4⟩ := ih (elementIndex + 1)
        (arr.set elementIndex (e.removeEventQueue queue).2)
        ((e.removeEventQueue queue).1 || removed) (by omega)
        (by rw [List.length_set]; omega)
      refine ⟨r, hr, by rw [h1, List.length_set], ?_, ?_, ?_⟩
      · intro i hi
        rw [h2 i (by omega), List.getElem?_set_ne (by omega)]
      · intro i hi
        rcases Nat.eq_or_lt_of_le hi with rfl | hlt2
        · rw [h2 _ (by omega), he]
          simp [List.getElem?_set, hlt]
        · rw [h3 i (by omega), List.getElem?_set_ne (by omega)]
      · rw [h4]
        constructor
        · rintro (h5 | ⟨i, e1, hi, hie, hrem⟩)
          · rcases Bool.or_eq_true _ _ ▸ h5 with h6 | h6
            · exact Or.inr ⟨elementIndex, e, le_refl _, he, h6⟩
            · exact Or.inl h6
          · rw [List.getElem?_set_ne (by omega)] at hie
            exact Or.inr ⟨i, e1, by omega, hie, hrem⟩
        · rintro (h5 | ⟨i, e1, hi, hie, hrem⟩)
          · exact Or.inl (by simp [h5])
          · rcases Nat.eq_or_lt_of_le hi with rfl | hlt2
            · rw [he] at hie
              cases hie
              exact Or.inl (by simp [hrem])
            · exact Or.inr ⟨i, e1, by omega, by rw [List.getElem?_set_ne (by omega)]; exact hie,
                hrem⟩

theorem removeEventQueue_spec (e : IOHIDElement) (queue : Option Nat) :
    (e.removeEventQueue queue).2 =
      { e with queues := (e.removeEventQueue queue).2.queues } ∧
    (∀ q, queue = some q → q ∉ (e.removeEventQueue queue).2.queues) ∧
    (∀ q, queue ≠ some q → (q ∈ (e.removeEventQueue queue).2.queues ↔ q ∈ e.queues)) ∧
    ((e.removeEventQueue queue).1 = true ↔ ∃ q, queue = some q ∧ q ∈ e.queues) := by
  cases queue with
  | none =>
    refine ⟨rfl, ?_, ?_, ?_⟩
    · intro q h; cases h
    · intro q _; rfl
    · simp [IOHIDElement.removeEventQueue]
  | some q0 =>
    refine ⟨rfl, ?_, ?_, ?_⟩
    · intro q h
      cases h
      simp [IOHIDElement.removeEventQueue]
    · intro q h
      have hne : q ≠ q0 := fun h1 => h (by rw [h1])
      simp [IOHIDElement.removeEventQueue, hne]
    · simp [IOHIDElement.removeEventQueue]

/-- C20: `stopEventDelivery` with cookie 0 returns; afterwards every element
from the first data index to the end of the table is as before except that
the given queue is no longer among its subscribers, every other queue being
subscribed exactly where it was; the elements below the first data index are
unchanged.  The code is `kIOReturnSuccess` when some data element had the
queue and `kIOReturnNotFound` otherwise. -/
theorem stopEventDelivery_cookie_zero (dev : IOHIDDevice) (queue : Option Nat) :
    ∃ ret dev1, stopEventDelivery dev queue 0 = some (ret, dev1) ∧
      dev1.elementArray.length = dev.elementArray.length ∧
      dev1.dataElementIndex = dev.dataElementIndex ∧
      (∀ (i : Nat) (e : IOHIDElement), dev.elementArray[i]? = some e →
        i < dev.dataElementIndex → dev1.elementArray[i]? = some e) ∧
      (∀ (i : Nat) (e : IOHIDElement), dev.elementArray[i]? = some e →
        dev.dataElementIndex ≤ i →
        ∃ e1, dev1.elementArray[i]? = some e1 ∧ e1 = { e with queues := e1.queues } ∧
          (∀ q, queue = some q → q ∉ e1.queues) ∧
          (∀ q, queue ≠ some q → (q ∈ e1.queues ↔ q ∈ e.queues))) ∧
      (ret = kIOReturnSuccess ↔ ∃ (i : Nat) (e : IOHIDElement) (q : Nat),
        dev.dataElementIndex ≤ i ∧ dev.elementArray[i]? = some e ∧ queue = some q ∧
          q ∈ e.queues) ∧
      (ret = kIOReturnSuccess ∨ ret = kIOReturnNotFound) := by
  obtain ⟨r, hr, h1, h2, h3, h4⟩ := stopEventDeliveryLoop_all queue
    (dev.elementArray.length + 1) dev.dataElementIndex dev.elementArray false (by omega)
    (by omega)
  refine ⟨if r.2 then kIOReturnSuccess else kIOReturnNotFound,
    { dev with elementArray := r.1 }, ?_, h1, rfl, ?_, ?_, ?_, ?_⟩
  · unfold stopEventDelivery
    simp only [ne_eq, not_true_eq_false, false_and, ↓reduceIte, hr]
  · intro i e he hi
    show r.1[i]? = some e
    rw [h2 i hi, he]
  · intro i e he hi
    obtain ⟨a1, a2, a3, _⟩ := removeEventQueue_spec e queue
    refine ⟨(e.removeEventQueue queue).2, ?_, a1, a2, a3⟩
    show r.1[i]? = _
    rw [h3 i hi, he]
    rfl
  · cases hb : r.2 with
    | false =>
      simp only [Bool.false_eq_true, ↓reduceIte]
      constructor
      · intro h; cases h
      · rintro ⟨i, e, q, hi, he, hq, hmem⟩
        have : r.2 = true := h4.2 (Or.inr ⟨i, e, hi, he,
          (removeEventQueue_spec e queue).2.2.2.2 ⟨q, hq, hmem⟩⟩)
        rw [hb] at this
        cases this
    | true =>
      simp only [↓reduceIte, true_iff]
      rcases h4.1 hb with h5 | ⟨i, e, hi, he, hrem⟩
      · cases h5
      · obtain ⟨q, hq, hmem⟩ := (removeEventQueue_spec e queue).2.2.2.1 hrem
        exact ⟨i, e, q, hi, he, hq, hmem⟩
  · cases r.2 <;> simp

theorem dispatchChain_pairwise_of_chainsWF {dev : IOHIDDevice} (h : ChainsWF dev) (slot : Nat)
    (type : IOHIDReportType) :
    ∃ l, dispatchChain dev slot type = some l ∧ l.Pairwise (fun a b => b < a) := by
  obtain ⟨l, hc, hp, _⟩ := h slot type
  exact ⟨l, chainFrom_of_isChain hc _ (length_le_of_pairwise_lt hp (isChain_lt hc)), hp⟩

/-- C11: a `registerElement` call whose `setObject` succeeds appends the
element to the element table and returns as cookie the index at which it is
stored, so that looking the cookie up gives that element (with its chain
successor filled in); an element with a report type becomes the head of its
`(slot, type)` chain with the previous head as successor, the other heads
staying as they were, and an element without report type changes no head.
After any sequence of such calls every chain lists its elements by decreasing
cookie, that is in reverse registration order. -/
theorem registerElement_prepends (dev : IOHIDDevice) (element : IOHIDElement)
    (hfresh : element.nextReportHandler = none)
    (calls : List (IOHIDElement × Bool))
    (hcalls : ∀ c ∈ calls, c.1.nextReportHandler = none) :
    (∃ stored : IOHIDElement,
      (registerElement dev element true).1 = true ∧
      (registerElement dev element true).2.1 = some dev.elementArray.length ∧
      (registerElement dev element true).2.2.elementArray = dev.elementArray ++ [stored] ∧
      GetElement (registerElement dev element true).2.2 dev.elementArray.length = some stored ∧
      stored = { element with nextReportHandler := stored.nextReportHandler } ∧
      (∀ t, element.getReportType = some t →
        (registerElement dev element true).2.2.reportHandlers
          (GetReportHandlerSlot element.reportID) t = some dev.elementArray.length ∧
        stored.nextReportHandler =
          dev.reportHandlers (GetReportHandlerSlot element.reportID) t ∧
        ∀ s1 t1, ¬(s1 = GetReportHandlerSlot element.reportID ∧ t1 = t) →
          (registerElement dev element true).2.2.reportHandlers s1 t1 =
            dev.reportHandlers s1 t1) ∧
      (element.getReportType = none →
        stored = element ∧
        (registerElement dev element true).2.2.reportHandlers = dev.reportHandlers)) ∧
    (∀ slot type, ∃ l, dispatchChain (registerElements emptyDevice calls) slot type = some l ∧
      l.Pairwise (fun a b => b < a)) := by
  refine ⟨?_, fun slot type => dispatchChain_pairwise_of_chainsWF
    (chainsWF_registerElements calls emptyDevice hcalls chainsWF_emptyDevice) slot type⟩
  cases hty : element.getReportType with
  | none =>
    rw [registerElement_untyped dev element hty]
    refine ⟨element, rfl, rfl, rfl, ?_, rfl, ?_, ?_⟩
    · simp [GetElement]
    · intro t ht; cases ht
    · intro _; exact ⟨rfl, rfl⟩
  | some reportType =>
    obtain ⟨e1, he1, hnext, hreg⟩ := registerElement_typed dev element reportType hty
    rw [hreg]
    refine ⟨e1, rfl, rfl, rfl, ?_, he1, ?_, ?_⟩
    · simp [GetElement]
    · intro t ht
      cases ht
      refine ⟨?_, hnext hfresh, ?_⟩
      · simp [setHeadElement]
      · intro s1 t1 hne
        simp only [setHeadElement, hne, ↓reduceIte]
    · intro h; cases h

/-- The registration theorem at `sampleDevice`, one more input value of report
1 and the calls `sampleCalls`. -/
theorem registerElement_prepends_witness :
    (newElement kIOHIDElementTypeInput_Misc 1 8 8 4).nextReportHandler = none ∧
    (∀ c ∈ sampleCalls, c.1.nextReportHandler = none) ∧
    (∃ stored : IOHIDElement,
      (registerElement sampleDevice (newElement kIOHIDElementTypeInput_Misc 1 8 8 4) true).1
        = true ∧
      (registerElement sampleDevice (newElement kIOHIDElementTypeInput_Misc 1 8 8 4) true).2.1
        = some 4 ∧
      GetElement (registerElement sampleDevice
        (newElement kIOHIDElementTypeInput_Misc 1 8 8 4) true).2.2 4 = some stored ∧
      stored.nextReportHandler = some 3) ∧
    dispatchChain (registerElements emptyDevice sampleCalls) 1 kIOHIDReportTypeInput
      = some [3, 2, 1] :=
  ⟨rfl, by decide,
    (registerElement_prepends sampleDevice (newElement kIOHIDElementTypeInput_Misc 1 8 8 4) rfl
      sampleCalls (by decide)).1.elim
      (fun stored h => ⟨stored, h.1, h.2.1, h.2.2.2.1,
        ((h.2.2.2.2.2.1 kIOHIDReportTypeInput rfl).2.1).trans (by decide)⟩),
    by decide⟩

/-! ## Building the element hierarchy: failures and parents -/

theorem attachChild_length (arr : List IOHIDElement) (p c : Nat) :
    (attachChild arr p c).length = arr.length := by
  have := congrArg List.length (attachChild_map_describe arr p c)
  simpa using this

theorem linkCollectionLoop_false (nodes : List HIDCollectionNode) :
    ∀ (index : Nat) (arr : List IOHIDElement),
      (∃ node ∈ nodes, arr.length ≤ node.parent) →
      (linkCollectionLoop nodes index arr).1 = false := by
  induction nodes with
  | nil =>
    intro index arr h
    obtain ⟨node, hn, _⟩ := h
    simp at hn
  | cons node rest ih =>
    intro index arr h
    simp only [linkCollectionLoop]
    rcases linkToParent_cases arr node.parent index with ⟨hl, ⟨q, hp⟩, _⟩ | ⟨hl, _⟩
    · rw [hl]
      simp only [↓reduceIte]
      apply ih
      obtain ⟨n, hn, hlen⟩ := h
      rcases List.mem_cons.1 hn with rfl | hn
      · have := (List.getElem?_eq_some.1 hp).1
        omega
      · exact ⟨n, hn, by rw [attachChild_length]; exact hlen⟩
    · rw [hl]
      simp

theorem createCollectionElements_bad_parent (env : BuildEnv) (p : HIDPreparsedData)
    (dev : IOHIDDevice) (hempty : dev.elementArray = [])
    (hcount : p.caps.numberCollectionNodes = p.collectionNodes.length)
    (hbad : ∃ node ∈ p.collectionNodes.drop 1, p.collectionNodes.length ≤ node.parent) :
    (createCollectionElements env p dev p.caps.numberCollectionNodes).1 = false := by
  unfold createCollectionElements
  cases hm : env.collectionsMallocOk with
  | false => simp
  | true =>
    simp only [Bool.true_eq_false, ↓reduceIte, HIDGetCollectionNodes, hcount, List.take_length]
    by_cases hs : p.collectionNodesStatus ≠ kHIDSuccess
    · simp [hs]
    · simp only [hs, ↓reduceIte]
      cases hc : createCollectionLoop env p.collectionNodes dev with
      | mk ok dev2 =>
        cases ok with
        | false => simp
        | true =>
          simp only [Bool.true_eq_false, ↓reduceIte]
          apply linkCollectionLoop_false
          obtain ⟨a1, _, _⟩ := createCollectionLoop_true env _ dev dev2 hc
          have hlen : dev2.elementArray.length = p.collectionNodes.length := by
            have := congrArg List.length a1
            simpa [hempty] using this
          rw [hlen]
          exact hbad

theorem orBreak_false (r : Bool × IOHIDDevice)
    (rest : IOHIDDevice → Option (IOReturn × IOHIDDevice)) (h : r.1 = false) :
    orBreak r rest = some (kIOReturnNoMemory, r.2) := by
  unfold orBreak
  rw [h]
  rfl

theorem parentIterate_add (nodes : List HIDCollectionNode) (a b i : Nat) :
    parentIterate nodes (a + b) i = (parentIterate nodes a i).bind (parentIterate nodes b) := by
  induction b with
  | zero =>
    show parentIterate nodes a i = (parentIterate nodes a i).bind some
    rw [Option.bind_some]
  | succ b ih =>
    show (parentIterate nodes (a + b) i).bind (collectionParent nodes) = _
    rw [ih, Option.bind_assoc]
    rfl

theorem parentIterate_mul (nodes : List HIDCollectionNode) (i k : Nat)
    (h : parentIterate nodes k i = some i) : ∀ n, parentIterate nodes (n * k) i = some i := by
  intro n
  induction n with
  | zero => rw [Nat.zero_mul]; rfl
  | succ n ih =>
    rw [Nat.succ_mul, parentIterate_add, ih]
    exact h

/-- Along a cycle every step can be made. -/
theorem parentIterate_defined (nodes : List HIDCollectionNode) (i k : Nat) (hk : 0 < k)
    (h : parentIterate nodes k i = some i) (t : Nat) : ∃ j, parentIterate nodes t i = some j := by
  have hle : t ≤ t * k := Nat.le_mul_of_pos_right t hk
  have h1 := parentIterate_mul nodes i k h t
  have h2 : t * k = t + (t * k - t) := by omega
  rw [h2, parentIterate_add] at h1
  cases ht : parentIterate nodes t i with
  | none => rw [ht] at h1; simp at h1
  | some j => exact ⟨j, rfl⟩

/-- A collection met on a cycle has a parent in the list, so it is neither the
root nor past the end of the list, and it comes back to itself too. -/
theorem parentIterate_on_cycle (nodes : List HIDCollectionNode) (i k : Nat) (hk : 0 < k)
    (h : parentIterate nodes k i = some i) (t j : Nat)
    (hj : parentIterate nodes t i = some j) :
    (∃ node, 1 ≤ j ∧ nodes[j]? = some node ∧ collectionParent nodes j = some node.parent ∧
      parentIterate nodes (t + 1) i = some node.parent) ∧
    parentIterate nodes k j = some j := by
  constructor
  · obtain ⟨q, hq⟩ := parentIterate_defined nodes i k hk h (t + 1)
    have hq1 : (parentIterate nodes t i).bind (collectionParent nodes) = some q := hq
    rw [hj] at hq1
    simp only [Option.some_bind] at hq1
    have hq2 := hq1
    unfold collectionParent at hq1
    by_cases h0 : j = 0
    · rw [if_pos h0] at hq1
      simp at hq1
    · rw [if_neg h0] at hq1
      cases hn : nodes[j]? with
      | none => rw [hn] at hq1; simp at hq1
      | some node =>
        rw [hn] at hq1
        simp only [Option.map_some', Option.some.injEq] at hq1
        subst hq1
        exact ⟨node, by omega, rfl, hq2, hq⟩
  · have h1 : parentIterate nodes (t + k) i = parentIterate nodes k j := by
      rw [parentIterate_add, hj]
      rfl
    have h2 : parentIterate nodes (k + t) i = some j := by
      rw [parentIterate_add, h]
      exact hj
    rw [← h1, Nat.add_comm, h2]

theorem exists_greatest (P : Nat → Prop) :
    ∀ (bound : Nat), (∀ j, P j → j < bound) → (∃ j, P j) → ∃ m, P m ∧ ∀ j, P j → j ≤ m := by
  intro bound
  induction bound with
  | zero =>
    intro hb ⟨j, hj⟩
    exact absurd (hb j hj) (Nat.not_lt_zero _)
  | succ bound ih =>
    intro hb hne
    by_cases hP : P bound
    · exact ⟨bound, hP, fun j hj => Nat.lt_succ_iff.1 (hb j hj)⟩
    · apply ih _ hne
      intro j hj
      have := hb j hj
      have hjb : j ≠ bound := fun h => hP (h ▸ hj)
      omega

/-- A cycle has a greatest collection `m`: it comes back to itself after `k`
steps, and no collection on the way from it is greater. -/
theorem parentCycle_greatest (nodes : List HIDCollectionNode) (h : ParentCycle nodes) :
    ∃ m k, 0 < k ∧ parentIterate nodes k m = some m ∧
      ∀ t j, parentIterate nodes t m = some j → j ≤ m := by
  obtain ⟨i, k, hk, hc⟩ := h
  obtain ⟨m, ⟨t0, hm⟩, hmax⟩ := exists_greatest (fun j => ∃ t, parentIterate nodes t i = some j)
    nodes.length
    (by
      rintro j ⟨t, ht⟩
      obtain ⟨⟨node, _, hn, _, _⟩, _⟩ := parentIterate_on_cycle nodes i k hk hc t j ht
      exact (List.getElem?_eq_some.1 hn).1)
    ⟨i, 0, rfl⟩
  refine ⟨m, k, hk, (parentIterate_on_cycle nodes i k hk hc t0 m hm).2, ?_⟩
  intro t j hj
  apply hmax
  refine ⟨t0 + t, ?_⟩
  rw [parentIterate_add, hm]
  exact hj

/-- When the collections below `m` carry the parents of the list, the way up
from a collection on the cycle of `m` meets `m`. -/
theorem onParentPath_cycle (nodes : List HIDCollectionNode) (arr : List IOHIDElement)
    (m k : Nat) (hk : 0 < k) (hc : parentIterate nodes k m = some m)
    (hmax : ∀ t j, parentIterate nodes t m = some j → j ≤ m)
    (hinv : ∀ (j : Nat) (node : HIDCollectionNode), 1 ≤ j → j < m → nodes[j]? = some node →
      ∃ e, arr[j]? = some e ∧ e.parent = some node.parent) :
    ∀ (fuel t j : Nat), parentIterate nodes t m = some j → onParentPath fuel arr j m = true := by
  intro fuel
  induction fuel with
  | zero => intro t j _; rfl
  | succ fuel ih =>
    intro t j hj
    unfold onParentPath
    by_cases hjm : j = m
    · rw [if_pos hjm]
    · rw [if_neg hjm]
      obtain ⟨⟨node, h1, hn, _, hnext⟩, _⟩ := parentIterate_on_cycle nodes m k hk hc t j hj
      have hlt : j < m := by
        have := hmax t j hj
        omega
      obtain ⟨e, he, hpar⟩ := hinv j node h1 hlt hn
      rw [he]
      simp only []
      rw [hpar]
      exact ih (t + 1) node.parent hnext

/-- The linking loop run from collection `n` on fails when the list has a
cycle whose greatest collection `m` is still to be linked. -/
theorem linkCollectionLoop_cycle (nodes : List HIDCollectionNode)
    (m k : Nat) (hk : 0 < k) (hc : parentIterate nodes k m = some m)
    (hmax : ∀ t j, parentIterate nodes t m = some j → j ≤ m) :
    ∀ (d n : Nat) (arr : List IOHIDElement), m = n + d → 1 ≤ n →
      arr.length = nodes.length →
      (∀ (j : Nat) (node : HIDCollectionNode), 1 ≤ j → j < n → nodes[j]? = some node →
        ∃ e, arr[j]? = some e ∧ e.parent = some node.parent) →
      (linkCollectionLoop (nodes.drop n) n arr).1 = false := by
  obtain ⟨⟨nodem, _, hnm, _, hstep⟩, _⟩ := parentIterate_on_cycle nodes m k hk hc 0 m rfl
  have hmlt : m < nodes.length := (List.getElem?_eq_some.1 hnm).1
  intro d
  induction d with
  | zero =>
    intro n arr hmn hn hlen hinv
    have hmn1 : m = n := by omega
    subst hmn1
    have hdrop : nodes.drop m = nodem :: nodes.drop (m + 1) := by
      rw [List.drop_eq_getElem_cons hmlt]
      have := (List.getElem?_eq_some.1 hnm).2
      rw [this]
    rw [hdrop]
    simp only [linkCollectionLoop]
    rcases linkToParent_cases arr nodem.parent m with ⟨_, _, hno⟩ | ⟨hl, _⟩
    · have := onParentPath_cycle nodes arr m k hk hc hmax hinv arr.length 1 nodem.parent hstep
      rw [this] at hno
      exact absurd hno (by decide)
    · rw [hl]
      simp
  | succ d ih =>
    intro n arr hmn hn hlen hinv
    have hnlt : n < nodes.length := by omega
    have hdrop : nodes.drop n = nodes[n] :: nodes.drop (n + 1) :=
      List.drop_eq_getElem_cons hnlt
    rw [hdrop]
    simp only [linkCollectionLoop]
    rcases linkToParent_cases arr nodes[n].parent n with ⟨hl, _, _⟩ | ⟨hl, _⟩
    · rw [hl]
      simp only [↓reduceIte]
      apply ih (n + 1) _ (by omega) (by omega) (by rw [attachChild_length]; exact hlen)
      intro j node h1 hj hnode
      have hmap := attachChild_map_parent arr nodes[n].parent n
      have hget := congrArg (fun l => l[j]?) hmap
      simp only [List.getElem?_map] at hget
      by_cases hjn : j = n
      · subst hjn
        have hnode1 : nodes[j]? = some nodes[j] := List.getElem?_eq_getElem hnlt
        rw [hnode1] at hnode
        simp only [Option.some.injEq] at hnode
        subst hnode
        have hjl : j < arr.length := by omega
        rw [List.getElem?_set_self (by simpa using hjl)] at hget
        cases he : (attachChild arr nodes[j].parent j)[j]? with
        | none => rw [he] at hget; simp at hget
        | some e =>
          rw [he] at hget
          simp only [Option.map_some', Option.some.injEq] at hget
          exact ⟨e, rfl, hget⟩
      · obtain ⟨e0, he0, hp0⟩ := hinv j node h1 (by omega) hnode
        rw [List.getElem?_set_ne (fun h => hjn h.symm), List.getElem?_map, he0] at hget
        cases he : (attachChild arr nodes[n].parent n)[j]? with
        | none => rw [he] at hget; simp at hget
        | some e =>
          rw [he] at hget
          simp only [Option.map_some', Option.some.injEq] at hget
          exact ⟨e, rfl, by rw [hget, hp0]⟩
    · rw [hl]
      simp

theorem createCollectionElements_cycle (env : BuildEnv) (p : HIDPreparsedData)
    (dev : IOHIDDevice) (hempty : dev.elementArray = [])
    (hcount : p.caps.numberCollectionNodes = p.collectionNodes.length)
    (hcyc : ParentCycle p.collectionNodes) :
    (createCollectionElements env p dev p.caps.numberCollectionNodes).1 = false := by
  unfold createCollectionElements
  cases hm : env.collectionsMallocOk with
  | false => simp
  | true =>
    simp only [Bool.true_eq_false, ↓reduceIte, HIDGetCollectionNodes, hcount, List.take_length]
    by_cases hs : p.collectionNodesStatus ≠ kHIDSuccess
    · simp [hs]
    · simp only [hs, ↓reduceIte]
      cases hc : createCollectionLoop env p.collectionNodes dev with
      | mk ok dev2 =>
        cases ok with
        | false => simp
        | true =>
          simp only [Bool.true_eq_false, ↓reduceIte]
          obtain ⟨a1, _, _⟩ := createCollectionLoop_true env _ dev dev2 hc
          have hlen : dev2.elementArray.length = p.collectionNodes.length := by
            have := congrArg List.length a1
            simpa [hempty] using this
          obtain ⟨m, k, hk, hcm, hmax⟩ := parentCycle_greatest p.collectionNodes hcyc
          obtain ⟨⟨_, hm1, _, _, _⟩, _⟩ :=
            parentIterate_on_cycle p.collectionNodes m k hk hcm 0 m rfl
          exact linkCollectionLoop_cycle p.collectionNodes m k hk hcm hmax (m - 1) 1
            dev2.elementArray (by omega) (le_refl _) hlen
            (fun j node h1 hj _ => absurd hj (by omega))

/-- C13: for every collection list in which some non-root collection's parent
index is out of range of the element table (the table holding one element per
collection at that point), and for every collection list whose parent indices
introduce a cycle, such as a collection that names itself as parent,
`createCollectionElements` returns false and `createElementHierarchy` returns
an error. -/
theorem createElementHierarchy_bad_parent_fails (env : BuildEnv) (p : HIDPreparsedData)
    (dev : IOHIDDevice)
    (hcount : p.caps.numberCollectionNodes = p.collectionNodes.length)
    (hbad : (∃ node ∈ p.collectionNodes.drop 1, p.collectionNodes.length ≤ node.parent) ∨
      ParentCycle p.collectionNodes) :
    (∀ d : IOHIDDevice, d.elementArray = [] →
      (createCollectionElements env p d p.caps.numberCollectionNodes).1 = false) ∧
    ∃ ret dev1, createElementHierarchy env p dev = some (ret, dev1) ∧
      ret ≠ kIOReturnSuccess := by
  have hfail : ∀ d : IOHIDDevice, d.elementArray = [] →
      (createCollectionElements env p d p.caps.numberCollectionNodes).1 = false := by
    intro d hd
    rcases hbad with h | h
    · exact createCollectionElements_bad_parent env p d hd hcount h
    · exact createCollectionElements_cycle env p d hd hcount h
  refine ⟨hfail, ?_⟩
  unfold createElementHierarchy
  by_cases g1 : p.capabilitiesStatus ≠ kHIDSuccess
  · rw [if_pos g1]
    exact ⟨_, _, rfl, by decide⟩
  · rw [if_neg g1]
    simp only []
    by_cases g2 : env.elementArrayOk = false
    · rw [if_pos g2]
      exact ⟨_, _, rfl, by decide⟩
    · rw [if_neg g2, orBreak_false _ _ (hfail _ rfl)]
      exact ⟨_, _, rfl, by decide⟩

/-- The parent index theorem at `badParentCaps`, whose second collection names
parent 5, and at `selfParentCaps`, whose second collection names itself. -/
theorem createElementHierarchy_bad_parent_fails_witness :
    (badParentCaps.caps.numberCollectionNodes = badParentCaps.collectionNodes.length ∧
      (∃ node ∈ badParentCaps.collectionNodes.drop 1,
        badParentCaps.collectionNodes.length ≤ node.parent) ∧
      (∀ d : IOHIDDevice, d.elementArray = [] →
        (createCollectionElements sampleEnv badParentCaps d
          badParentCaps.caps.numberCollectionNodes).1 = false) ∧
      ∃ ret dev1, createElementHierarchy sampleEnv badParentCaps emptyDevice
          = some (ret, dev1) ∧ ret ≠ kIOReturnSuccess) ∧
    (selfParentCaps.caps.numberCollectionNodes = selfParentCaps.collectionNodes.length ∧
      ParentCycle selfParentCaps.collectionNodes ∧
      (∀ d : IOHIDDevice, d.elementArray = [] →
        (createCollectionElements sampleEnv selfParentCaps d
          selfParentCaps.caps.numberCollectionNodes).1 = false) ∧
      ∃ ret dev1, createElementHierarchy sampleEnv selfParentCaps emptyDevice
          = some (ret, dev1) ∧ ret ≠ kIOReturnSuccess) :=
  ⟨⟨rfl, ⟨{ parent := 5 }, by decide, by decide⟩,
    createElementHierarchy_bad_parent_fails sampleEnv badParentCaps emptyDevice rfl
      (Or.inl ⟨{ parent := 5 }, by decide, by decide⟩)⟩,
   ⟨rfl, ⟨1, 1, by decide, rfl⟩,
    createElementHierarchy_bad_parent_fails sampleEnv selfParentCaps emptyDevice rfl
      (Or.inr ⟨1, 1, by decide, rfl⟩)⟩⟩

theorem createCollectionLoop_any (env : BuildEnv) (nodes : List HIDCollectionNode) :
    ∀ dev : IOHIDDevice, ∃ created rest,
      (createCollectionLoop env nodes dev).2.elementArray.map describe =
        dev.elementArray.map describe ++ created ∧
      nodes.map (fun _ => (kIOHIDElementTypeCollection, 0, 0, 0)) = created ++ rest := by
  induction nodes with
  | nil => intro dev; exact ⟨[], [], by simp [createCollectionLoop], rfl⟩
  | cons node rest ih =>
    intro dev
    simp only [createCollectionLoop]
    cases hc : collectionElement env dev kIOHIDElementTypeCollection node with
    | none => exact ⟨[], _, by simp, rfl⟩
    | some dev2 =>
      obtain ⟨a1, _, _⟩ := collectionElement_some env dev dev2 _ node hc
      obtain ⟨created, rest1, b1, b2⟩ := ih dev2
      refine ⟨(kIOHIDElementTypeCollection, 0, 0, 0) :: created, rest1, ?_, ?_⟩
      · simp only []
        rw [b1, a1]
        simp
      · rw [List.map_cons, b2]
        rfl

theorem linkCollectionLoop_describe (nodes : List HIDCollectionNode) :
    ∀ (index : Nat) (arr : List IOHIDElement),
      (linkCollectionLoop nodes index arr).2.map describe = arr.map describe := by
  induction nodes with
  | nil => intro index arr; rfl
  | cons node rest ih =>
    intro index arr
    simp only [linkCollectionLoop]
    rcases linkToParent_cases arr node.parent index with ⟨hl, _, _⟩ | ⟨hl, _⟩
    · rw [hl]
      simp only [↓reduceIte]
      rw [ih, attachChild_map_describe]
    · rw [hl]
      simp

theorem createCollectionElements_any (env : BuildEnv) (p : HIDPreparsedData)
    (dev : IOHIDDevice) (maxCount : Nat) (hmax : maxCount = p.collectionNodes.length)
    (hempty : dev.elementArray = []) :
    ∃ created rest,
      (createCollectionElements env p dev maxCount).2.elementArray.map describe = created ∧
      p.collectionNodes.map (fun _ => (kIOHIDElementTypeCollection, 0, 0, 0)) =
        created ++ rest := by
  unfold createCollectionElements
  cases hm : env.collectionsMallocOk with
  | false => exact ⟨[], _, by simp [hempty], rfl⟩
  | true =>
    simp only [Bool.true_eq_false, ↓reduceIte, HIDGetCollectionNodes, hmax, List.take_length]
    by_cases hs : p.collectionNodesStatus ≠ kHIDSuccess
    · exact ⟨[], _, by simp [hs, hempty], rfl⟩
    · simp only [hs, ↓reduceIte]
      obtain ⟨created, rest, a1, a2⟩ := createCollectionLoop_any env p.collectionNodes dev
      rw [hempty] at a1
      refine ⟨created, rest, ?_, a2⟩
      by_cases hok : (createCollectionLoop env p.collectionNodes dev).1 = false
      · simp only [hok, ↓reduceIte]
        simpa using a1
      · have hok2 : (createCollectionLoop env p.collectionNodes dev).1 = true := by
          simpa using hok
        simp only [hok2, Bool.true_eq_false, ↓reduceIte]
        rw [linkCollectionLoop_describe]
        simpa using a1

theorem createButtonLoop_any (env : BuildEnv) (type : IOHIDElementType)
    (buttons : List HIDButtonCapabilities) :
    ∀ dev : IOHIDDevice, ∃ created rest,
      (createButtonLoop env type buttons dev).2.elementArray.map describe =
        dev.elementArray.map describe ++ created ∧
      buttons.map (describeButton type) = created ++ rest := by
  induction buttons with
  | nil => intro dev; exact ⟨[], [], by simp [createButtonLoop], rfl⟩
  | cons button rest ih =>
    intro dev
    simp only [createButtonLoop]
    cases hc : buttonElement env dev type button
        (getObjectIndex dev.elementArray button.collection) with
    | none => exact ⟨[], _, by simp, rfl⟩
    | some dev2 =>
      obtain ⟨a1, _, _⟩ := buttonElement_some env dev dev2 _ button _ hc
      obtain ⟨created, rest1, b1, b2⟩ := ih dev2
      refine ⟨describeButton type button :: created, rest1, ?_, ?_⟩
      · simp only []
        rw [b1, a1]
        simp
      · simp [b2]

theorem createValueLoop_any (env : BuildEnv) (type : IOHIDElementType)
    (values : List HIDValueCapabilities) :
    ∀ dev : IOHIDDevice, ∃ created rest,
      (createValueLoop env type values dev).2.elementArray.map describe =
        dev.elementArray.map describe ++ created ∧
      values.map (describeValue type) = created ++ rest := by
  induction values with
  | nil => intro dev; exact ⟨[], [], by simp [createValueLoop], rfl⟩
  | cons value rest ih =>
    intro dev
    simp only [createValueLoop]
    cases hc : valueElement env dev type value
        (getObjectIndex dev.elementArray value.collection) with
    | none => exact ⟨[], _, by simp, rfl⟩
    | some dev2 =>
      obtain ⟨a1, _, _⟩ := valueElement_some env dev dev2 _ value _ hc
      obtain ⟨created, rest1, b1, b2⟩ := ih dev2
      refine ⟨describeValue type value :: created, rest1, ?_, ?_⟩
      · simp only []
        rw [b1, a1]
        simp
      · simp [b2]

theorem createButtonElements_any (env : BuildEnv) (p : HIDPreparsedData)
    (dev : IOHIDDevice) (hid : HIDReportType) (type : IOHIDElementType) (maxCount : Nat)
    (hmax : maxCount = (p.buttonCaps hid).length) :
    ∃ created rest,
      (createButtonElements env p dev hid type maxCount).2.elementArray.map describe =
        dev.elementArray.map describe ++ created ∧
      (p.buttonCaps hid).map (describeButton type) = created ++ rest := by
  unfold createButtonElements
  by_cases h0 : maxCount = 0
  · exact ⟨[], _, by simp [h0], rfl⟩
  · simp only [h0, ↓reduceIte]
    cases hm : env.buttonsMallocOk hid with
    | false => exact ⟨[], _, by simp, rfl⟩
    | true =>
      simp only [Bool.true_eq_false, ↓reduceIte, HIDGetButtonCapabilities, hmax,
        List.take_length]
      by_cases hs : p.buttonCapsStatus hid ≠ kHIDSuccess
      · exact ⟨[], _, by simp [hs], rfl⟩
      · simp only [hs, ↓reduceIte]
        exact createButtonLoop_any env type _ dev

theorem createValueElements_any (env : BuildEnv) (p : HIDPreparsedData)
    (dev : IOHIDDevice) (hid : HIDReportType) (type : IOHIDElementType) (maxCount : Nat)
    (hmax : maxCount = (p.valueCaps hid).length) :
    ∃ created rest,
      (createValueElements env p dev hid type maxCount).2.elementArray.map describe =
        dev.elementArray.map describe ++ created ∧
      (p.valueCaps hid).map (describeValue type) = created ++ rest := by
  unfold createValueElements
  by_cases h0 : maxCount = 0
  · exact ⟨[], _, by simp [h0], rfl⟩
  · simp only [h0, ↓reduceIte]
    cases hm : env.valuesMallocOk hid with
    | false => exact ⟨[], _, by simp, rfl⟩
    | true =>
      simp only [Bool.true_eq_false, ↓reduceIte, HIDGetValueCapabilities, hmax,
        List.take_length]
      by_cases hs : p.valueCapsStatus hid ≠ kHIDSuccess
      · exact ⟨[], _, by simp [hs], rfl⟩
      · simp only [hs, ↓reduceIte]
        exact createValueLoop_any env type _ dev

theorem orBreak_cases (r : Bool × IOHIDDevice)
    (rest : IOHIDDevice → Option (IOReturn × IOHIDDevice)) (x : IOReturn × IOHIDDevice)
    (h : orBreak r rest = some x) :
    (r.1 = false ∧ x = (kIOReturnNoMemory, r.2)) ∨ (r.1 = true ∧ rest r.2 = some x) := by
  unfold orBreak at h
  by_cases h1 : r.1 = true
  · rw [if_pos h1] at h
    exact Or.inr ⟨h1, h⟩
  · rw [if_neg h1] at h
    simp only [Option.some.injEq] at h
    exact Or.inl ⟨by simpa using h1, h.symm⟩

theorem leadingPart_of_eq {α : Type} {created rest full : List α}
    (h : full = created ++ rest) : LeadingPart created full :=
  ⟨rest, h⟩

theorem leadingPart_created {α : Type} (A : List α) {created rest G : List α}
    (h : G = created ++ rest) : LeadingPart (A ++ created) (A ++ G) :=
  ⟨rest, by rw [h, List.append_assoc]⟩

theorem leadingPart_append_right {α : Type} {x y : List α} (z : List α)
    (h : LeadingPart x y) : LeadingPart x (y ++ z) := by
  obtain ⟨rest, hr⟩ := h
  exact ⟨rest ++ z, by rw [hr, List.append_assoc]⟩

theorem leadingPart_refl {α : Type} (x : List α) : LeadingPart x x :=
  ⟨[], by simp⟩

/-- Whatever `createElementHierarchy` returns for a well-formed source on a
device with an empty table, the table afterwards is an initial segment of the
table of the complete build. -/
theorem createElementHierarchy_leadingPart (env : BuildEnv) (p : HIDPreparsedData)
    (dev dev1 : IOHIDDevice) (ret : IOReturn) (hwf : CapsWellFormed p)
    (hempty : dev.elementArray = [])
    (h : createElementHierarchy env p dev = some (ret, dev1)) :
    LeadingPart (dev1.elementArray.map describe) (expectedTable p) := by
  obtain ⟨w1, w2, w3, w4, w5, w6, w7⟩ := hwf
  unfold createElementHierarchy at h
  by_cases g1 : p.capabilitiesStatus ≠ kHIDSuccess
  · rw [if_pos g1] at h
    simp only [Option.some.injEq, Prod.mk.injEq] at h
    rw [← h.2, hempty]
    exact ⟨_, (List.nil_append _).symm⟩
  rw [if_neg g1] at h
  simp only [] at h
  by_cases g2 : env.elementArrayOk = false
  · rw [if_pos g2] at h
    simp only [Option.some.injEq, Prod.mk.injEq] at h
    rw [← h.2]
    simp only [hempty]
    exact ⟨_, (List.nil_append _).symm⟩
  rw [if_neg g2] at h
  -- collections
  rcases orBreak_cases _ _ _ h with ⟨_, hx⟩ | ⟨s0, h⟩
  · obtain ⟨created, rest, a1, a2⟩ := createCollectionElements_any env p
      { dev with
        elementArray := []
        maxInputReportSize := p.caps.inputReportByteLength
        maxOutputReportSize := p.caps.outputReportByteLength
        maxFeatureReportSize := p.caps.featureReportByteLength }
      p.caps.numberCollectionNodes w1 rfl
    simp only [Prod.mk.injEq] at hx
    rw [hx.2, a1]
    unfold expectedTable
    exact leadingPart_append_right _ (leadingPart_append_right _ (leadingPart_append_right _ (leadingPart_append_right _ (leadingPart_append_right _ (leadingPart_append_right _ (leadingPart_of_eq a2))))))
  obtain ⟨c1, _⟩ := createCollectionElements_true env p _ _ _ w1 rfl (Prod.ext s0 rfl)
  -- input buttons
  rcases orBreak_cases _ _ _ h with ⟨_, hx⟩ | ⟨s1, h⟩
  · obtain ⟨created, rest, a1, a2⟩ := createButtonElements_any env p
      { (createCollectionElements env p
          { dev with
            elementArray := []
            maxInputReportSize := p.caps.inputReportByteLength
            maxOutputReportSize := p.caps.outputReportByteLength
            maxFeatureReportSize := p.caps.featureReportByteLength }
          p.caps.numberCollectionNodes).2 with
        dataElementIndex := (createCollectionElements env p
          { dev with
            elementArray := []
            maxInputReportSize := p.caps.inputReportByteLength
            maxOutputReportSize := p.caps.outputReportByteLength
            maxFeatureReportSize := p.caps.featureReportByteLength }
          p.caps.numberCollectionNodes).2.elementArray.length }
      kHIDInputReport kIOHIDElementTypeInput_Button _ w2
    simp only [Prod.mk.injEq] at hx
    rw [hx.2, a1]
    simp only []
    rw [c1]
    unfold expectedTable
    exact leadingPart_append_right _ (leadingPart_append_right _ (leadingPart_append_right _ (leadingPart_append_right _ (leadingPart_append_right _ (leadingPart_created _ a2)))))
  obtain ⟨x1, _, _⟩ := createButtonElements_true env p _ _ _ _ w2 s1
  simp only [] at x1
  rw [c1] at x1
  -- output buttons
  rcases orBreak_cases _ _ _ h with ⟨_, hx⟩ | ⟨s2, h⟩
  · obtain ⟨created, rest, a1, a2⟩ := createButtonElements_any env p
      (createButtonElements env p _ kHIDInputReport kIOHIDElementTypeInput_Button
        p.caps.numberInputButtonCaps).2
      kHIDOutputReport kIOHIDElementTypeOutput _ w3
    simp only [Prod.mk.injEq] at hx
    rw [hx.2, a1, x1]
    unfold expectedTable
    exact leadingPart_append_right _ (leadingPart_append_right _ (leadingPart_append_right _ (leadingPart_append_right _ (leadingPart_created _ a2))))
  obtain ⟨x2, _, _⟩ := createButtonElements_true env p _ _ _ _ w3 s2
  rw [x1] at x2
  -- feature buttons
  rcases orBreak_cases _ _ _ h with ⟨_, hx⟩ | ⟨s3, h⟩
  · obtain ⟨created, rest, a1, a2⟩ := createButtonElements_any env p
      (createButtonElements env p _ kHIDOutputReport kIOHIDElementTypeOutput
        p.caps.numberOutputButtonCaps).2
      kHIDFeatureReport kIOHIDElementTypeFeature _ w4
    simp only [Prod.mk.injEq] at hx
    rw [hx.2, a1, x2]
    unfold expectedTable
    exact leadingPart_append_right _ (leadingPart_append_right _ (leadingPart_append_right _ (leadingPart_created _ a2)))
  obtain ⟨x3, _, _⟩ := createButtonElements_true env p _ _ _ _ w4 s3
  rw [x2] at x3
  -- input values
  rcases orBreak_cases _ _ _ h with ⟨_, hx⟩ | ⟨s4, h⟩
  · obtain ⟨created, rest, a1, a2⟩ := createValueElements_any env p
      (createButtonElements env p _ kHIDFeatureReport kIOHIDElementTypeFeature
        p.caps.numberFeatureButtonCaps).2
      kHIDInputReport kIOHIDElementTypeInput_Misc _ w5
    simp only [Prod.mk.injEq] at hx
    rw [hx.2, a1, x3]
    unfold expectedTable
    exact leadingPart_append_right _ (leadingPart_append_right _ (leadingPart_created _ a2))
  obtain ⟨x4, _, _⟩ := createValueElements_true env p _ _ _ _ w5 s4
  rw [x3] at x4
  -- output values
  rcases orBreak_cases _ _ _ h with ⟨_, hx⟩ | ⟨s5, h⟩
  · obtain ⟨created, rest, a1, a2⟩ := createValueElements_any env p
      (createValueElements env p _ kHIDInputReport kIOHIDElementTypeInput_Misc
        p.caps.numberInputValueCaps).2
      kHIDOutputReport kIOHIDElementTypeOutput _ w6
    simp only [Prod.mk.injEq] at hx
    rw [hx.2, a1, x4]
    unfold expectedTable
    exact leadingPart_append_right _ (leadingPart_created _ a2)
  obtain ⟨x5, _, _⟩ := createValueElements_true env p _ _ _ _ w6 s5
  rw [x4] at x5
  -- feature values
  rcases orBreak_cases _ _ _ h with ⟨_, hx⟩ | ⟨s6, h⟩
  · obtain ⟨created, rest, a1, a2⟩ := createValueElements_any env p
      (createValueElements env p _ kHIDOutputReport kIOHIDElementTypeOutput
        p.caps.numberOutputValueCaps).2
      kHIDFeatureReport kIOHIDElementTypeFeature _ w7
    simp only [Prod.mk.injEq] at hx
    rw [hx.2, a1, x5]
    unfold expectedTable
    exact leadingPart_created _ a2
  obtain ⟨x6, _, _⟩ := createValueElements_true env p _ _ _ _ w7 s6
  rw [x5] at x6
  -- value memory
  cases hm : createMemoryForElementValues
      (createValueElements env p _ kHIDFeatureReport kIOHIDElementTypeFeature
        p.caps.numberFeatureValueCaps).2 env.descriptorOk with
  | none =>
    rw [hm] at h
    simp at h
  | some m =>
    rw [hm] at h
    obtain ⟨m1, _, _⟩ := createMemoryForElementValues_map describe (fun _ _ => rfl) _ _ m hm
    cases hd : m.descriptor with
    | none =>
      simp only [hd, Option.some.injEq, Prod.mk.injEq] at h
      rw [← h.2, m1, x6]
      exact leadingPart_refl _
    | some capacity =>
      simp only [hd, Option.some.injEq, Prod.mk.injEq] at h
      rw [← h.2]
      simp only []
      rw [m1, x6]
      exact leadingPart_refl _

/-- C14, as stated, fails: when `HIDGetValueCapabilities` fails after the
collections and the input button have been created, `createElementHierarchy`
returns an error and the two collections and the button are still in the
element table, the button still being the head of its dispatch chain, while
table and heads were empty before the call. -/
theorem failed_build_keeps_elements :
    emptyDevice.elementArray = [] ∧
    emptyDevice.reportHandlers 1 kIOHIDReportTypeInput = none ∧
    ∃ ret dev1, createElementHierarchy sampleEnv failingValueCaps emptyDevice =
        some (ret, dev1) ∧
      ret ≠ kIOReturnSuccess ∧
      dev1.elementArray.length = 3 ∧
      dev1.reportHandlers 1 kIOHIDReportTypeInput = some 2 :=
  ⟨rfl, rfl, kIOReturnNoMemory, _, rfl, by decide, rfl, rfl⟩

theorem getObjectIndex_of_lt (arr : List IOHIDElement) (i : Nat) (h : i < arr.length) :
    getObjectIndex arr i = some i := by
  simp [getObjectIndex, h]

theorem createButtonLoop_parents (env : BuildEnv) (type : IOHIDElementType)
    (buttons : List HIDButtonCapabilities) :
    ∀ (dev dev1 : IOHIDDevice),
      (∀ b ∈ buttons, b.collection < dev.elementArray.length) →
      createButtonLoop env type buttons dev = (true, dev1) →
      dev1.elementArray.map (fun e => e.parent) =
        dev.elementArray.map (fun e => e.parent) ++ buttons.map (fun b => some b.collection) := by
  induction buttons with
  | nil =>
    intro dev dev1 _ h
    simp only [createButtonLoop, Prod.mk.injEq, true_and] at h
    subst h
    simp
  | cons button rest ih =>
    intro dev dev1 hr h
    simp only [createButtonLoop] at h
    have hb := hr button (List.mem_cons_self _ _)
    rw [getObjectIndex_of_lt _ _ hb] at h
    cases hc : buttonElement env dev type button (some button.collection) with
    | none => simp [hc] at h
    | some dev2 =>
      simp only [hc] at h
      obtain ⟨a1, a2, _⟩ := buttonElement_some env dev dev2 _ button _ hc
      have hlen : dev2.elementArray.length = dev.elementArray.length + 1 := by
        have := congrArg List.length a1
        simpa using this
      rw [ih dev2 dev1 (fun b hb2 => by
        have := hr b (List.mem_cons_of_mem _ hb2)
        omega) h, a2]
      simp

theorem createValueLoop_parents (env : BuildEnv) (type : IOHIDElementType)
    (values : List HIDValueCapabilities) :
    ∀ (dev dev1 : IOHIDDevice),
      (∀ v ∈ values, v.collection < dev.elementArray.length) →
      createValueLoop env type values dev = (true, dev1) →
      dev1.elementArray.map (fun e => e.parent) =
        dev.elementArray.map (fun e => e.parent) ++ values.map (fun v => some v.collection) := by
  induction values with
  | nil =>
    intro dev dev1 _ h
    simp only [createValueLoop, Prod.mk.injEq, true_and] at h
    subst h
    simp
  | cons value rest ih =>
    intro dev dev1 hr h
    simp only [createValueLoop] at h
    have hb := hr value (List.mem_cons_self _ _)
    rw [getObjectIndex_of_lt _ _ hb] at h
    cases hc : valueElement env dev type value (some value.collection) with
    | none => simp [hc] at h
    | some dev2 =>
      simp only [hc] at h
      obtain ⟨a1, a2, _⟩ := valueElement_some env dev dev2 _ value _ hc
      have hlen : dev2.elementArray.length = dev.elementArray.length + 1 := by
        have := congrArg List.length a1
        simpa using this
      rw [ih dev2 dev1 (fun b hb2 => by
        have := hr b (List.mem_cons_of_mem _ hb2)
        omega) h, a2]
      simp

theorem createButtonElements_parents (env : BuildEnv) (p : HIDPreparsedData)
    (dev : IOHIDDevice) (hid : HIDReportType) (type : IOHIDElementType) (maxCount : Nat)
    (hmax : maxCount = (p.buttonCaps hid).length)
    (hr : ∀ b ∈ p.buttonCaps hid, b.collection < dev.elementArray.length)
    (h : (createButtonElements env p dev hid type maxCount).1 = true) :
    (createButtonElements env p dev hid type maxCount).2.elementArray.map (fun e => e.parent) =
      dev.elementArray.map (fun e => e.parent) ++
        (p.buttonCaps hid).map (fun b => some b.collection) := by
  unfold createButtonElements at h ⊢
  by_cases h0 : maxCount = 0
  · have hnil : p.buttonCaps hid = [] := by
      rw [h0] at hmax
      exact List.length_eq_zero.1 hmax.symm
    simp [h0, hnil]
  · simp only [h0, ↓reduceIte] at h ⊢
    cases hm : env.buttonsMallocOk hid with
    | false => simp [hm] at h
    | true =>
      simp only [hm, Bool.true_eq_false, ↓reduceIte, HIDGetButtonCapabilities, hmax,
        List.take_length] at h ⊢
      by_cases hs : p.buttonCapsStatus hid ≠ kHIDSuccess
      · simp [hs] at h
      · simp only [hs, ↓reduceIte] at h ⊢
        exact createButtonLoop_parents env type _ dev _ hr (Prod.ext h rfl)

theorem createValueElements_parents (env : BuildEnv) (p : HIDPreparsedData)
    (dev : IOHIDDevice) (hid : HIDReportType) (type : IOHIDElementType) (maxCount : Nat)
    (hmax : maxCount = (p.valueCaps hid).length)
    (hr : ∀ v ∈ p.valueCaps hid, v.collection < dev.elementArray.length)
    (h : (createValueElements env p dev hid type maxCount).1 = true) :
    (createValueElements env p dev hid type maxCount).2.elementArray.map (fun e => e.parent) =
      dev.elementArray.map (fun e => e.parent) ++
        (p.valueCaps hid).map (fun v => some v.collection) := by
  unfold createValueElements at h ⊢
  by_cases h0 : maxCount = 0
  · have hnil : p.valueCaps hid = [] := by
      rw [h0] at hmax
      exact List.length_eq_zero.1 hmax.symm
    simp [h0, hnil]
  · simp only [h0, ↓reduceIte] at h ⊢
    cases hm : env.valuesMallocOk hid with
    | false => simp [hm] at h
    | true =>
      simp only [hm, Bool.true_eq_false, ↓reduceIte, HIDGetValueCapabilities, hmax,
        List.take_length] at h ⊢
      by_cases hs : p.valueCapsStatus hid ≠ kHIDSuccess
      · simp [hs] at h
      · simp only [hs, ↓reduceIte] at h ⊢
        exact createValueLoop_parents env type _ dev _ hr (Prod.ext h rfl)

theorem length_le_of_map_parent_append {a b : List IOHIDElement} {extra : List (Option Nat)}
    (h : b.map (fun e => e.parent) = a.map (fun e => e.parent) ++ extra) :
    a.length ≤ b.length := by
  have := congrArg List.length h
  simp only [List.length_map, List.length_append] at this
  omega

/-- The parent references after a successful build from a well-formed source
whose buttons and values name existing collections. -/
theorem createElementHierarchy_parents (env : BuildEnv) (p : HIDPreparsedData)
    (dev dev1 : IOHIDDevice) (hwf : CapsWellFormed p)
    (hbtn : ∀ t, ∀ b ∈ p.buttonCaps t, b.collection < p.caps.numberCollectionNodes)
    (hval : ∀ t, ∀ v ∈ p.valueCaps t, v.collection < p.caps.numberCollectionNodes)
    (h : createElementHierarchy env p dev = some (kIOReturnSuccess, dev1)) :
    dev1.elementArray.map (fun e => e.parent) = expectedParents p := by
  obtain ⟨w1, w2, w3, w4, w5, w6, w7⟩ := hwf
  obtain ⟨d0, c, b1, b2, b3, v1, v2, v3, m, hd0, hc, e1, s1, e2, s2, e3, s3, e4, s4, e5, s5,
    e6, s6, hm, ha, _, _, _, _⟩ := createElementHierarchy_success env p dev dev1 h
  obtain ⟨c1, c2⟩ := createCollectionElements_true env p d0 c _ w1 hd0 hc
  have hclen : p.caps.numberCollectionNodes ≤ c.elementArray.length := by
    have := congrArg List.length c1
    simp only [List.length_map] at this
    omega
  have y1 := createButtonElements_parents env p
    { c with dataElementIndex := c.elementArray.length } kHIDInputReport
    kIOHIDElementTypeInput_Button _ w2
    (fun b hb => lt_of_lt_of_le (hbtn _ b hb) hclen) s1
  rw [← e1] at y1
  have l1 := hclen.trans (length_le_of_map_parent_append y1)
  have y2 := createButtonElements_parents env p b1 kHIDOutputReport
    kIOHIDElementTypeOutput _ w3 (fun b hb => lt_of_lt_of_le (hbtn _ b hb) l1) s2
  rw [← e2] at y2
  have l2 := l1.trans (length_le_of_map_parent_append y2)
  have y3 := createButtonElements_parents env p b2 kHIDFeatureReport
    kIOHIDElementTypeFeature _ w4 (fun b hb => lt_of_lt_of_le (hbtn _ b hb) l2) s3
  rw [← e3] at y3
  have l3 := l2.trans (length_le_of_map_parent_append y3)
  have y4 := createValueElements_parents env p b3 kHIDInputReport
    kIOHIDElementTypeInput_Misc _ w5 (fun v hv => lt_of_lt_of_le (hval _ v hv) l3) s4
  rw [← e4] at y4
  have l4 := l3.trans (length_le_of_map_parent_append y4)
  have y5 := createValueElements_parents env p v1 kHIDOutputReport
    kIOHIDElementTypeOutput _ w6 (fun v hv => lt_of_lt_of_le (hval _ v hv) l4) s5
  rw [← e5] at y5
  have l5 := l4.trans (length_le_of_map_parent_append y5)
  have y6 := createValueElements_parents env p v2 kHIDFeatureReport
    kIOHIDElementTypeFeature _ w7 (fun v hv => lt_of_lt_of_le (hval _ v hv) l5) s6
  rw [← e6] at y6
  obtain ⟨m3, _, _⟩ := createMemoryForElementValues_map (fun e => e.parent) (fun _ _ => rfl)
    v3 _ m hm
  rw [ha, m3, y6, y5, y4, y3, y2, y1]
  simp only []
  rw [c2]
  rfl

theorem followParent_root (arr : List IOHIDElement)
    (h0 : ∀ e, arr[0]? = some e → e.parent = none)
    (hi : ∀ (i : Nat) (e : IOHIDElement), arr[i]? = some e → 0 < i →
      ∃ q, e.parent = some q ∧ q < i) :
    ∀ (i : Nat), i < arr.length → ∀ fuel, i + 1 ≤ fuel → followParent fuel arr i = some 0 := by
  intro i
  induction i using Nat.strong_induction_on with
  | _ i ih =>
    intro hlt fuel hf
    cases fuel with
    | zero => omega
    | succ fuel =>
      have he : arr[i]? = some arr[i] := List.getElem?_eq_getElem hlt
      simp only [followParent, he]
      rcases Nat.eq_zero_or_pos i with rfl | hpos
      · rw [h0 _ he]
      · obtain ⟨q, hq, hqi⟩ := hi i _ he hpos
        rw [hq]
        exact ih q hqi (by omega) fuel (by omega)

theorem expectedParents_tree (p : HIDPreparsedData)
    (hcount : p.caps.numberCollectionNodes = p.collectionNodes.length)
    (hcoll : ∀ (i : Nat) (node : HIDCollectionNode), p.collectionNodes[i]? = some node →
      1 ≤ i → node.parent < i)
    (hbtn : ∀ t, ∀ b ∈ p.buttonCaps t, b.collection < p.caps.numberCollectionNodes)
    (hval : ∀ t, ∀ v ∈ p.valueCaps t, v.collection < p.caps.numberCollectionNodes) :
    (∀ x, (expectedParents p)[0]? = some x → x = none) ∧
    (∀ (i : Nat) (x : Option Nat), (expectedParents p)[i]? = some x → 0 < i →
      ∃ q, x = some q ∧ q < i) := by
  have hdata : ∀ x ∈ (p.buttonCaps kHIDInputReport).map (fun b => some b.collection) ++
      (p.buttonCaps kHIDOutputReport).map (fun b => some b.collection) ++
      (p.buttonCaps kHIDFeatureReport).map (fun b => some b.collection) ++
      (p.valueCaps kHIDInputReport).map (fun v => some v.collection) ++
      (p.valueCaps kHIDOutputReport).map (fun v => some v.collection) ++
      (p.valueCaps kHIDFeatureReport).map (fun v => some v.collection),
      ∃ q, x = some q ∧ q < p.collectionNodes.length := by
    intro x hx
    simp only [List.mem_append, List.mem_map] at hx
    rw [← hcount]
    rcases hx with ((((⟨b, hb, rfl⟩ | ⟨b, hb, rfl⟩) | ⟨b, hb, rfl⟩) | ⟨b, hb, rfl⟩) |
      ⟨b, hb, rfl⟩) | ⟨b, hb, rfl⟩
    · exact ⟨_, rfl, hbtn _ b hb⟩
    · exact ⟨_, rfl, hbtn _ b hb⟩
    · exact ⟨_, rfl, hbtn _ b hb⟩
    · exact ⟨_, rfl, hval _ b hb⟩
    · exact ⟨_, rfl, hval _ b hb⟩
    · exact ⟨_, rfl, hval _ b hb⟩
  have hsplit : expectedParents p =
      ((p.collectionNodes.take 1).map (fun _ => (none : Option Nat)) ++
        (p.collectionNodes.drop 1).map (fun n => some n.parent)) ++
      ((p.buttonCaps kHIDInputReport).map (fun b => some b.collection) ++
      (p.buttonCaps kHIDOutputReport).map (fun b => some b.collection) ++
      (p.buttonCaps kHIDFeatureReport).map (fun b => some b.collection) ++
      (p.valueCaps kHIDInputReport).map (fun v => some v.collection) ++
      (p.valueCaps kHIDOutputReport).map (fun v => some v.collection) ++
      (p.valueCaps kHIDFeatureReport).map (fun v => some v.collection)) := by
    simp only [expectedParents, List.append_assoc]
  have hclen : ((p.collectionNodes.take 1).map (fun _ => (none : Option Nat)) ++
        (p.collectionNodes.drop 1).map (fun n => some n.parent)).length =
      p.collectionNodes.length := by
    simp only [List.length_append, List.length_map, List.length_take, List.length_drop]
    omega
  have hcget : ∀ (i : Nat) (x : Option Nat),
      ((p.collectionNodes.take 1).map (fun _ => (none : Option Nat)) ++
        (p.collectionNodes.drop 1).map (fun n => some n.parent))[i]? = some x →
      (i = 0 → x = none) ∧ (0 < i → ∃ q, x = some q ∧ q < i) := by
    intro i x hx
    cases hn : p.collectionNodes with
    | nil => simp [hn] at hx
    | cons n0 rest =>
      rw [hn] at hx
      simp only [List.take_succ_cons, List.take_zero, List.map_cons, List.map_nil,
        List.drop_succ_cons, List.drop_zero, List.singleton_append] at hx
      cases i with
      | zero =>
        simp only [List.getElem?_cons_zero, Option.some.injEq] at hx
        exact ⟨fun _ => hx.symm, fun h => absurd h (lt_irrefl _)⟩
      | succ j =>
        simp only [List.getElem?_cons_succ, List.getElem?_map] at hx
        cases hr : rest[j]? with
        | none => simp [hr] at hx
        | some node =>
          simp only [hr, Option.map_some', Option.some.injEq] at hx
          refine ⟨fun h => by omega, fun _ => ⟨node.parent, hx.symm, ?_⟩⟩
          apply hcoll (j + 1) node
          · rw [hn]
            simpa using hr
          · omega
  rw [hsplit]
  constructor
  · intro x hx
    by_cases hz : 0 < p.collectionNodes.length
    · rw [List.getElem?_append_left (by rw [hclen]; exact hz)] at hx
      exact (hcget 0 x hx).1 rfl
    · rw [List.getElem?_append_right (by rw [hclen]; omega)] at hx
      obtain ⟨q, _, hq⟩ := hdata x (List.getElem?_mem hx)
      omega
  · intro i x hx hpos
    by_cases hz : i < p.collectionNodes.length
    · rw [List.getElem?_append_left (by rw [hclen]; exact hz)] at hx
      exact (hcget i x hx).2 hpos
    · rw [List.getElem?_append_right (by rw [hclen]; omega)] at hx
      obtain ⟨q, hq1, hq2⟩ := hdata x (List.getElem?_mem hx)
      exact ⟨q, hq1, by omega⟩

/-- C12: if the capability source is well formed and lists every parent before
its children (each non-root collection names a parent with a smaller index,
each button and value names a collection), then after a successful build
element 0 has no parent, every other element has a parent, which lies before
it in the table, and following the parent links from any element reaches
element 0 after finitely many steps. -/
theorem createElementHierarchy_parent_tree (env : BuildEnv) (p : HIDPreparsedData)
    (dev dev1 : IOHIDDevice) (hwf : CapsWellFormed p)
    (hcoll : ∀ (i : Nat) (node : HIDCollectionNode), p.collectionNodes[i]? = some node →
      1 ≤ i → node.parent < i)
    (hbtn : ∀ t, ∀ b ∈ p.buttonCaps t, b.collection < p.caps.numberCollectionNodes)
    (hval : ∀ t, ∀ v ∈ p.valueCaps t, v.collection < p.caps.numberCollectionNodes)
    (h : createElementHierarchy env p dev = some (kIOReturnSuccess, dev1)) :
    (∀ e, dev1.elementArray[0]? = some e → e.parent = none) ∧
    (∀ (i : Nat) (e : IOHIDElement), dev1.elementArray[i]? = some e → 0 < i →
      ∃ q, e.parent = some q ∧ q < i) ∧
    (∀ (i : Nat), i < dev1.elementArray.length →
      followParent dev1.elementArray.length dev1.elementArray i = some 0) := by
  have hpar := createElementHierarchy_parents env p dev dev1 hwf hbtn hval h
  obtain ⟨t0, ti⟩ := expectedParents_tree p hwf.1 hcoll hbtn hval
  have hget : ∀ (i : Nat) (e : IOHIDElement), dev1.elementArray[i]? = some e →
      (expectedParents p)[i]? = some e.parent := by
    intro i e he
    rw [← hpar, List.getElem?_map, he]
    rfl
  have h0 : ∀ e, dev1.elementArray[0]? = some e → e.parent = none :=
    fun e he => t0 _ (hget 0 e he)
  have hi : ∀ (i : Nat) (e : IOHIDElement), dev1.elementArray[i]? = some e → 0 < i →
      ∃ q, e.parent = some q ∧ q < i :=
    fun i e he hpos => ti i _ (hget i e he) hpos
  exact ⟨h0, hi, fun i hlt => followParent_root dev1.elementArray h0 hi i hlt _ (by omega)⟩

/-- The parent tree theorem at the build from `sampleCaps`. -/
theorem createElementHierarchy_parent_tree_witness :
    CapsWellFormed sampleCaps ∧
    (∀ (i : Nat) (node : HIDCollectionNode), sampleCaps.collectionNodes[i]? = some node →
      1 ≤ i → node.parent < i) ∧
    (∀ t, ∀ b ∈ sampleCaps.buttonCaps t, b.collection < sampleCaps.caps.numberCollectionNodes) ∧
    (∀ t, ∀ v ∈ sampleCaps.valueCaps t, v.collection < sampleCaps.caps.numberCollectionNodes) ∧
    createElementHierarchy sampleEnv sampleCaps emptyDevice =
      some (kIOReturnSuccess, sampleBuilt) ∧
    ((∀ e, sampleBuilt.elementArray[0]? = some e → e.parent = none) ∧
    (∀ (i : Nat) (e : IOHIDElement), sampleBuilt.elementArray[i]? = some e → 0 < i →
      ∃ q, e.parent = some q ∧ q < i) ∧
    (∀ (i : Nat), i < sampleBuilt.elementArray.length →
      followParent sampleBuilt.elementArray.length sampleBuilt.elementArray i = some 0)) ∧
    sampleBuilt.elementArray.map (fun e => e.parent) = [none, some 0, some 1, some 1] :=
  have hcoll : ∀ (i : Nat) (node : HIDCollectionNode),
      sampleCaps.collectionNodes[i]? = some node → 1 ≤ i → node.parent < i := by
    intro i node hn hi
    rcases i with _ | _ | i
    · omega
    · simp only [sampleCaps, zero_add, List.getElem?_cons_succ, List.getElem?_cons_zero,
        Option.some.injEq] at hn
      rw [← hn]
      decide
    · simp [sampleCaps] at hn
  have hbtn : ∀ t, ∀ b ∈ sampleCaps.buttonCaps t,
      b.collection < sampleCaps.caps.numberCollectionNodes := by
    intro t
    cases t <;> decide
  have hval : ∀ t, ∀ v ∈ sampleCaps.valueCaps t,
      v.collection < sampleCaps.caps.numberCollectionNodes := by
    intro t
    cases t <;> decide
  ⟨by unfold CapsWellFormed; decide, hcoll, hbtn, hval, rfl,
    createElementHierarchy_parent_tree sampleEnv sampleCaps emptyDevice sampleBuilt
      (by unfold CapsWellFormed; decide) hcoll hbtn hval rfl, by decide⟩

/-! ## Transactions: `updateElementValues` and `postElementValues` -/

/-- One step of the `SetCookiesTransactionState` loop never undoes the state of
an element that already has it. -/
theorem setCookies_foldl_keeps (state : IOHIDTransactionState) (l : List Nat) :
    ∀ (arr : List IOHIDElement) (k : Nat),
      (∀ e, arr[k]? = some e → e.transactionState = state) →
      ∀ e, (l.foldl (fun a c =>
        match a[c]? with
        | none => a
        | some element => a.set c (element.setTransactionState state)) arr)[k]? = some e →
        e.transactionState = state := by
  induction l with
  | nil => intro arr k h e he; exact h e he
  | cons c rest ih =>
    intro arr k h e he
    simp only [List.foldl_cons] at he
    refine ih _ k ?_ e he
    intro e1 he1
    cases hc : arr[c]? with
    | none =>
      simp only [hc] at he1
      exact h e1 he1
    | some el =>
      simp only [hc] at he1
      by_cases hk : c = k
      · subst hk
        have hlt := (List.getElem?_eq_some.1 hc).1
        simp only [List.getElem?_set, hlt, ↓reduceIte, Option.some.injEq] at he1
        rw [← he1]
        rfl
      · rw [List.getElem?_set_ne hk] at he1
        exact h e1 he1

theorem setCookies_foldl_sets (state : IOHIDTransactionState) (l : List Nat) :
    ∀ (arr : List IOHIDElement), ∀ c ∈ l, ∀ e,
      (l.foldl (fun a c =>
        match a[c]? with
        | none => a
        | some element => a.set c (element.setTransactionState state)) arr)[c]? = some e →
        e.transactionState = state := by
  induction l with
  | nil => intro arr c hc; simp at hc
  | cons c0 rest ih =>
    intro arr c hc e he
    simp only [List.foldl_cons] at he
    rcases List.mem_cons.1 hc with rfl | hrest
    · refine setCookies_foldl_keeps state rest _ c ?_ e he
      intro e1 he1
      cases h0 : arr[c]? with
      | none =>
        simp [h0] at he1
      | some el =>
        simp only [h0] at he1
        have hlt := (List.getElem?_eq_some.1 h0).1
        simp only [List.getElem?_set, hlt, ↓reduceIte, Option.some.injEq] at he1
        rw [← he1]
        rfl
    · exact ih _ c hrest e he

/-- After `SetCookiesTransactionState` from position `offset`, every cookie at
a position from `offset` on that resolves to an element resolves to an element
in the given state. -/
theorem setCookiesTransactionState_sets (arr : List IOHIDElement) (cookies : List Nat)
    (state : IOHIDTransactionState) (offset : Nat) (j c : Nat) (e : IOHIDElement)
    (hj : offset ≤ j) (hc : cookies[j]? = some c)
    (he : (SetCookiesTransactionState arr cookies state offset).1[c]? = some e) :
    e.transactionState = state := by
  unfold SetCookiesTransactionState at he
  refine setCookies_foldl_sets state _ arr c ?_ e he
  rw [List.mem_iff_getElem?]
  refine ⟨j - offset, ?_⟩
  rw [List.getElem?_drop]
  rw [show offset + (j - offset) = j by omega]
  exact hc

theorem setCookies_foldl_map {β : Type} (f : IOHIDElement → β)
    (hf : ∀ (e : IOHIDElement) (s : IOHIDTransactionState), f { e with transactionState := s } = f e)
    (state : IOHIDTransactionState) (l : List Nat) :
    ∀ (arr : List IOHIDElement),
      (l.foldl (fun a c =>
        match a[c]? with
        | none => a
        | some element => a.set c (element.setTransactionState state)) arr).map f
        = arr.map f := by
  induction l with
  | nil => intro arr; rfl
  | cons c rest ih =>
    intro arr
    simp only [List.foldl_cons]
    rw [ih]
    cases hc : arr[c]? with
    | none => rfl
    | some el => exact map_set_same f arr c el _ hc (hf _ _)

theorem setCookiesTransactionState_map {β : Type} (f : IOHIDElement → β)
    (hf : ∀ (e : IOHIDElement) (s : IOHIDTransactionState), f { e with transactionState := s } = f e)
    (arr : List IOHIDElement) (cookies : List Nat) (state : IOHIDTransactionState)
    (offset : Nat) :
    (SetCookiesTransactionState arr cookies state offset).1.map f = arr.map f :=
  setCookies_foldl_map f hf state _ arr

theorem updateElementValuesLoop_append (tr : Transport) (pre rest : List Nat) :
    ∀ (st0 st1 : UpdateLoopState), updateElementValuesLoop tr pre st0 = some st1 →
      st1.index = st0.index + pre.length →
      updateElementValuesLoop tr (pre ++ rest) st0 = updateElementValuesLoop tr rest st1 := by
  induction pre with
  | nil =>
    intro st0 st1 h _
    simp only [updateElementValuesLoop, Option.some.injEq] at h
    subst h
    rfl
  | cons c pre ih =>
    intro st0 st1 h hidx
    simp only [List.cons_append, updateElementValuesLoop] at h ⊢
    simp only [List.length_cons] at hidx
    cases he : GetElement st0.dev c with
    | none =>
      simp only [he] at h ⊢
      exact ih _ _ h (by show st1.index = st0.index + 1 + pre.length; omega)
    | some element =>
      simp only [he] at h ⊢
      by_cases hp : element.transactionState ≠ kIOHIDTransactionStatePending
      · rw [if_pos hp] at h ⊢
        exact ih _ _ h (by show st1.index = st0.index + 1 + pre.length; omega)
      · rw [if_neg hp] at h ⊢
        cases hty : element.getReportType with
        | none =>
          simp only [hty] at h ⊢
          exact ih _ _ h (by show st1.index = st0.index + 1 + pre.length; omega)
        | some t =>
          simp only [hty] at h ⊢
          by_cases hg : (tr.getReport st0.fetched.length t element.reportID).1 ≠ kIOReturnSuccess
          · rw [if_pos hg] at h
            simp only [Option.some.injEq] at h
            rw [← h] at hidx
            simp only [] at hidx
            omega
          · rw [if_neg hg] at h ⊢
            cases hh : handleReport st0.dev (tr.getReport st0.fetched.length t element.reportID).2
                (tr.getReport st0.fetched.length t element.reportID).2.length true t with
            | none => simp [hh] at h
            | some r =>
              simp only [hh] at h ⊢
              by_cases hr : r.ret ≠ kIOReturnSuccess
              · rw [if_pos hr] at h
                simp only [Option.some.injEq] at h
                rw [← h] at hidx
                simp only [] at hidx
                omega
              · rw [if_neg hr] at h ⊢
                exact ih _ _ h (by show st1.index = st0.index + 1 + pre.length; omega)

/-- C15: in `updateElementValues`, let the loop pass the handles `pre` without
leaving, and let the next handle `c` resolve to a Pending element with a report
type for which `getReport`, or after a successful `getReport` the routing by
`handleReport`, returns the non-success code `code`.  Then the call returns
exactly `code`, the `getReport` for `c` is the last one made, and every
element resolved by a handle at the position of `c` or later is Idle on
return. -/
theorem updateElementValues_stops_at_failure (dev : IOHIDDevice) (tr : Transport)
    (pre post : List Nat) (c : Nat) (st1 : UpdateLoopState) (element : IOHIDElement)
    (t : IOHIDReportType) (code : IOReturn)
    (hpre : updateElementValuesLoop tr pre
      { dev := { dev with elementArray :=
          (SetCookiesTransactionState dev.elementArray (pre ++ c :: post)
            kIOHIDTransactionStatePending 0).1 },
        ret := kIOReturnError, index := 0, fetched := [] } = some st1)
    (hcomplete : st1.index = pre.length)
    (he : GetElement st1.dev c = some element)
    (hpend : element.transactionState = kIOHIDTransactionStatePending)
    (hty : element.getReportType = some t)
    (hcode : code ≠ kIOReturnSuccess)
    (hfail : (tr.getReport st1.fetched.length t element.reportID).1 = code ∨
      ((tr.getReport st1.fetched.length t element.reportID).1 = kIOReturnSuccess ∧
        ∃ hr, handleReport st1.dev (tr.getReport st1.fetched.length t element.reportID).2
          (tr.getReport st1.fetched.length t element.reportID).2.length true t = some hr ∧
          hr.ret = code)) :
    ∃ r, updateElementValues dev (pre ++ c :: post) true tr = some r ∧
      r.ret = code ∧
      r.fetched = st1.fetched ++ [(t, element.reportID)] ∧
      ∀ (j c1 : Nat) (e : IOHIDElement), pre.length ≤ j →
        (pre ++ c :: post)[j]? = some c1 → r.dev.elementArray[c1]? = some e →
        e.transactionState = kIOHIDTransactionStateIdle := by
  have happ := updateElementValuesLoop_append tr pre (c :: post) _ st1 hpre
    (by simpa using hcomplete)
  have hnp : ¬(element.transactionState ≠ kIOHIDTransactionStatePending) := by
    rw [hpend]
    simp
  unfold updateElementValues
  simp only [Bool.true_eq_false, ↓reduceIte]
  rw [happ]
  simp only [updateElementValuesLoop, he]
  rw [if_neg hnp]
  simp only [hty]
  rcases hfail with hg | ⟨hg, hr, hh, hrc⟩
  · have hg2 : (tr.getReport st1.fetched.length t element.reportID).1 ≠ kIOReturnSuccess := by
      rw [hg]; exact hcode
    rw [if_pos hg2]
    refine ⟨_, rfl, hg, rfl, ?_⟩
    intro j c1 e hj hc1 he1
    exact setCookiesTransactionState_sets _ _ _ _ j c1 e (by rw [hcomplete]; exact hj) hc1 he1
  · have hg2 : ¬((tr.getReport st1.fetched.length t element.reportID).1 ≠ kIOReturnSuccess) := by
      rw [hg]; simp
    have hr2 : hr.ret ≠ kIOReturnSuccess := by
      rw [hrc]; exact hcode
    rw [if_neg hg2]
    simp only [hh]
    rw [if_pos hr2]
    refine ⟨_, rfl, hrc, rfl, ?_⟩
    intro j c1 e hj hc1 he1
    exact setCookiesTransactionState_sets _ _ _ _ j c1 e (by rw [hcomplete]; exact hj) hc1 he1

/-- The failure theorem at `sampleDevice`, handles `[0, 1, 3]` and the base
class transport, whose `getReport` is unsupported. -/
theorem updateElementValues_stops_at_failure_witness :
    updateElementValuesLoop baseTransport [0]
      { dev := { sampleDevice with elementArray :=
          (SetCookiesTransactionState sampleDevice.elementArray ([0] ++ 1 :: [3])
            kIOHIDTransactionStatePending 0).1 },
        ret := kIOReturnError, index := 0, fetched := [] } = some sampleUpdateState ∧
    sampleUpdateState.index = ([0] : List Nat).length ∧
    GetElement sampleUpdateState.dev 1 = some samplePendingButton ∧
    samplePendingButton.transactionState = kIOHIDTransactionStatePending ∧
    samplePendingButton.getReportType = some kIOHIDReportTypeInput ∧
    kIOReturnUnsupported ≠ kIOReturnSuccess ∧
    (baseTransport.getReport sampleUpdateState.fetched.length kIOHIDReportTypeInput
      samplePendingButton.reportID).1 = kIOReturnUnsupported ∧
    ∃ r, updateElementValues sampleDevice ([0] ++ 1 :: [3]) true baseTransport = some r ∧
      r.ret = kIOReturnUnsupported ∧
      r.fetched = sampleUpdateState.fetched ++
        [(kIOHIDReportTypeInput, samplePendingButton.reportID)] ∧
      ∀ (j c1 : Nat) (e : IOHIDElement), ([0] : List Nat).length ≤ j →
        ([0] ++ 1 :: [3])[j]? = some c1 → r.dev.elementArray[c1]? = some e →
        e.transactionState = kIOHIDTransactionStateIdle :=
  ⟨rfl, rfl, by decide, rfl, rfl, by decide, rfl,
    updateElementValues_stops_at_failure sampleDevice baseTransport [0] [3] 1
      sampleUpdateState samplePendingButton kIOHIDReportTypeInput kIOReturnUnsupported
      rfl rfl (by decide) rfl rfl (by decide) (Or.inl rfl)⟩

theorem reportKey_dropTransactionState (e : IOHIDElement) :
    reportKey e.dropTransactionState = reportKey e := rfl

theorem reportKey_of_drop_eq {e e0 : IOHIDElement}
    (h : e.dropTransactionState = e0.dropTransactionState) : reportKey e = reportKey e0 := by
  rw [← reportKey_dropTransactionState e, h, reportKey_dropTransactionState]

theorem next_of_drop_eq {e e0 : IOHIDElement}
    (h : e.dropTransactionState = e0.dropTransactionState) :
    e.nextReportHandler = e0.nextReportHandler := by
  have := congrArg IOHIDElement.nextReportHandler h
  exact this

/-- Elements at the same index of two tables that agree up to transaction
states agree up to transaction state. -/
theorem getElem?_of_drop_eq {arr arr0 : List IOHIDElement}
    (h : arr.map IOHIDElement.dropTransactionState = arr0.map IOHIDElement.dropTransactionState)
    (i : Nat) :
    (arr[i]? = none ∧ arr0[i]? = none) ∨
      ∃ e e0, arr[i]? = some e ∧ arr0[i]? = some e0 ∧
        e.dropTransactionState = e0.dropTransactionState := by
  have hi := getElem?_map_eq _ h i
  cases h1 : arr[i]? with
  | none =>
    rw [h1] at hi
    cases h2 : arr0[i]? with
    | none => exact Or.inl ⟨rfl, rfl⟩
    | some e => rw [h2] at hi; simp at hi
  | some e =>
    rw [h1] at hi
    cases h2 : arr0[i]? with
    | none => rw [h2] at hi; simp at hi
    | some e0 =>
      rw [h2] at hi
      simp only [Option.map_some', Option.some.injEq] at hi
      exact Or.inr ⟨e, e0, rfl, rfl, hi⟩

theorem isChain_of_drop_eq {arr arr0 : List IOHIDElement}
    (h : arr.map IOHIDElement.dropTransactionState = arr0.map IOHIDElement.dropTransactionState)
    (l : List Nat) : ∀ cur, IsChain arr0 cur l → IsChain arr cur l := by
  induction l with
  | nil =>
    intro cur hc
    cases cur with
    | none => trivial
    | some i => simp [IsChain] at hc
  | cons j l ih =>
    intro cur hc
    cases cur with
    | none => simp [IsChain] at hc
    | some i =>
      obtain ⟨rfl, e0, he0, hc⟩ := hc
      rcases getElem?_of_drop_eq h i with ⟨_, h2⟩ | ⟨e, e1, h1, h2, h3⟩
      · rw [he0] at h2; simp at h2
      · rw [he0] at h2
        simp only [Option.some.injEq] at h2
        subst h2
        refine ⟨rfl, e, h1, ?_⟩
        rw [next_of_drop_eq h3]
        exact ih _ hc

theorem postElementValuesStep_next (reportID : Nat) (i : Nat) (e : IOHIDElement)
    (s : ReportBuffer) :
    (postElementValuesStep reportID i e s).2.2 = e.nextReportHandler := by
  unfold postElementValuesStep IOHIDElement.createReport
  split <;> rfl

theorem postElementValuesStep_element (reportID : Nat) (i : Nat) (e : IOHIDElement)
    (s : ReportBuffer) :
    (postElementValuesStep reportID i e s).1 = e.afterCreateReport reportID := by
  unfold postElementValuesStep IOHIDElement.createReport IOHIDElement.afterCreateReport
  split <;> rfl

theorem afterCreateReport_drop (reportID : Nat) (e : IOHIDElement) :
    (e.afterCreateReport reportID).dropTransactionState = e.dropTransactionState := by
  unfold IOHIDElement.afterCreateReport
  split <;> rfl

theorem reportKey_afterCreateReport (reportID : Nat) (e : IOHIDElement) :
    reportKey (e.afterCreateReport reportID) = reportKey e :=
  reportKey_of_drop_eq (afterCreateReport_drop reportID e)

/-- The buffer part of a step depends on the element only up to its
transaction state. -/
theorem postElementValuesStep_buffer {e e0 : IOHIDElement}
    (h : e.dropTransactionState = e0.dropTransactionState) (reportID i : Nat)
    (s : ReportBuffer) :
    (postElementValuesStep reportID i e s).2.1 = (postElementValuesStep reportID i e0 s).2.1 := by
  cases e
  cases e0
  simp only [IOHIDElement.dropTransactionState, IOHIDElement.mk.injEq] at h
  obtain ⟨h1, h2, h3, h4, h5, h6, h7, -, h9, h10, h11, h12, h13⟩ := h
  subst h1 h2 h3 h4 h5 h6 h7 h9 h10 h11 h12 h13
  unfold postElementValuesStep IOHIDElement.createReport
  simp only []
  split <;> rfl

/-- The array after a walk whose element update does not depend on the locals:
the update applied once at every index of the list. -/
theorem walkList_array {σ : Type}
    (step : Nat → IOHIDElement → σ → IOHIDElement × σ × Option Nat)
    (g : IOHIDElement → IOHIDElement) (hg : ∀ i e s, (step i e s).1 = g e)
    (l : List Nat) (hnd : l.Nodup) :
    ∀ (arr : List IOHIDElement) (s : σ) (k : Nat),
      (walkList step l arr s).1[k]? = if k ∈ l then arr[k]?.map g else arr[k]? := by
  induction l with
  | nil => intro arr s k; simp [walkList]
  | cons i l ih =>
    intro arr s k
    rw [List.nodup_cons] at hnd
    simp only [walkList]
    cases he : arr[i]? with
    | none =>
      simp only []
      rw [ih hnd.2]
      by_cases hk : k = i
      · subst hk
        simp [hnd.1, he]
      · simp [hk]
    | some e =>
      simp only []
      rw [ih hnd.2, hg]
      by_cases hk : k = i
      · subst hk
        have hlt := (List.getElem?_eq_some.1 he).1
        simp [hnd.1, he, hlt]
      · have hk2 : i ≠ k := fun h => hk h.symm
        simp [hk, List.getElem?_set_ne hk2]

/-- The buffer built along a chain depends on the table only up to transaction
states. -/
theorem walkList_post_buffer (reportID : Nat) (l : List Nat) :
    ∀ (arr arr0 : List IOHIDElement) (s : ReportBuffer),
      arr.map IOHIDElement.dropTransactionState = arr0.map IOHIDElement.dropTransactionState →
      (walkList (postElementValuesStep reportID) l arr s).2 =
        (walkList (postElementValuesStep reportID) l arr0 s).2 := by
  induction l with
  | nil => intro arr arr0 s _; rfl
  | cons i l ih =>
    intro arr arr0 s h
    simp only [walkList]
    rcases getElem?_of_drop_eq h i with ⟨h1, h2⟩ | ⟨e, e0, h1, h2, h3⟩
    · rw [h1, h2]
      exact ih arr arr0 s h
    · rw [h1, h2]
      simp only []
      rw [postElementValuesStep_buffer h3]
      apply ih
      rw [map_set_same _ arr i e _ h1 (by rw [postElementValuesStep_element]; exact afterCreateReport_drop _ _),
        map_set_same _ arr0 i e0 _ h2 (by rw [postElementValuesStep_element]; exact afterCreateReport_drop _ _)]
      exact h

theorem reportKey_eq_some {e : IOHIDElement} {k : IOHIDReportType × Nat} :
    reportKey e = some k ↔ e.getReportType = some k.1 ∧ e.reportID = k.2 := by
  unfold reportKey
  cases h : e.getReportType with
  | none => simp
  | some t =>
    obtain ⟨k1, k2⟩ := k
    simp

theorem afterCreateReport_of_eq {e : IOHIDElement} {reportID : Nat} (h : e.reportID = reportID) :
    (e.afterCreateReport reportID).transactionState = kIOHIDTransactionStateIdle := by
  unfold IOHIDElement.afterCreateReport
  simp [h]

theorem afterCreateReport_of_ne {e : IOHIDElement} {reportID : Nat} (h : e.reportID ≠ reportID) :
    e.afterCreateReport reportID = e := by
  unfold IOHIDElement.afterCreateReport
  simp [h]

/-- The `while ( element )` loop of `postElementValues` for a report without a
buffer yet ends, and appending its buffer keeps the loop invariant. -/
theorem postInvariant_step (dev : IOHIDDevice) (hwf : ChainsWF dev) (cookies : List Nat)
    (seen : List (IOHIDReportType × Nat)) (st : PostLoopState)
    (hinv : PostInvariant dev cookies seen st) (t : IOHIDReportType) (id : Nat) :
    ∃ arr report,
      walkChain (postElementValuesStep id) st.dev.elementArray.length st.dev.elementArray
        (GetHeadElement st.dev (GetReportHandlerSlot id) t) (freshReport dev)
        = some (arr, report) ∧
      ∀ ret index, PostInvariant dev cookies (seen ++ [(t, id)])
        { dev := { st.dev with elementArray := arr }, ret := ret, index := index,
          reportType := some t, reportID := some id,
          pendingReports := st.pendingReports ++
            [if st.dev.reportCount > 1 then
              { bytes := report.bytes.set 0 id, length := report.length }
             else report] } := by
  obtain ⟨hh, hc, hmap, hpend, hidle, hpen, _⟩ := hinv
  obtain ⟨l, hchain, hpw, hmem⟩ := hwf (GetReportHandlerSlot id) t
  have hnd := nodup_of_pairwise_lt hpw
  have hlen0 := length_le_of_pairwise_lt hpw (isChain_lt hchain)
  have hlen : st.dev.elementArray.length = dev.elementArray.length := by
    have := congrArg List.length hmap
    simpa using this
  have hchain1 : IsChain st.dev.elementArray
      (GetHeadElement st.dev (GetReportHandlerSlot id) t) l := by
    unfold GetHeadElement
    rw [hh]
    exact isChain_of_drop_eq hmap l _ hchain
  have hwalk := walkChain_eq_walkList (postElementValuesStep id) (postElementValuesStep_next id)
    hchain1 hnd st.dev.elementArray.length (by omega) (freshReport dev)
  have harr := walkList_array (postElementValuesStep id) (IOHIDElement.afterCreateReport id)
    (postElementValuesStep_element id) l hnd st.dev.elementArray (freshReport dev)
  have hmap1 : (walkList (postElementValuesStep id) l st.dev.elementArray (freshReport dev)).1.map
      IOHIDElement.dropTransactionState = dev.elementArray.map IOHIDElement.dropTransactionState := by
    rw [walkChain_map IOHIDElement.dropTransactionState (postElementValuesStep id)
      (fun i e s => by rw [postElementValuesStep_element]; exact afterCreateReport_drop _ _)
      _ _ _ _ _ hwalk]
    exact hmap
  have hdisp : dispatchChain dev (GetReportHandlerSlot id) t = some l :=
    chainFrom_of_isChain hchain _ hlen0
  have hbuf := walkList_post_buffer id l st.dev.elementArray dev.elementArray (freshReport dev) hmap
  refine ⟨(walkList (postElementValuesStep id) l st.dev.elementArray (freshReport dev)).1,
    (walkList (postElementValuesStep id) l st.dev.elementArray (freshReport dev)).2, hwalk, ?_⟩
  intro ret index
  refine ⟨hh, hc, hmap1, ?_, ?_, ?_, fun _ => ⟨rfl, rfl⟩⟩
  · show st.pendingReports ++ _ = _
    rw [List.map_append, hpend, hbuf, hc]
    simp only [List.map_cons, List.map_nil, expectedReport, withReportID, hdisp, Option.getD_some]
  · intro i e1 k hi hk hin
    have hi1 : (walkList (postElementValuesStep id) l st.dev.elementArray (freshReport dev)).1[i]?
        = some e1 := hi
    rw [harr] at hi1
    rw [List.mem_append, List.mem_singleton] at hin
    by_cases hil : i ∈ l
    · rw [if_pos hil] at hi1
      cases he : st.dev.elementArray[i]? with
      | none => rw [he] at hi1; simp at hi1
      | some e =>
        rw [he] at hi1
        simp only [Option.map_some', Option.some.injEq] at hi1
        subst hi1
        by_cases hid : e.reportID = id
        · exact afterCreateReport_of_eq hid
        · rw [afterCreateReport_of_ne hid] at hk ⊢
          rcases hin with hin | rfl
          · exact hidle i e k he hk hin
          · exact absurd (reportKey_eq_some.1 hk).2 hid
    · rw [if_neg hil] at hi1
      rcases hin with hin | rfl
      · exact hidle i e1 k hi1 hk hin
      · exfalso
        apply hil
        rw [hmem]
        rcases getElem?_of_drop_eq hmap i with ⟨h1, _⟩ | ⟨e, e0, h1, h2, h3⟩
        · rw [h1] at hi1; simp at hi1
        · rw [h1] at hi1
          simp only [Option.some.injEq] at hi1
          subst hi1
          have hk0 : reportKey e0 = some (t, id) := by rw [← reportKey_of_drop_eq h3]; exact hk
          have := reportKey_eq_some.1 hk0
          exact ⟨e0, h2, this.1, by rw [this.2]⟩
  · intro c e1 k hcm hi hk hnin
    have hi1 : (walkList (postElementValuesStep id) l st.dev.elementArray (freshReport dev)).1[c]?
        = some e1 := hi
    rw [harr] at hi1
    rw [List.mem_append, List.mem_singleton, not_or] at hnin
    by_cases hil : c ∈ l
    · rw [if_pos hil] at hi1
      cases he : st.dev.elementArray[c]? with
      | none => rw [he] at hi1; simp at hi1
      | some e =>
        rw [he] at hi1
        simp only [Option.map_some', Option.some.injEq] at hi1
        subst hi1
        rw [reportKey_afterCreateReport] at hk
        by_cases hid : e.reportID = id
        · exfalso
          apply hnin.2
          obtain ⟨e0, h2, ht, _⟩ := (hmem c).1 hil
          rcases getElem?_of_drop_eq hmap c with ⟨h1, _⟩ | ⟨e2, e3, h1, h4, h3⟩
          · rw [h1] at he; simp at he
          · rw [h1] at he
            rw [h2] at h4
            simp only [Option.some.injEq] at he h4
            subst he h4
            have hk0 : reportKey e0 = some k := by rw [← reportKey_of_drop_eq h3]; exact hk
            have h5 := reportKey_eq_some.1 hk0
            have h6 := reportKey_eq_some.1 hk
            rw [ht] at h5
            obtain ⟨k1, k2⟩ := k
            simp only [Option.some.injEq] at h5 h6
            rw [← h5.1, ← h6.2, hid]
        · rw [afterCreateReport_of_ne hid]
          exact hpen c e k hcm he hk hnin.1
    · rw [if_neg hil] at hi1
      exact hpen c e1 k hcm hi1 hk hnin.1

theorem foldl_noteFirst_append (l : List (IOHIDReportType × Nat)) :
    ∀ seen, ∃ more, l.foldl noteFirst seen = seen ++ more := by
  induction l with
  | nil => intro seen; exact ⟨[], by simp⟩
  | cons k l ih =>
    intro seen
    simp only [List.foldl_cons]
    obtain ⟨more, hm⟩ := ih (noteFirst seen k)
    rw [hm]
    unfold noteFirst
    split
    · exact ⟨more, rfl⟩
    · exact ⟨k :: more, by simp⟩

theorem handleReports_cons_none {dev : IOHIDDevice} {c : Nat} (rest : List Nat)
    (h : (GetElement dev c).bind reportKey = none) :
    handleReports dev (c :: rest) = handleReports dev rest := by
  unfold handleReports
  rw [List.filterMap_cons, h]

theorem handleReports_cons_some {dev : IOHIDDevice} {c : Nat} (rest : List Nat)
    {k : IOHIDReportType × Nat} (h : (GetElement dev c).bind reportKey = some k) :
    handleReports dev (c :: rest) = k :: handleReports dev rest := by
  unfold handleReports
  rw [List.filterMap_cons, h]

/-- The first loop of `postElementValues` on a device with well-formed chains
ends, keeps the invariant, and has then built the buffers of a leading part of
the distinct reports of the handles: of all of them when no allocation
fails. -/
theorem postElementValuesLoop_invariant (dev : IOHIDDevice) (hwf : ChainsWF dev)
    (reportAllocOk : Nat → Bool) (cookies : List Nat) :
    ∀ (l : List Nat) (seen : List (IOHIDReportType × Nat)) (st : PostLoopState),
      (∀ c ∈ l, c ∈ cookies) → PostInvariant dev cookies seen st →
      ∃ st2 seen2,
        postElementValuesLoop reportAllocOk
          (max dev.maxOutputReportSize dev.maxFeatureReportSize) l st = some st2 ∧
        PostInvariant dev cookies seen2 st2 ∧
        (∃ more, (handleReports dev l).foldl noteFirst seen = seen2 ++ more) ∧
        ((∀ n, reportAllocOk n = true) →
          seen2 = (handleReports dev l).foldl noteFirst seen) := by
  intro l
  induction l with
  | nil =>
    intro seen st _ hinv
    exact ⟨st, seen, rfl, hinv, ⟨[], by simp [handleReports]⟩, fun _ => rfl⟩
  | cons c rest ih =>
    intro seen st hsub hinv
    have hsub1 : ∀ c1 ∈ rest, c1 ∈ cookies := fun c1 h1 => hsub c1 (List.mem_cons_of_mem _ h1)
    have hskip : ∀ (idx : Nat), PostInvariant dev cookies seen { st with index := idx } := by
      intro idx
      exact hinv
    obtain ⟨hh, hc, hmap, hpend, hidle, hpen, hloc⟩ := hinv
    simp only [postElementValuesLoop, GetElement]
    rcases getElem?_of_drop_eq hmap c with ⟨h1, h2⟩ | ⟨e, e0, h1, h2, h3⟩
    · rw [h1]
      simp only []
      rw [handleReports_cons_none rest (by simp [GetElement, h2])]
      exact ih seen _ hsub1 (hskip _)
    · rw [h1]
      simp only []
      have hkey := reportKey_of_drop_eq h3
      cases hk : reportKey e0 with
      | none =>
        rw [hk] at hkey
        have hty : e.getReportType = none := by
          unfold reportKey at hkey
          simpa using hkey
        rw [handleReports_cons_none rest (by simp [GetElement, h2, hk])]
        split
        · exact ih seen _ hsub1 (hskip _)
        · rw [hty]
          exact ih seen _ hsub1 (hskip _)
      | some k =>
        rw [hk] at hkey
        obtain ⟨hty, hid⟩ := reportKey_eq_some.1 hkey
        rw [handleReports_cons_some rest (by simp [GetElement, h2, hk] : _ = some k)]
        simp only [List.foldl_cons]
        by_cases hin : k ∈ seen
        · have hi := hidle c e k h1 hkey hin
          have hnp : e.transactionState ≠ kIOHIDTransactionStatePending := by
            rw [hi]; decide
          rw [if_pos hnp]
          have hn : noteFirst seen k = seen := by
            unfold noteFirst
            rw [if_pos hin]
          rw [hn]
          exact ih seen _ hsub1 (hskip _)
        · have hp := hpen c e k (hsub c (List.mem_cons_self _ _)) h1 hkey hin
          have hnp : ¬(e.transactionState ≠ kIOHIDTransactionStatePending) := by
            rw [hp]; simp
          rw [if_neg hnp, hty]
          simp only []
          have hn : noteFirst seen k = seen ++ [k] := by
            unfold noteFirst
            rw [if_neg hin]
          rw [hn]
          cases ha : reportAllocOk st.pendingReports.length with
          | false =>
            rw [if_pos rfl]
            refine ⟨_, seen, rfl, ⟨hh, hc, hmap, hpend, hidle, hpen,
              fun hne => ⟨rfl, (hloc hne).2⟩⟩, ?_, ?_⟩
            · obtain ⟨more, hm⟩ := foldl_noteFirst_append (handleReports dev rest) (seen ++ [k])
              exact ⟨k :: more, by rw [hm]; simp⟩
            · intro hall
              rw [hall] at ha
              exact absurd ha (by decide)
          | true =>
            rw [if_neg (by decide)]
            obtain ⟨arr, report, hwalk, hstep⟩ := postInvariant_step dev hwf cookies seen st
              ⟨hh, hc, hmap, hpend, hidle, hpen, hloc⟩ k.1 e.reportID
            have hwalk1 : walkChain (postElementValuesStep e.reportID) st.dev.elementArray.length
                st.dev.elementArray (GetHeadElement st.dev (GetReportHandlerSlot e.reportID) k.1)
                { bytes := List.replicate (max dev.maxOutputReportSize dev.maxFeatureReportSize) 0,
                  length := max dev.maxOutputReportSize dev.maxFeatureReportSize }
                = some (arr, report) := hwalk
            rw [hwalk1]
            simp only []
            have hke : (k.1, e.reportID) = k := by rw [hid]
            have hstep1 := hstep st.ret (st.index + 1)
            rw [hke] at hstep1
            exact ih (seen ++ [k]) _ hsub1 hstep1

theorem chainsWF_sampleOutputDevice : ChainsWF sampleOutputDevice :=
  chainsWF_registerElements sampleOutputCalls emptyDevice (by decide) chainsWF_emptyDevice

theorem foldl_noteFirst_nodup (l : List (IOHIDReportType × Nat)) :
    ∀ seen, seen.Nodup → (l.foldl noteFirst seen).Nodup := by
  induction l with
  | nil => intro seen h; exact h
  | cons k l ih =>
    intro seen h
    simp only [List.foldl_cons]
    apply ih
    unfold noteFirst
    split
    · exact h
    · next hk =>
      rw [List.nodup_append]
      refine ⟨h, List.nodup_singleton k, ?_⟩
      intro a ha hb
      rw [List.mem_singleton] at hb
      subst hb
      exact hk ha

theorem mem_foldl_noteFirst (l : List (IOHIDReportType × Nat)) :
    ∀ seen k, k ∈ l.foldl noteFirst seen ↔ k ∈ seen ∨ k ∈ l := by
  induction l with
  | nil => intro seen k; simp
  | cons a l ih =>
    intro seen k
    simp only [List.foldl_cons]
    rw [ih]
    unfold noteFirst
    split
    · next ha =>
      constructor
      · rintro (h | h)
        · exact Or.inl h
        · exact Or.inr (List.mem_cons_of_mem _ h)
      · rintro (h | h)
        · exact Or.inl h
        · rcases List.mem_cons.1 h with rfl | h
          · exact Or.inl ha
          · exact Or.inr h
    · simp only [List.mem_append, List.mem_singleton, List.mem_cons]
      tauto

/-- The first loop of `postElementValues`, started after the handles have been
marked Pending, on a device with well-formed chains. -/
theorem postElementValuesLoop_built (dev : IOHIDDevice) (hwf : ChainsWF dev)
    (reportAllocOk : Nat → Bool) (cookies : List Nat) :
    ∃ st seen,
      postElementValuesLoop reportAllocOk
        (max dev.maxOutputReportSize dev.maxFeatureReportSize) cookies
        { dev := { dev with elementArray :=
            (SetCookiesTransactionState dev.elementArray cookies
              kIOHIDTransactionStatePending 0).1 },
          ret := kIOReturnError, index := 0, reportType := none, reportID := none,
          pendingReports := [] } = some st ∧
      PostInvariant dev cookies seen st ∧
      (∃ more, firstAppearances (handleReports dev cookies) = seen ++ more) ∧
      ((∀ n, reportAllocOk n = true) → seen = firstAppearances (handleReports dev cookies)) := by
  apply postElementValuesLoop_invariant dev hwf reportAllocOk cookies cookies [] _
    (fun c h => h)
  refine ⟨rfl, rfl, ?_, rfl, ?_, ?_, ?_⟩
  · exact setCookiesTransactionState_map IOHIDElement.dropTransactionState
      (fun _ _ => rfl) _ _ _ _
  · intro i e k _ _ hin
    simp at hin
  · intro c e k hcm he _ _
    obtain ⟨j, hj⟩ := List.mem_iff_getElem?.1 hcm
    exact setCookiesTransactionState_sets dev.elementArray cookies
      kIOHIDTransactionStatePending 0 j c e (Nat.zero_le _) hj he
  · intro h
    exact absurd rfl h

/-- The second loop of `postElementValues`, for any calls already made: the
calls it adds are those for a leading part of the buffers, in list order; a
failing call is the last one and gives the result; when every call succeeds all
buffers are sent and the result is success. -/
theorem postElementValuesSend_spec (tr : Transport) (ty : IOHIDReportType) (id : Nat) :
    ∀ (reports : List ReportBuffer) (ret0 : IOReturn)
      (sent0 : List (List Nat × IOHIDReportType × Nat)),
      (∃ n, n ≤ reports.length ∧ (reports ≠ [] → 0 < n) ∧
        (postElementValuesSend tr ty id reports ret0 sent0).2 =
          sent0 ++ (reports.take n).map (fun b => (b.bytes.take b.length, ty, id))) ∧
      (∀ (k : Nat) (s : List Nat × IOHIDReportType × Nat), sent0.length ≤ k →
        (postElementValuesSend tr ty id reports ret0 sent0).2[k]? = some s →
        tr.setReport k s.1 s.2.1 s.2.2 ≠ kIOReturnSuccess →
        (postElementValuesSend tr ty id reports ret0 sent0).2.length = k + 1 ∧
        (postElementValuesSend tr ty id reports ret0 sent0).1 = tr.setReport k s.1 s.2.1 s.2.2) ∧
      ((∀ (k : Nat) (s : List Nat × IOHIDReportType × Nat), sent0.length ≤ k →
        (postElementValuesSend tr ty id reports ret0 sent0).2[k]? = some s →
        tr.setReport k s.1 s.2.1 s.2.2 = kIOReturnSuccess) → reports ≠ [] →
        (postElementValuesSend tr ty id reports ret0 sent0).1 = kIOReturnSuccess ∧
        (postElementValuesSend tr ty id reports ret0 sent0).2.length
          = sent0.length + reports.length) := by
  intro reports
  induction reports with
  | nil =>
    intro ret0 sent0
    refine ⟨⟨0, le_refl _, fun h => absurd rfl h, by simp [postElementValuesSend]⟩, ?_,
      fun _ h => absurd rfl h⟩
    intro k s hk hs
    simp only [postElementValuesSend] at hs
    have := (List.getElem?_eq_some.1 hs).1
    omega
  | cons report rest ih =>
    intro ret0 sent0
    simp only [postElementValuesSend]
    by_cases hret : tr.setReport sent0.length (report.bytes.take report.length) ty id
        ≠ kIOReturnSuccess
    · rw [if_pos hret]
      refine ⟨⟨1, by simp, fun _ => Nat.one_pos, by simp⟩, ?_, ?_⟩
      · intro k s hk hs _
        have hlt := (List.getElem?_eq_some.1 hs).1
        simp only [List.length_append, List.length_singleton] at hlt
        have hk2 : k = sent0.length := by omega
        subst hk2
        simp only [List.getElem?_concat_length, Option.some.injEq] at hs
        subst hs
        exact ⟨by simp, rfl⟩
      · intro hall _
        exact absurd (hall sent0.length (report.bytes.take report.length, ty, id) (le_refl _)
          (by simp)) hret
    · rw [if_neg hret]
      have hok : tr.setReport sent0.length (report.bytes.take report.length) ty id
          = kIOReturnSuccess := by
        by_contra h
        exact hret h
      obtain ⟨⟨n, hn, hpos, hsent⟩, hfail, hsucc⟩ := ih
        (tr.setReport sent0.length (report.bytes.take report.length) ty id)
        (sent0 ++ [(report.bytes.take report.length, ty, id)])
      have hfirst : (postElementValuesSend tr ty id rest
          (tr.setReport sent0.length (report.bytes.take report.length) ty id)
          (sent0 ++ [(report.bytes.take report.length, ty, id)])).2[sent0.length]?
          = some (report.bytes.take report.length, ty, id) := by
        rw [hsent, List.append_assoc, List.getElem?_append_right (le_refl _)]
        simp
      refine ⟨⟨n + 1, by simp; omega, fun _ => Nat.succ_pos _, ?_⟩, ?_, ?_⟩
      · rw [hsent]
        simp
      · intro k s hk hs hne
        by_cases hk2 : k = sent0.length
        · subst hk2
          rw [hfirst] at hs
          simp only [Option.some.injEq] at hs
          subst hs
          exact absurd hok hne
        · exact hfail k s (by simp; omega) hs hne
      · intro hall _
        by_cases hrest : rest = []
        · subst hrest
          simp only [postElementValuesSend]
          exact ⟨hok, by simp⟩
        · have := hsucc (fun k s hk hs => hall k s (by simp at hk; omega) hs) hrest
          refine ⟨this.1, ?_⟩
          rw [this.2]
          simp
          omega

/-- On a device with well-formed chains `postElementValues` returns: the
buffers it built are those of a leading part `seen` of the distinct reports of
the handles, of all of them when no allocation fails, and its result and calls
of `setReport` are those of the second loop run on these buffers. -/
theorem postElementValues_result (dev : IOHIDDevice) (hwf : ChainsWF dev) (cookies : List Nat)
    (reportAllocOk : Nat → Bool) (tr : Transport) :
    ∃ r seen, postElementValues dev cookies true reportAllocOk tr = some r ∧
      r.pendingReports = seen.map (expectedReport dev) ∧
      (∃ more, firstAppearances (handleReports dev cookies) = seen ++ more) ∧
      ((∀ n, reportAllocOk n = true) →
        seen = firstAppearances (handleReports dev cookies)) ∧
      ((r.pendingReports = [] ∧ r.sent = []) ∨
        ∃ ty id ret0,
          r.ret = (postElementValuesSend tr ty id r.pendingReports ret0 []).1 ∧
          r.sent = (postElementValuesSend tr ty id r.pendingReports ret0 []).2) := by
  by_cases hne : cookies.length = 0
  · have hnil : cookies = [] := List.length_eq_zero.1 hne
    subst hnil
    exact ⟨_, [], rfl, rfl, ⟨[], rfl⟩, fun _ => rfl, Or.inl ⟨rfl, rfl⟩⟩
  · obtain ⟨st, seen, hloop, hinv, hmore, hall⟩ :=
      postElementValuesLoop_built dev hwf reportAllocOk cookies
    obtain ⟨_, _, _, hpend, _, _, hloc⟩ := hinv
    unfold postElementValues
    rw [if_neg hne]
    simp only [Bool.true_eq_false, if_false]
    rw [hloop]
    simp only []
    split
    · next ty id hty hid =>
      exact ⟨_, seen, rfl, hpend, hmore, hall, Or.inr ⟨ty, id, st.ret, rfl, rfl⟩⟩
    · next hno =>
      refine ⟨_, seen, rfl, hpend, hmore, hall, Or.inl ⟨?_, rfl⟩⟩
      show st.pendingReports = []
      by_contra hp
      have hs : seen ≠ [] := by
        intro h
        rw [h] at hpend
        exact hp hpend
      obtain ⟨h1, h2⟩ := hloc hs
      obtain ⟨ty, hty⟩ := Option.isSome_iff_exists.1 h1
      obtain ⟨id, hid⟩ := Option.isSome_iff_exists.1 h2
      exact hno ty id hty hid

/-- C18: on a device with well-formed dispatch chains `postElementValues`
returns; its calls of `setReport` carry a leading part of the pending buffers,
one buffer per call in list order, starting with the first buffer when there is
one; a call that returns a non-success code is the last call and its code is
the result; and when every call made succeeds and there is at least one, every
buffer has been sent and the result is success. -/
theorem postElementValues_sends_in_order (dev : IOHIDDevice) (hwf : ChainsWF dev)
    (cookies : List Nat) (reportAllocOk : Nat → Bool) (tr : Transport) :
    ∃ r, postElementValues dev cookies true reportAllocOk tr = some r ∧
      r.sent.length ≤ r.pendingReports.length ∧
      r.sent.map (fun s => s.1)
        = (r.pendingReports.take r.sent.length).map (fun b => b.bytes.take b.length) ∧
      (r.pendingReports ≠ [] → r.sent ≠ []) ∧
      (∀ (k : Nat) (s : List Nat × IOHIDReportType × Nat), r.sent[k]? = some s →
        tr.setReport k s.1 s.2.1 s.2.2 ≠ kIOReturnSuccess →
        r.sent.length = k + 1 ∧ r.ret = tr.setReport k s.1 s.2.1 s.2.2) ∧
      ((∀ (k : Nat) (s : List Nat × IOHIDReportType × Nat), r.sent[k]? = some s →
        tr.setReport k s.1 s.2.1 s.2.2 = kIOReturnSuccess) → r.sent ≠ [] →
        r.ret = kIOReturnSuccess ∧ r.sent.length = r.pendingReports.length) := by
  obtain ⟨r, seen, hr, _, _, _, hsend⟩ :=
    postElementValues_result dev hwf cookies reportAllocOk tr
  refine ⟨r, hr, ?_⟩
  rcases hsend with ⟨hp, hs⟩ | ⟨ty, id, ret0, hret, hsent⟩
  · rw [hp, hs]
    refine ⟨le_refl _, rfl, fun h => absurd rfl h, ?_, fun _ h => absurd rfl h⟩
    intro k s hk
    simp at hk
  · obtain ⟨⟨n, hn, hpos, hout⟩, hfail, hsucc⟩ :=
      postElementValuesSend_spec tr ty id r.pendingReports ret0 []
    rw [← hsent] at hout hfail hsucc
    rw [← hret] at hfail hsucc
    have hlen : r.sent.length = n := by
      rw [hout]
      simp [hn]
    refine ⟨by omega, ?_, ?_, ?_, ?_⟩
    · rw [hlen, hout]
      simp [List.map_map, Function.comp_def]
    · intro hne hnil
      have := hpos hne
      rw [hnil] at hlen
      simp at hlen
      omega
    · intro k s hk hne
      exact hfail k s (Nat.zero_le _) hk hne
    · intro hall hne
      have hp : r.pendingReports ≠ [] := by
        intro h
        rw [h] at hn
        apply hne
        apply List.length_eq_zero.1
        simp at hn
        omega
      have := hsucc (fun k s _ hk => hall k s hk) hp
      exact ⟨this.1, by simpa using this.2⟩

/-- The sending theorem at the sample output device and the base class
transport, whose `setReport` is unsupported: the first of three buffers is the
only one sent. -/
theorem postElementValues_sends_in_order_witness :
    ChainsWF sampleOutputDevice ∧
    ∃ r, postElementValues sampleOutputDevice [2, 3, 4] true (fun _ => true) baseTransport
        = some r ∧
      r.sent.length ≤ r.pendingReports.length ∧
      r.sent.map (fun s => s.1)
        = (r.pendingReports.take r.sent.length).map (fun b => b.bytes.take b.length) ∧
      (r.pendingReports ≠ [] → r.sent ≠ []) ∧
      (∀ (k : Nat) (s : List Nat × IOHIDReportType × Nat), r.sent[k]? = some s →
        baseTransport.setReport k s.1 s.2.1 s.2.2 ≠ kIOReturnSuccess →
        r.sent.length = k + 1 ∧ r.ret = baseTransport.setReport k s.1 s.2.1 s.2.2) ∧
      ((∀ (k : Nat) (s : List Nat × IOHIDReportType × Nat), r.sent[k]? = some s →
        baseTransport.setReport k s.1 s.2.1 s.2.2 = kIOReturnSuccess) → r.sent ≠ [] →
        r.ret = kIOReturnSuccess ∧ r.sent.length = r.pendingReports.length) :=
  ⟨chainsWF_sampleOutputDevice,
    postElementValues_sends_in_order sampleOutputDevice chainsWF_sampleOutputDevice
      [2, 3, 4] (fun _ => true) baseTransport⟩

/-! ## Event delivery: `startEventDelivery` -/

theorem addEventQueue_element (e : IOHIDElement) (q : Nat) (ok : Bool) :
    (e.addEventQueue q ok).2 = { e with queues := (e.addEventQueue q ok).2.queues } ∧
    ((e.addEventQueue q ok).1 = true → q ∈ (e.addEventQueue q ok).2.queues) ∧
    ((e.addEventQueue q ok).1 = false → (e.addEventQueue q ok).2 = e) ∧
    (∀ x, x ≠ q → (x ∈ (e.addEventQueue q ok).2.queues ↔ x ∈ e.queues)) := by
  unfold IOHIDElement.addEventQueue
  by_cases hq : q ∈ e.queues
  · simp [hq]
  · cases ok with
    | true =>
      simp only [hq, ↓reduceIte, List.mem_append, List.mem_singleton, or_true, implies_true,
        Bool.true_eq_false, false_implies, true_and]
      intro x hx
      simp [hx]
    | false => simp [hq]

/-- C28: `startEventDelivery` returns `kIOReturnBadArgument` exactly when the
queue is null, the cookie is below the first data index, or the cookie is past
the end of the element table, and then the device is unchanged; a cookie below
a non-zero first data index, cookie 0 included, is so rejected.  Otherwise the
result is `kIOReturnSuccess` when the element accepted the queue and
`kIOReturnNoMemory` when it did not, every other element is as before, and the
element named differs from before in its subscriber set at most, in which no
other queue appears or disappears. -/
theorem startEventDelivery_result (dev : IOHIDDevice) (queue : Option Nat) (cookie : Nat)
    (addOk : Bool) :
    ((startEventDelivery dev queue cookie addOk).1 = kIOReturnBadArgument ↔
      queue = none ∨ cookie < dev.dataElementIndex ∨ dev.elementArray.length ≤ cookie) ∧
    ((startEventDelivery dev queue cookie addOk).1 = kIOReturnBadArgument →
      (startEventDelivery dev queue cookie addOk).2 = dev) ∧
    (0 < dev.dataElementIndex →
      (startEventDelivery dev queue 0 addOk) = (kIOReturnBadArgument, dev)) ∧
    (∀ (q : Nat) (element : IOHIDElement), queue = some q → dev.dataElementIndex ≤ cookie →
      dev.elementArray[cookie]? = some element →
      ((element.addEventQueue q addOk).1 = true →
        (startEventDelivery dev queue cookie addOk).1 = kIOReturnSuccess) ∧
      ((element.addEventQueue q addOk).1 = false →
        (startEventDelivery dev queue cookie addOk).1 = kIOReturnNoMemory ∧
        (startEventDelivery dev queue cookie addOk).2 = dev) ∧
      (∃ e1, (startEventDelivery dev queue cookie addOk).2.elementArray[cookie]? = some e1 ∧
        e1 = { element with queues := e1.queues } ∧
        ∀ x, x ≠ q → (x ∈ e1.queues ↔ x ∈ element.queues))) ∧
    (∀ (i : Nat), i ≠ cookie →
      (startEventDelivery dev queue cookie addOk).2.elementArray[i]? = dev.elementArray[i]?) ∧
    (startEventDelivery dev queue cookie addOk).2 =
      { dev with elementArray := (startEventDelivery dev queue cookie addOk).2.elementArray } := by
  cases queue with
  | none =>
    simp [startEventDelivery]
  | some q =>
    by_cases hlt : cookie < dev.dataElementIndex
    · have h0 : ∀ c, c < dev.dataElementIndex →
          startEventDelivery dev (some q) c addOk = (kIOReturnBadArgument, dev) := by
        intro c hc
        simp [startEventDelivery, hc]
      rw [h0 cookie hlt]
      refine ⟨by simp [hlt], fun _ => rfl, fun h => h0 0 h, ?_, fun _ _ => rfl, rfl⟩
      intro q1 element _ hge
      omega
    · have h0 : 0 < dev.dataElementIndex →
          startEventDelivery dev (some q) 0 addOk = (kIOReturnBadArgument, dev) := by
        intro hc
        simp [startEventDelivery, hc]
      cases he : dev.elementArray[cookie]? with
      | none =>
        have hlen : dev.elementArray.length ≤ cookie := List.getElem?_eq_none_iff.1 he
        have hs : startEventDelivery dev (some q) cookie addOk = (kIOReturnBadArgument, dev) := by
          simp [startEventDelivery, hlt, GetElement, he]
        rw [hs]
        refine ⟨by simp [hlen], fun _ => rfl, h0, ?_, fun _ _ => rfl, rfl⟩
        intro q1 element _ _ h
        simp at h
      | some element =>
        have hlen : cookie < dev.elementArray.length := (List.getElem?_eq_some.1 he).1
        have hs : startEventDelivery dev (some q) cookie addOk =
            (if (element.addEventQueue q addOk).1 then kIOReturnSuccess else kIOReturnNoMemory,
              { dev with elementArray :=
                  dev.elementArray.set cookie (element.addEventQueue q addOk).2 }) := by
          simp [startEventDelivery, hlt, GetElement, he]
        obtain ⟨a1, _, a3, a4⟩ := addEventQueue_element element q addOk
        rw [hs]
        refine ⟨?_, ?_, h0, ?_, ?_, rfl⟩
        · constructor
          · intro h
            exfalso
            revert h
            cases (element.addEventQueue q addOk).1 <;> simp
          · rintro (h | h | h)
            · simp at h
            · exact absurd h hlt
            · omega
        · intro h
          exfalso
          revert h
          cases (element.addEventQueue q addOk).1 <;> simp
        · intro q1 el hq _ hel
          simp only [Option.some.injEq] at hq hel
          subst hq hel
          refine ⟨fun h => by simp [h], fun h => ⟨by simp [h], ?_⟩, ?_⟩
          · rw [a3 h]
            show { dev with elementArray := dev.elementArray.set cookie element } = dev
            rw [set_self_of_getElem? _ _ _ he]
          · refine ⟨(element.addEventQueue q addOk).2, by simp [hlen], a1, a4⟩
        · intro i hi
          simp [List.getElem?_set_ne (Ne.symm hi)]

/-! ## Value memory: order of the slices and the assertion -/

/-- The run of `createMemoryForElementValues` on a device with well-formed
chains whose chained elements `order` have value sizes that fit in 32 bits:
the second pass is the walk of `assignStep` along `order`, which lays the
elements out back to back from offset 0 and leaves the value sizes alone. -/
theorem createMemoryForElementValues_run (dev : IOHIDDevice) (hwf : ChainsWF dev)
    (order : List Nat) (horder : valueOrder dev = some order)
    (hsum : (order.map (valueSizeAt dev.elementArray)).sum < 2 ^ 32) :
    ∃ m, createMemoryForElementValues dev true = some m ∧
      order.Nodup ∧ (∀ i ∈ order, i < dev.elementArray.length) ∧
      m.assertHeld = (walkList (assignStep (order.map (valueSizeAt dev.elementArray)).sum)
        order dev.elementArray (0, true)).2.2 ∧
      Layout m.dev.elementArray order 0 ∧
      ∀ i, valueSizeAt m.dev.elementArray i = valueSizeAt dev.elementArray i := by
  obtain ⟨order1, h1, hnd, hmem⟩ := valueOrder_of_chainsWF hwf
  rw [horder] at h1
  cases h1
  unfold valueOrder at horder
  have hlt : ∀ i ∈ order, i < dev.elementArray.length := by
    intro i hi
    obtain ⟨e, he, _⟩ := (hmem i).1 hi
    exact (List.getElem?_eq_some.1 he).1
  have hpass1 := walkAllChains_eq_walkList capacityStep (fun _ _ _ => rfl) (fun _ _ _ => rfl)
    dev.elementArray.length dev.reportHandlers dispatchOrder dev.elementArray 0 order horder hnd
  rw [walkList_capacityStep order dev.elementArray 0 (by norm_num), Nat.zero_add,
    Nat.mod_eq_of_lt hsum] at hpass1
  have hpass2 := walkAllChains_eq_walkList
    (assignStep (order.map (valueSizeAt dev.elementArray)).sum)
    (fun _ _ _ => rfl) (fun _ _ _ => rfl)
    dev.elementArray.length dev.reportHandlers dispatchOrder dev.elementArray (0, true) order
    horder hnd
  have hlay := walkList_assignStep (order.map (valueSizeAt dev.elementArray)).sum order
    dev.elementArray 0 true hnd hlt
  have hmap := walkAllChains_map (fun e => e.elementValueSize)
    (assignStep (order.map (valueSizeAt dev.elementArray)).sum) (fun _ _ _ => rfl) _ _ _ _ _ _
    hpass2
  refine ⟨{ descriptor := some (order.map (valueSizeAt dev.elementArray)).sum,
            dev := { dev with elementArray := (walkList (assignStep
              (order.map (valueSizeAt dev.elementArray)).sum) order dev.elementArray
              (0, true)).1 },
            assertHeld := (walkList (assignStep
              (order.map (valueSizeAt dev.elementArray)).sum) order dev.elementArray
              (0, true)).2.2 }, ?_, hnd, hlt, rfl, hlay, fun i => valueSizeAt_congr hmap i⟩
  unfold createMemoryForElementValues
  simp only [hpass1, hpass2, Bool.true_eq_false, ↓reduceIte]

/-- The assertion flag after the walk of `assignStep`: every assertion held
exactly when the flag was set before and the offset reached at the last
element, the sum of the sizes of the others, is below the capacity. -/
theorem walkList_assignStep_flag (capacity : Nat) (l : List Nat) :
    ∀ (arr : List IOHIDElement) (off : Nat) (b : Bool), l.Nodup →
      (∀ i ∈ l, i < arr.length) →
      ((walkList (assignStep capacity) l arr (off, b)).2.2 = true ↔
        b = true ∧ (l = [] ∨ off + (l.dropLast.map (valueSizeAt arr)).sum < capacity)) := by
  induction l with
  | nil =>
    intro arr off b _ _
    simp [walkList]
  | cons i l ih =>
    intro arr off b hnd hlt
    rw [List.nodup_cons] at hnd
    have hi : i < arr.length := hlt i (List.mem_cons_self _ _)
    have he : arr[i]? = some arr[i] := List.getElem?_eq_getElem hi
    have hlt1 : ∀ j ∈ l, j < (arr.set i { arr[i] with valueLocation := some off }).length := by
      intro j hj
      rw [List.length_set]
      exact hlt j (List.mem_cons_of_mem _ hj)
    have hsz : ∀ (l1 : List Nat), l1.map (valueSizeAt
        (arr.set i { arr[i] with valueLocation := some off })) = l1.map (valueSizeAt arr) := by
      intro l1
      apply List.map_congr_left
      intro j _
      exact valueSizeAt_set_location arr i arr[i] he (some off) j
    have hszi : valueSizeAt arr i = arr[i].elementValueSize := by
      simp [valueSizeAt, he]
    simp only [walkList, he, assignStep]
    rw [ih _ _ _ hnd.2 hlt1, hsz]
    by_cases hl : l = []
    · subst hl
      simp
    · rw [List.dropLast_cons_of_ne_nil hl]
      simp only [hl, false_or, List.map_cons, List.sum_cons, hszi, Bool.and_eq_true,
        decide_eq_true_eq, reduceCtorEq]
      constructor
      · rintro ⟨⟨hb, _⟩, h⟩
        exact ⟨hb, by omega⟩
      · rintro ⟨hb, h⟩
        exact ⟨⟨hb, by omega⟩, by omega⟩

/-- C27: on a device with well-formed dispatch chains whose chained elements,
in the traversal order `order` (slot-major, then report type, then chain
order), have value sizes summing to less than `2 ^ 32`,
`createMemoryForElementValues` returns and the assertion `buffer < start +
capacity` holds at every iteration of the assignment loop exactly when `order`
is empty or its last element has a non-zero value size; it holds when every
chained element has a value size of at least one byte. -/
theorem createMemoryForElementValues_assert (dev : IOHIDDevice) (hwf : ChainsWF dev)
    (order : List Nat) (horder : valueOrder dev = some order)
    (hsum : (order.map (valueSizeAt dev.elementArray)).sum < 2 ^ 32) :
    ∃ m, createMemoryForElementValues dev true = some m ∧
      (m.assertHeld = true ↔
        order = [] ∨ ∃ last, order.getLast? = some last ∧
          valueSizeAt dev.elementArray last ≠ 0) ∧
      ((∀ i ∈ order, 1 ≤ valueSizeAt dev.elementArray i) → m.assertHeld = true) := by
  obtain ⟨m, hm, hnd, hlt, hflag, _, _⟩ :=
    createMemoryForElementValues_run dev hwf order horder hsum
  have hiff : m.assertHeld = true ↔
      order = [] ∨ ∃ last, order.getLast? = some last ∧
        valueSizeAt dev.elementArray last ≠ 0 := by
    rw [hflag, walkList_assignStep_flag _ order dev.elementArray 0 true hnd hlt]
    rcases List.eq_nil_or_concat order with h | ⟨L, b, h⟩
    · simp [h]
    · rw [List.concat_eq_append] at h
      subst h
      have h1 : (L ++ [b]).dropLast = L := List.dropLast_concat
      have h2 : (L ++ [b]).getLast? = some b := by simp
      have h3 : L ++ [b] ≠ [] := by simp
      have hs : ((L ++ [b]).map (valueSizeAt dev.elementArray)).sum =
          (L.map (valueSizeAt dev.elementArray)).sum + valueSizeAt dev.elementArray b := by
        simp
      rw [h1, h2, hs]
      simp only [h3, false_or, true_and, Option.some.injEq]
      constructor
      · intro h
        exact ⟨b, rfl, by omega⟩
      · rintro ⟨last, rfl, h⟩
        omega
  refine ⟨m, hm, hiff, ?_⟩
  intro hall
  rw [hiff]
  rcases List.eq_nil_or_concat order with h | ⟨L, b, h⟩
  · exact Or.inl h
  · right
    rw [List.concat_eq_append] at h
    subst h
    refine ⟨b, by simp, ?_⟩
    have := hall b (by simp)
    omega

/-- The assertion theorem at `sampleDevice`, whose chained elements 3, 2 and 1
have a value size of 4 bytes each. -/
theorem createMemoryForElementValues_assert_witness :
    ChainsWF sampleDevice ∧ valueOrder sampleDevice = some [3, 2, 1] ∧
    (([3, 2, 1] : List Nat).map (valueSizeAt sampleDevice.elementArray)).sum < 2 ^ 32 ∧
    ∃ m, createMemoryForElementValues sampleDevice true = some m ∧
      (m.assertHeld = true ↔
        ([3, 2, 1] : List Nat) = [] ∨ ∃ last, ([3, 2, 1] : List Nat).getLast? = some last ∧
          valueSizeAt sampleDevice.elementArray last ≠ 0) ∧
      ((∀ i ∈ ([3, 2, 1] : List Nat), 1 ≤ valueSizeAt sampleDevice.elementArray i) →
        m.assertHeld = true) :=
  ⟨chainsWF_sampleDevice, by decide, by decide,
    createMemoryForElementValues_assert sampleDevice chainsWF_sampleDevice [3, 2, 1]
      (by decide) (by decide)⟩

/-- In a back-to-back layout an element's range ends where the ranges of the
elements after it begin. -/
theorem layout_order {arr : List IOHIDElement} (l1 : List Nat) :
    ∀ (off : Nat) (i : Nat) (l2 : List Nat), Layout arr (l1 ++ i :: l2) off →
      ∀ j ∈ l2, ∀ ri rj, valueRange arr i = some ri → valueRange arr j = some rj →
        ri.2 ≤ rj.1 := by
  induction l1 with
  | nil =>
    intro off i l2 h j hj ri rj hri hrj
    obtain ⟨e, he, hloc, hrest⟩ := h
    obtain ⟨r, h1, h2, _, _⟩ := layout_bounds l2 _ hrest j hj
    have hk : valueRange arr i = some (off, off + e.elementValueSize) := by
      simp [valueRange, he, hloc]
    rw [hk] at hri
    rw [h1] at hrj
    cases hri
    cases hrj
    exact h2
  | cons k l1 ih =>
    intro off i l2 h j hj ri rj hri hrj
    obtain ⟨e, _, _, hrest⟩ := h
    exact ih _ i l2 hrest j hj ri rj hri hrj

/-- The chain of every `(slot, type)` pair walked is a contiguous part of the
traversal. -/
theorem chainedElements_split (fuel : Nat) (arr : List IOHIDElement)
    (handlers : Nat → IOHIDReportType → Option Nat) (slot : Nat) (type : IOHIDReportType)
    (pairs : List (Nat × IOHIDReportType)) :
    ∀ order, (slot, type) ∈ pairs → chainedElements fuel arr handlers pairs = some order →
      ∃ l1 chain l2, chainFrom fuel arr (handlers slot type) = some chain ∧
        order = l1 ++ chain ++ l2 := by
  induction pairs with
  | nil => intro order h; simp at h
  | cons p rest ih =>
    intro order hmem h
    obtain ⟨s, t⟩ := p
    simp only [chainedElements] at h
    cases hc : chainFrom fuel arr (handlers s t) with
    | none => simp [hc] at h
    | some l =>
      cases hr : chainedElements fuel arr handlers rest with
      | none => simp [hc, hr] at h
      | some r =>
        simp only [hc, hr, Option.some.injEq] at h
        subst h
        rcases List.mem_cons.1 hmem with heq | hmem
        · cases heq
          exact ⟨[], l, r, hc, by simp⟩
        · obtain ⟨l1, chain, l2, h1, h2⟩ := ih r hmem hr
          exact ⟨l ++ l1, chain, l2, h1, by rw [h2]; simp⟩

/-- In a list sorted by decreasing index the larger of two members comes
first. -/
theorem pairwise_gt_split {l : List Nat} (hp : l.Pairwise (fun a b => b < a)) {a b : Nat}
    (ha : a ∈ l) (hb : b ∈ l) (hab : a < b) : ∃ c1 c2, l = c1 ++ b :: c2 ∧ a ∈ c2 := by
  obtain ⟨c1, c2, rfl⟩ := List.append_of_mem hb
  refine ⟨c1, c2, rfl, ?_⟩
  rw [List.pairwise_append] at hp
  rcases List.mem_append.1 ha with h | h
  · have := hp.2.2 a h b (List.mem_cons_self _ _)
    omega
  · rcases List.mem_cons.1 h with h | h
    · omega
    · exact h

/-- C24, as stated, fails: on `sampleDevice` the input button, element 1, was
registered before the input value of the same report, element 3, both have a
value size of 4 bytes, and `createMemoryForElementValues` assigns offset 8 to
element 1 and the smaller offset 0 to element 3. -/
theorem value_offsets_reverse_registration :
    (∃ e1 e3, sampleDevice.elementArray[1]? = some e1 ∧ sampleDevice.elementArray[3]? = some e3 ∧
      e1.getReportType ≠ none ∧ e3.getReportType ≠ none ∧
      e1.elementValueSize = 4 ∧ e3.elementValueSize = 4) ∧
    ∃ m, createMemoryForElementValues sampleDevice true = some m ∧
      valueRange m.dev.elementArray 1 = some (8, 12) ∧
      valueRange m.dev.elementArray 3 = some (0, 4) :=
  ⟨⟨_, _, rfl, rfl, by decide, by decide, rfl, rfl⟩, _, rfl, by decide, by decide⟩

/-- C24, amended: the value memory is sliced in the traversal order of the
dispatch table, in which a chain lists its elements in reverse registration
order.  On a device with well-formed chains, of two elements `a` and `b` of
the same dispatch chain with `a` registered before `b` (`a < b` as cookies),
the range of `b` ends at or before the offset of `a`, so that `b` has the
smaller offset when its value size is not zero; and of two chained elements
the one that comes first in the traversal has the range that ends first. -/
theorem createMemoryForElementValues_chain_order (dev : IOHIDDevice) (hwf : ChainsWF dev)
    (order : List Nat) (horder : valueOrder dev = some order)
    (hsum : (order.map (valueSizeAt dev.elementArray)).sum < 2 ^ 32)
    (slot : Nat) (type : IOHIDReportType) (a b : Nat)
    (ha : OnChain dev.elementArray slot type a) (hb : OnChain dev.elementArray slot type b)
    (hab : a < b) :
    ∃ m ra rb, createMemoryForElementValues dev true = some m ∧
      valueRange m.dev.elementArray a = some ra ∧
      valueRange m.dev.elementArray b = some rb ∧
      rb.2 = rb.1 + valueSizeAt dev.elementArray b ∧
      rb.2 ≤ ra.1 ∧
      (valueSizeAt dev.elementArray b ≠ 0 → rb.1 < ra.1) ∧
      ∀ (l1 l2 : List Nat) (i j : Nat), order = l1 ++ i :: l2 → j ∈ l2 →
        ∀ ri rj, valueRange m.dev.elementArray i = some ri →
          valueRange m.dev.elementArray j = some rj → ri.2 ≤ rj.1 := by
  obtain ⟨m, hm, _, _, _, hlay, hsize⟩ :=
    createMemoryForElementValues_run dev hwf order horder hsum
  have hslot : slot < kReportHandlerSlots := by
    obtain ⟨e, _, _, hs⟩ := ha
    rw [← hs]
    exact getReportHandlerSlot_lt _
  obtain ⟨chain, hchain, hpw, hmem⟩ := hwf slot type
  have hlen := length_le_of_pairwise_lt hpw (isChain_lt hchain)
  have hcf := chainFrom_of_isChain hchain dev.elementArray.length hlen
  obtain ⟨l1, chain1, l2, hc1, hsplit⟩ := chainedElements_split dev.elementArray.length
    dev.elementArray dev.reportHandlers slot type dispatchOrder order
    ((mem_dispatchOrder slot type).2 hslot) horder
  rw [hcf] at hc1
  cases hc1
  obtain ⟨c1, c2, hc, hac⟩ := pairwise_gt_split hpw ((hmem a).2 ha) ((hmem b).2 hb) hab
  have hord : order = (l1 ++ c1) ++ b :: (c2 ++ l2) := by
    rw [hsplit, hc]
    simp
  have hbo : b ∈ order := by rw [hord]; simp
  have hao : a ∈ order := by rw [hord]; simp [hac]
  obtain ⟨ra, hra, _, _, _⟩ := layout_bounds order 0 hlay a hao
  obtain ⟨rb, hrb, _, hrb2, _⟩ := layout_bounds order 0 hlay b hbo
  have hlay1 := hlay
  rw [hord] at hlay1
  have hle := layout_order (l1 ++ c1) 0 b (c2 ++ l2) hlay1 a (by simp [hac]) rb ra hrb hra
  rw [hsize] at hrb2
  refine ⟨m, ra, rb, hm, hra, hrb, hrb2, hle, by omega, ?_⟩
  intro k1 k2 i j hk hj ri rj hri hrj
  have hlay2 := hlay
  rw [hk] at hlay2
  exact layout_order k1 0 i k2 hlay2 j hj ri rj hri hrj

/-- The order theorem at `sampleDevice` for the elements 1 and 3 of the chain of
input report 1. -/
theorem createMemoryForElementValues_chain_order_witness :
    ChainsWF sampleDevice ∧ valueOrder sampleDevice = some [3, 2, 1] ∧
    (([3, 2, 1] : List Nat).map (valueSizeAt sampleDevice.elementArray)).sum < 2 ^ 32 ∧
    OnChain sampleDevice.elementArray 1 kIOHIDReportTypeInput 1 ∧
    OnChain sampleDevice.elementArray 1 kIOHIDReportTypeInput 3 ∧ 1 < 3 ∧
    ∃ m ra rb, createMemoryForElementValues sampleDevice true = some m ∧
      valueRange m.dev.elementArray 1 = some ra ∧
      valueRange m.dev.elementArray 3 = some rb ∧
      rb.2 = rb.1 + valueSizeAt sampleDevice.elementArray 3 ∧
      rb.2 ≤ ra.1 ∧
      (valueSizeAt sampleDevice.elementArray 3 ≠ 0 → rb.1 < ra.1) ∧
      ∀ (l1 l2 : List Nat) (i j : Nat), ([3, 2, 1] : List Nat) = l1 ++ i :: l2 → j ∈ l2 →
        ∀ ri rj, valueRange m.dev.elementArray i = some ri →
          valueRange m.dev.elementArray j = some rj → ri.2 ≤ rj.1 :=
  ⟨chainsWF_sampleDevice, by decide, by decide, ⟨_, rfl, rfl, by decide⟩, ⟨_, rfl, rfl, by decide⟩,
    by decide,
    createMemoryForElementValues_chain_order sampleDevice chainsWF_sampleDevice [3, 2, 1]
      (by decide) (by decide) 1 kIOHIDReportTypeInput 1 3 ⟨_, rfl, rfl, by decide⟩
      ⟨_, rfl, rfl, by decide⟩ (by decide)⟩

/-! ## Transactions: batches without a report -/

theorem getHeadElement_sameSlots (dev : IOHIDDevice)
    (handlers : Nat → IOHIDReportType → Option Nat)
    (h : SameSlots handlers dev.reportHandlers) (id : Nat) (type : IOHIDReportType) :
    GetHeadElement { dev with reportHandlers := handlers } (GetReportHandlerSlot id) type =
      GetHeadElement dev (GetReportHandlerSlot id) type :=
  h (GetReportHandlerSlot id) type (getReportHandlerSlot_lt id)

/-- The first loop of `postElementValues` reads the dispatch table in the
allocated slots only. -/
theorem postElementValuesLoop_sameSlots (reportAllocOk : Nat → Bool) (maxReportLength : Nat)
    (handlers : Nat → IOHIDReportType → Option Nat) (l : List Nat) :
    ∀ (st : PostLoopState), SameSlots handlers st.dev.reportHandlers →
      postElementValuesLoop reportAllocOk maxReportLength l
          { st with dev := { st.dev with reportHandlers := handlers } } =
        (postElementValuesLoop reportAllocOk maxReportLength l st).map
          (fun s => { s with dev := { s.dev with reportHandlers := handlers } }) := by
  induction l with
  | nil => intro st _; rfl
  | cons c rest ih =>
    intro st h
    simp only [postElementValuesLoop, GetElement]
    cases he : st.dev.elementArray[c]? with
    | none =>
      simp only []
      exact ih { st with index := st.index + 1 } h
    | some e =>
      simp only []
      split
      · exact ih { st with index := st.index + 1 } h
      · cases hty : e.getReportType with
        | none =>
          simp only []
          exact ih { st with index := st.index + 1 } h
        | some t =>
          simp only []
          split
          · rfl
          · rw [getHeadElement_sameSlots st.dev handlers h]
            cases hw : walkChain (postElementValuesStep e.reportID) st.dev.elementArray.length
                st.dev.elementArray (GetHeadElement st.dev (GetReportHandlerSlot e.reportID) t)
                { bytes := List.replicate maxReportLength 0, length := maxReportLength } with
            | none => rfl
            | some r =>
              simp only []
              exact ih
                { dev := { st.dev with elementArray := r.1 }, ret := st.ret,
                  index := st.index + 1, reportType := some t, reportID := some e.reportID,
                  pendingReports := st.pendingReports ++
                    [if st.dev.reportCount > 1 then
                      { bytes := r.2.bytes.set 0 e.reportID, length := r.2.length }
                     else r.2] } h

/-- C22: the table has 8 slots and `GetReportHandlerSlot id`, which is `id mod
8`, is below 8 for every report ID; so `registerElement` changes no table
entry outside the allocated slots, and `registerElement`, `handleReport`,
`setReportSize` and `postElementValues` read the table in the allocated slots
only: a table that agrees with the device's on these slots gives the same
results. -/
theorem dispatch_slot_in_range :
    kReportHandlerSlots = 8 ∧
    (∀ id, GetReportHandlerSlot id = id % 8 ∧ GetReportHandlerSlot id < kReportHandlerSlots) ∧
    (∀ (dev : IOHIDDevice) (element : IOHIDElement) (ok : Bool) (slot : Nat)
      (type : IOHIDReportType), kReportHandlerSlots ≤ slot →
      (registerElement dev element ok).2.2.reportHandlers slot type
        = dev.reportHandlers slot type) ∧
    (∀ (dev : IOHIDDevice) (handlers : Nat → IOHIDReportType → Option Nat)
      (element : IOHIDElement) (ok : Bool), SameSlots handlers dev.reportHandlers →
      ∃ handlers1, SameSlots handlers1 (registerElement dev element ok).2.2.reportHandlers ∧
        registerElement { dev with reportHandlers := handlers } element ok =
          ((registerElement dev element ok).1, (registerElement dev element ok).2.1,
            { (registerElement dev element ok).2.2 with reportHandlers := handlers1 })) ∧
    (∀ (dev : IOHIDDevice) (handlers : Nat → IOHIDReportType → Option Nat)
      (reportData : List Nat) (segmentSize : Nat) (mallocOk : Bool) (type : IOHIDReportType),
      SameSlots handlers dev.reportHandlers →
      handleReport { dev with reportHandlers := handlers } reportData segmentSize mallocOk type =
        (handleReport dev reportData segmentSize mallocOk type).map
          (fun r => { r with dev := { r.dev with reportHandlers := handlers } })) ∧
    (∀ (dev : IOHIDDevice) (handlers : Nat → IOHIDReportType → Option Nat)
      (reportID : Nat) (type : IOHIDReportType) (numberOfBits : Nat),
      SameSlots handlers dev.reportHandlers →
      setReportSize { dev with reportHandlers := handlers } reportID type numberOfBits =
        (setReportSize dev reportID type numberOfBits).map
          (fun r => (r.1, { r.2 with reportHandlers := handlers }))) ∧
    (∀ (dev : IOHIDDevice) (handlers : Nat → IOHIDReportType → Option Nat)
      (cookies : List Nat) (pendingReportsOk : Bool) (reportAllocOk : Nat → Bool)
      (tr : Transport), SameSlots handlers dev.reportHandlers →
      postElementValues { dev with reportHandlers := handlers } cookies pendingReportsOk
          reportAllocOk tr =
        (postElementValues dev cookies pendingReportsOk reportAllocOk tr).map
          (fun r => { r with dev := { r.dev with reportHandlers := handlers } })) := by
  refine ⟨rfl, fun id => ⟨GetReportHandlerSlot_eq_mod id, getReportHandlerSlot_lt id⟩,
    ?_, ?_, ?_, ?_, ?_⟩
  · intro dev element ok slot type hslot
    cases ok with
    | false => rw [registerElement_fail]
    | true =>
      cases hty : element.getReportType with
      | none => rw [registerElement_untyped dev element hty]
      | some t =>
        obtain ⟨e1, _, _, h⟩ := registerElement_typed dev element t hty
        rw [h]
        simp only [setHeadElement]
        have := getReportHandlerSlot_lt element.reportID
        rw [if_neg (by omega)]
  · intro dev handlers element ok h
    cases ok with
    | false =>
      exact ⟨handlers, by rw [registerElement_fail]; exact h,
        by rw [registerElement_fail, registerElement_fail]⟩
    | true =>
      cases hty : element.getReportType with
      | none =>
        refine ⟨handlers, by rw [registerElement_untyped dev element hty]; exact h, ?_⟩
        rw [registerElement_untyped dev element hty, registerElement_untyped _ element hty]
      | some t =>
        refine ⟨setHeadElement handlers (GetReportHandlerSlot element.reportID) t
          (some dev.elementArray.length), ?_, ?_⟩
        · intro slot type hs
          simp only [registerElement, hty, bne_self_eq_false, Bool.false_eq_true, ↓reduceIte,
            setHeadElement]
          split
          · rfl
          · exact h slot type hs
        · simp only [registerElement, hty, bne_self_eq_false, Bool.false_eq_true, ↓reduceIte]
          rw [h _ t (getReportHandlerSlot_lt element.reportID)]
  · intro dev handlers reportData segmentSize mallocOk type h
    unfold handleReport
    simp only []
    split
    · rfl
    · split
      · rfl
      · split
        · have hid : handleReportID { dev with reportHandlers := handlers } reportData =
              handleReportID dev reportData := rfl
          rw [getHeadElement_sameSlots dev handlers h, hid]
          cases walkChain (handleReportStep (handleReportID dev reportData) reportData)
            dev.elementArray.length dev.elementArray
            (GetHeadElement dev (GetReportHandlerSlot (handleReportID dev reportData)) type)
            (false, []) with
          | none => rfl
          | some r => rfl
        · rfl
  · intro dev handlers reportID type numberOfBits h
    unfold setReportSize
    rw [getHeadElement_sameSlots dev handlers h, Option.map_map]
    rfl
  · intro dev handlers cookies pendingReportsOk reportAllocOk tr h
    unfold postElementValues
    split
    · rfl
    · simp only []
      split
      · rfl
      · have hl := postElementValuesLoop_sameSlots reportAllocOk
          (max dev.maxOutputReportSize dev.maxFeatureReportSize) handlers cookies
          { dev := { dev with elementArray := (SetCookiesTransactionState dev.elementArray cookies
              kIOHIDTransactionStatePending 0).1 },
            ret := kIOReturnError, index := 0, reportType := none, reportID := none,
            pendingReports := [] } h
        simp only [] at hl
        rw [hl]
        cases postElementValuesLoop reportAllocOk
          (max dev.maxOutputReportSize dev.maxFeatureReportSize) cookies
          { dev := { dev with elementArray := (SetCookiesTransactionState dev.elementArray cookies
              kIOHIDTransactionStatePending 0).1 },
            ret := kIOReturnError, index := 0, reportType := none, reportID := none,
            pendingReports := [] } with
        | none => rfl
        | some st =>
          simp only [Option.map_some']
          cases st.reportType <;> cases st.reportID <;> rfl

/-! ## The scenario of a device with a single report -/

theorem getReportType_of_chainData {e e0 : IOHIDElement} (h : chainData e = chainData e0) :
    e.getReportType = e0.getReportType := by
  have ht : e.type = e0.type := congrArg (fun x => x.1) h
  unfold IOHIDElement.getReportType
  rw [ht]

theorem reportID_of_chainData {e e0 : IOHIDElement} (h : chainData e = chainData e0) :
    e.reportID = e0.reportID := congrArg (fun x => x.2.1) h

theorem next_of_chainData {e e0 : IOHIDElement} (h : chainData e = chainData e0) :
    e.nextReportHandler = e0.nextReportHandler := congrArg (fun x => x.2.2) h

theorem reportKey_of_chainData {e e0 : IOHIDElement} (h : chainData e = chainData e0) :
    reportKey e = reportKey e0 := by
  unfold reportKey
  rw [getReportType_of_chainData h, reportID_of_chainData h]

/-- Elements at the same index of two tables with the same chain data have
the same chain data. -/
theorem getElem?_of_chainData {arr arr0 : List IOHIDElement}
    (h : arr.map chainData = arr0.map chainData) (i : Nat) :
    (arr[i]? = none ∧ arr0[i]? = none) ∨
      ∃ e e0, arr[i]? = some e ∧ arr0[i]? = some e0 ∧ chainData e = chainData e0 := by
  have hi := getElem?_map_eq _ h i
  cases h1 : arr[i]? with
  | none =>
    rw [h1] at hi
    cases h2 : arr0[i]? with
    | none => exact Or.inl ⟨rfl, rfl⟩
    | some e => rw [h2] at hi; simp at hi
  | some e =>
    rw [h1] at hi
    cases h2 : arr0[i]? with
    | none => rw [h2] at hi; simp at hi
    | some e0 =>
      rw [h2] at hi
      simp only [Option.map_some', Option.some.injEq] at hi
      exact Or.inr ⟨e, e0, rfl, rfl, hi⟩

theorem isChain_of_chainData {arr arr0 : List IOHIDElement}
    (h : arr.map chainData = arr0.map chainData) (l : List Nat) :
    ∀ cur, IsChain arr0 cur l → IsChain arr cur l := by
  induction l with
  | nil =>
    intro cur hc
    cases cur with
    | none => trivial
    | some i => simp [IsChain] at hc
  | cons j l ih =>
    intro cur hc
    cases cur with
    | none => simp [IsChain] at hc
    | some i =>
      obtain ⟨rfl, e0, he0, hc⟩ := hc
      rcases getElem?_of_chainData h i with ⟨_, h2⟩ | ⟨e, e1, h1, h2, h3⟩
      · rw [he0] at h2; simp at h2
      · rw [he0] at h2
        simp only [Option.some.injEq] at h2
        subst h2
        refine ⟨rfl, e, h1, ?_⟩
        rw [next_of_chainData h3]
        exact ih _ hc

theorem onChain_of_chainData {arr arr0 : List IOHIDElement}
    (h : arr.map chainData = arr0.map chainData) (slot : Nat) (type : IOHIDReportType)
    (i : Nat) (hc : OnChain arr0 slot type i) : OnChain arr slot type i := by
  obtain ⟨e0, he0, ht, hs⟩ := hc
  rcases getElem?_of_chainData h i with ⟨_, h2⟩ | ⟨e, e1, h1, h2, h3⟩
  · rw [he0] at h2; simp at h2
  · rw [he0] at h2
    simp only [Option.some.injEq] at h2
    subst h2
    exact ⟨e, h1, by rw [getReportType_of_chainData h3]; exact ht,
      by rw [reportID_of_chainData h3]; exact hs⟩

/-- Well-formedness of the chains depends on the dispatch table and on the
chain data of the elements only. -/
theorem chainsWF_of_chainData {dev dev1 : IOHIDDevice}
    (hh : dev1.reportHandlers = dev.reportHandlers)
    (hm : dev1.elementArray.map chainData = dev.elementArray.map chainData)
    (hwf : ChainsWF dev) : ChainsWF dev1 := by
  intro slot type
  obtain ⟨l, hc, hp, hmem⟩ := hwf slot type
  refine ⟨l, ?_, hp, ?_⟩
  · rw [hh]
    exact isChain_of_chainData hm l _ hc
  · intro i
    rw [hmem]
    exact ⟨onChain_of_chainData hm slot type i, onChain_of_chainData hm.symm slot type i⟩

theorem chainsWF_sampleStarted : ChainsWF sampleStarted :=
  @chainsWF_of_chainData (registerElements emptyDevice scenarioCalls) sampleStarted rfl
    (by decide)
    (chainsWF_registerElements scenarioCalls emptyDevice (by decide) chainsWF_emptyDevice)

/-- C21, as stated, fails: the device built from 2 collections, an input button
(report ID 1, bit 0) and an input value (report ID 1, bits 1 to 8) has 4
elements and a report count of 1; routing `[0x01, 0x83]` as an input report
succeeds, but `processReport` is invoked on no element and the cached values
of the button and of the value element stay 0, not 1 and `0x41`. -/
theorem scenario_report_not_routed :
    (∃ dev1, parseReportDescriptor sampleEnv sampleCaps emptyDevice
        = some (kIOReturnSuccess, dev1)) ∧
    sampleStarted.elementArray.map describe =
      [(kIOHIDElementTypeCollection, 0, 0, 0), (kIOHIDElementTypeCollection, 0, 0, 0),
       (kIOHIDElementTypeInput_Button, 1, 0, 1), (kIOHIDElementTypeInput_Misc, 1, 1, 8)] ∧
    sampleStarted.reportCount = 1 ∧
    ∃ r button value,
      handleReport sampleStarted [0x01, 0x83] 2 true kIOHIDReportTypeInput = some r ∧
      r.ret = kIOReturnSuccess ∧ r.processed = [] ∧
      r.dev.elementArray[2]? = some button ∧ r.dev.elementArray[3]? = some value ∧
      button.value = 0 ∧ value.value = 0 ∧ button.value ≠ 1 ∧ value.value ≠ 0x41 :=
  ⟨⟨_, rfl⟩, by decide, rfl, _, _, _, rfl, rfl, rfl, rfl, rfl, rfl, rfl, by decide, by decide⟩

/-- C21, amended: on a ready device with well-formed dispatch chains whose
report count is not greater than one, `handleReport` on a non-empty buffer
returns success and routes the buffer under the implicit report ID 0, whatever
its first byte: `processReport` is invoked on elements of slot 0 only, and
every element with a non-zero report ID, such as the button and the value
element of the scenario, is left as it was. -/
theorem handleReport_single_report (dev : IOHIDDevice) (hwf : ChainsWF dev)
    (hready : dev.readyForInputReports = true) (hcount : dev.reportCount ≤ 1)
    (reportData : List Nat) (hne : reportData.length ≠ 0) (segmentSize : Nat) (mallocOk : Bool)
    (halloc : segmentSize = reportData.length ∨ mallocOk = true) (type : IOHIDReportType) :
    ∃ r, handleReport dev reportData segmentSize mallocOk type = some r ∧
      r.ret = kIOReturnSuccess ∧
      handleReportID dev reportData = 0 ∧
      (∀ i ∈ r.processed, OnChain dev.elementArray 0 type i) ∧
      (∀ (i : Nat) (e : IOHIDElement), dev.elementArray[i]? = some e → e.reportID ≠ 0 →
        r.dev.elementArray[i]? = some e) := by
  have hid : handleReportID dev reportData = 0 := by
    unfold handleReportID
    rw [if_neg (by omega)]
  obtain ⟨r, l, hr, _, _, hmem, hret, hproc, _, hin, hout, _⟩ :=
    handleReport_ready dev hwf reportData hne segmentSize mallocOk halloc hready type
  rw [hid] at hmem hin
  have hslot : GetReportHandlerSlot 0 = 0 := by decide
  rw [hslot] at hmem
  refine ⟨r, hr, hret, hid, ?_, ?_⟩
  · intro i hi
    rw [hproc] at hi
    exact (hmem i).1 hi
  · intro i e he hne0
    by_cases hil : i ∈ l
    · rw [hin i hil e he, processReport_of_ne e 0 reportData _ hne0]
    · rw [hout i hil, he]

/-- The single-report theorem at the scenario device and the buffer `[0x01,
0x83]`. -/
theorem handleReport_single_report_witness :
    ChainsWF sampleStarted ∧ sampleStarted.readyForInputReports = true ∧
    sampleStarted.reportCount ≤ 1 ∧ ([0x01, 0x83] : List Nat).length ≠ 0 ∧
    ((2 : Nat) = ([0x01, 0x83] : List Nat).length ∨ true = true) ∧
    ∃ r, handleReport sampleStarted [0x01, 0x83] 2 true kIOHIDReportTypeInput = some r ∧
      r.ret = kIOReturnSuccess ∧
      handleReportID sampleStarted [0x01, 0x83] = 0 ∧
      (∀ i ∈ r.processed, OnChain sampleStarted.elementArray 0 kIOHIDReportTypeInput i) ∧
      (∀ (i : Nat) (e : IOHIDElement), sampleStarted.elementArray[i]? = some e →
        e.reportID ≠ 0 → r.dev.elementArray[i]? = some e) :=
  ⟨chainsWF_sampleStarted, rfl, by decide, by decide, Or.inl rfl,
    handleReport_single_report sampleStarted chainsWF_sampleStarted rfl (by decide)
      [0x01, 0x83] (by decide) 2 true (Or.inl rfl) kIOHIDReportTypeInput⟩

/-! ## Transactions: the arguments of `setReport` -/

theorem processReport_chainData (e : IOHIDElement) (reportID : Nat) (reportData : List Nat)
    (bits : Nat) : chainData (e.processReport reportID reportData bits).2.1 = chainData e := by
  unfold IOHIDElement.processReport
  split <;> rfl

theorem processReport_idle (e : IOHIDElement) (reportID : Nat) (reportData : List Nat)
    (bits : Nat) (h : e.reportID = reportID) :
    (e.processReport reportID reportData bits).2.1.transactionState
      = kIOHIDTransactionStateIdle := by
  simp [IOHIDElement.processReport, h]

/-- `handleReport` changes values and transaction states of elements only. -/
theorem handleReport_frame (dev : IOHIDDevice) (reportData : List Nat) (segmentSize : Nat)
    (mallocOk : Bool) (type : IOHIDReportType) (r : HandleReportResult)
    (h : handleReport dev reportData segmentSize mallocOk type = some r) :
    r.dev.reportHandlers = dev.reportHandlers ∧ r.dev.reportCount = dev.reportCount ∧
    r.dev.readyForInputReports = dev.readyForInputReports ∧
    r.dev.elementArray.map chainData = dev.elementArray.map chainData := by
  unfold handleReport at h
  simp only [] at h
  split at h
  · cases h
    exact ⟨rfl, rfl, rfl, rfl⟩
  · split at h
    · cases h
      exact ⟨rfl, rfl, rfl, rfl⟩
    · split at h
      · cases hw : walkChain (handleReportStep (handleReportID dev reportData) reportData)
            dev.elementArray.length dev.elementArray
            (GetHeadElement dev (GetReportHandlerSlot (handleReportID dev reportData)) type)
            (false, []) with
        | none => rw [hw] at h; simp at h
        | some w =>
          rw [hw] at h
          simp only [Option.some.injEq] at h
          subst h
          refine ⟨rfl, rfl, rfl, ?_⟩
          exact walkChain_map chainData _
            (fun i e s => processReport_chainData e _ _ _) _ _ _ _ _ hw
      · cases h
        exact ⟨rfl, rfl, rfl, rfl⟩

/-- Routing the report fetched for a report without a fetch so far succeeds
and keeps the invariant of the loop of `updateElementValues`. -/
theorem updateInvariant_step (dev : IOHIDDevice) (hwf : ChainsWF dev)
    (hready : dev.readyForInputReports = true) (cookies : List Nat)
    (seen : List (IOHIDReportType × Nat)) (st : UpdateLoopState)
    (hinv : UpdateInvariant dev cookies seen st) (t : IOHIDReportType) (id : Nat)
    (reportData : List Nat) (hne : reportData.length ≠ 0)
    (hid : handleReportID dev reportData = id) :
    ∃ r, handleReport st.dev reportData reportData.length true t = some r ∧
      r.ret = kIOReturnSuccess ∧
      ∀ index, UpdateInvariant dev cookies (seen ++ [(t, id)])
        { dev := r.dev, ret := r.ret, index := index,
          fetched := st.fetched ++ [(t, id)] } := by
  obtain ⟨hh, hc, hrd, hmap, hf, hidle, hpen, _⟩ := hinv
  have hwf1 : ChainsWF st.dev := chainsWF_of_chainData hh hmap hwf
  have hid1 : handleReportID st.dev reportData = id := by
    rw [← hid]
    unfold handleReportID
    rw [hc]
  obtain ⟨r, l, hr, _, _, hmem, hret, _, _, hin, hout, _⟩ :=
    handleReport_ready st.dev hwf1 reportData hne reportData.length true (Or.inl rfl)
      (by rw [hrd]; exact hready) t
  rw [hid1] at hmem hin
  obtain ⟨f1, f2, f3, f4⟩ := handleReport_frame st.dev reportData reportData.length true t r hr
  refine ⟨r, hr, hret, ?_⟩
  intro index
  refine ⟨by rw [f1, hh], by rw [f2, hc], by rw [f3, hrd], by rw [f4, hmap], by rw [hf], ?_, ?_,
    fun _ => hret⟩
  · intro i e1 k hi hk hks
    have hi1 : r.dev.elementArray[i]? = some e1 := hi
    rw [List.mem_append, List.mem_singleton] at hks
    by_cases hil : i ∈ l
    · obtain ⟨e, he, _, _⟩ := (hmem i).1 hil
      rw [hin i hil e he] at hi1
      simp only [Option.some.injEq] at hi1
      subst hi1
      by_cases hre : e.reportID = id
      · exact processReport_idle e id reportData _ hre
      · rw [processReport_of_ne e id reportData _ hre] at hk ⊢
        rcases hks with hks | rfl
        · exact hidle i e k he hk hks
        · exact absurd (reportKey_eq_some.1 hk).2 hre
    · rw [hout i hil] at hi1
      rcases hks with hks | rfl
      · exact hidle i e1 k hi1 hk hks
      · exfalso
        apply hil
        rw [hmem]
        have := reportKey_eq_some.1 hk
        exact ⟨e1, hi1, this.1, by rw [this.2]⟩
  · intro c e1 k hcm hi hk hnin
    have hi1 : r.dev.elementArray[c]? = some e1 := hi
    rw [List.mem_append, List.mem_singleton, not_or] at hnin
    by_cases hil : c ∈ l
    · obtain ⟨e, he, het, _⟩ := (hmem c).1 hil
      rw [hin c hil e he] at hi1
      simp only [Option.some.injEq] at hi1
      subst hi1
      by_cases hre : e.reportID = id
      · exfalso
        apply hnin.2
        have hk1 : reportKey e = some k := by
          rw [← reportKey_of_chainData (processReport_chainData e id reportData _)]
          exact hk
        have h6 := reportKey_eq_some.1 hk1
        rw [het] at h6
        obtain ⟨k1, k2⟩ := k
        simp only [Option.some.injEq] at h6
        rw [← h6.1, ← h6.2, hre]
      · rw [processReport_of_ne e id reportData _ hre] at hk ⊢
        exact hpen c e k hcm he hk hnin.1
    · rw [hout c hil] at hi1
      exact hpen c e1 k hcm hi1 hk hnin.1

/-- The loop of `updateElementValues` on a ready device with well-formed chains
whose transport serves the reports of the handles: it ends, keeps the
invariant, and has fetched each distinct report of the handles once. -/
theorem updateElementValuesLoop_invariant (dev : IOHIDDevice) (hwf : ChainsWF dev)
    (hready : dev.readyForInputReports = true) (cookies : List Nat) (tr : Transport)
    (hserve : ServesReports dev cookies tr) :
    ∀ (l : List Nat) (seen : List (IOHIDReportType × Nat)) (st : UpdateLoopState),
      (∀ c ∈ l, c ∈ cookies) → UpdateInvariant dev cookies seen st →
      ∃ st2, updateElementValuesLoop tr l st = some st2 ∧
        UpdateInvariant dev cookies ((handleReports dev l).foldl noteFirst seen) st2 := by
  intro l
  induction l with
  | nil =>
    intro seen st _ hinv
    exact ⟨st, rfl, hinv⟩
  | cons c rest ih =>
    intro seen st hsub hinv
    have hsub1 : ∀ c1 ∈ rest, c1 ∈ cookies := fun c1 h1 => hsub c1 (List.mem_cons_of_mem _ h1)
    have hskip : ∀ (idx : Nat), UpdateInvariant dev cookies seen { st with index := idx } := by
      intro idx
      exact hinv
    have hinv0 := hinv
    obtain ⟨hh, hc, hrd, hmap, hf, hidle, hpen, hloc⟩ := hinv
    simp only [updateElementValuesLoop, GetElement]
    rcases getElem?_of_chainData hmap c with ⟨h1, h2⟩ | ⟨e, e0, h1, h2, h3⟩
    · rw [h1]
      simp only []
      rw [handleReports_cons_none rest (by simp [GetElement, h2])]
      exact ih seen _ hsub1 (hskip _)
    · rw [h1]
      simp only []
      have hkey := reportKey_of_chainData h3
      cases hk : reportKey e0 with
      | none =>
        rw [hk] at hkey
        have hty : e.getReportType = none := by
          unfold reportKey at hkey
          simpa using hkey
        rw [handleReports_cons_none rest (by simp [GetElement, h2, hk])]
        split
        · exact ih seen _ hsub1 (hskip _)
        · rw [hty]
          exact ih seen _ hsub1 (hskip _)
      | some k =>
        rw [hk] at hkey
        obtain ⟨hty, hid⟩ := reportKey_eq_some.1 hkey
        have hkm : k ∈ handleReports dev cookies := by
          unfold handleReports
          rw [List.mem_filterMap]
          exact ⟨c, hsub c (List.mem_cons_self _ _), by simp [GetElement, h2, hk]⟩
        rw [handleReports_cons_some rest (by simp [GetElement, h2, hk] : _ = some k)]
        simp only [List.foldl_cons]
        by_cases hin : k ∈ seen
        · have hi := hidle c e k h1 hkey hin
          have hnp : e.transactionState ≠ kIOHIDTransactionStatePending := by
            rw [hi]; decide
          rw [if_pos hnp]
          have hn : noteFirst seen k = seen := by
            unfold noteFirst
            rw [if_pos hin]
          rw [hn]
          exact ih seen _ hsub1 (hskip _)
        · have hp := hpen c e k (hsub c (List.mem_cons_self _ _)) h1 hkey hin
          have hnp : ¬(e.transactionState ≠ kIOHIDTransactionStatePending) := by
            rw [hp]; simp
          rw [if_neg hnp, hty]
          simp only []
          have hn : noteFirst seen k = seen ++ [k] := by
            unfold noteFirst
            rw [if_neg hin]
          rw [hn, hid]
          obtain ⟨s1, s2, s3⟩ := hserve st.fetched.length k hkm
          have hg : ¬((tr.getReport st.fetched.length k.1 k.2).1 ≠ kIOReturnSuccess) := by
            rw [s1]; simp
          rw [if_neg hg]
          obtain ⟨r, hr, hret, hstep⟩ := updateInvariant_step dev hwf hready cookies seen st
            hinv0 k.1 k.2 (tr.getReport st.fetched.length k.1 k.2).2 s2 s3
          rw [hr]
          simp only []
          have hr2 : ¬(r.ret ≠ kIOReturnSuccess) := by
            rw [hret]; simp
          rw [if_neg hr2]
          exact ih (seen ++ [k]) _ hsub1 (hstep (st.index + 1))

/-- C23: on a ready device with well-formed dispatch chains, when the transport
serves the reports of the handles, so that routing a fetched report clears the
Pending state of every element of that report, `updateElementValues` returns
and has called `getReport` once for each distinct `(report type, report ID)`
among the handles, in order of first appearance, and not once per handle; the
result is success when a report was fetched. -/
theorem updateElementValues_one_fetch_per_report (dev : IOHIDDevice) (hwf : ChainsWF dev)
    (hready : dev.readyForInputReports = true) (cookies : List Nat) (tr : Transport)
    (hserve : ServesReports dev cookies tr) :
    ∃ r, updateElementValues dev cookies true tr = some r ∧
      r.fetched = firstAppearances (handleReports dev cookies) ∧
      r.fetched.Nodup ∧
      (∀ k, k ∈ r.fetched ↔ k ∈ handleReports dev cookies) ∧
      (handleReports dev cookies ≠ [] → r.ret = kIOReturnSuccess) := by
  obtain ⟨st, hloop, hinv⟩ := updateElementValuesLoop_invariant dev hwf hready cookies tr hserve
    cookies []
    { dev := { dev with elementArray := (SetCookiesTransactionState dev.elementArray cookies
        kIOHIDTransactionStatePending 0).1 },
      ret := kIOReturnError, index := 0, fetched := [] }
    (fun c h => h)
    ⟨rfl, rfl, rfl, setCookiesTransactionState_map chainData (fun _ _ => rfl) _ _ _ _, rfl,
      fun i e k _ _ hin => by simp at hin,
      fun c e k hcm he _ _ => by
        obtain ⟨j, hj⟩ := List.mem_iff_getElem?.1 hcm
        exact setCookiesTransactionState_sets dev.elementArray cookies
          kIOHIDTransactionStatePending 0 j c e (Nat.zero_le _) hj he,
      fun h => absurd rfl h⟩
  obtain ⟨_, _, _, _, hf, _, _, hloc⟩ := hinv
  have hf1 : st.fetched = firstAppearances (handleReports dev cookies) := hf
  have hmem : ∀ k, k ∈ firstAppearances (handleReports dev cookies) ↔
      k ∈ handleReports dev cookies := by
    intro k
    unfold firstAppearances
    rw [mem_foldl_noteFirst]
    simp
  unfold updateElementValues
  simp only [Bool.true_eq_false, ↓reduceIte]
  rw [hloop]
  refine ⟨_, rfl, hf1, ?_, ?_, ?_⟩
  · show st.fetched.Nodup
    rw [hf1]
    exact foldl_noteFirst_nodup _ [] List.nodup_nil
  · intro k
    show k ∈ st.fetched ↔ _
    rw [hf1]
    exact hmem k
  · intro hne
    apply hloc
    intro hnil
    obtain ⟨k, hk⟩ := List.exists_mem_of_ne_nil _ hne
    have := (hmem k).2 hk
    change k ∈ (handleReports dev cookies).foldl noteFirst [] at this
    rw [hnil] at this
    simp at this

theorem servesReports_echoTransport : ServesReports sampleDevice [1, 3, 2, 1] echoTransport := by
  intro n k hk
  have h : handleReports sampleDevice [1, 3, 2, 1] =
      [(kIOHIDReportTypeInput, 1), (kIOHIDReportTypeInput, 1), (kIOHIDReportTypeInput, 9),
        (kIOHIDReportTypeInput, 1)] := by decide
  rw [h] at hk
  simp only [List.mem_cons, List.mem_singleton, List.not_mem_nil, or_false] at hk
  rcases hk with rfl | rfl | rfl | rfl <;>
    exact ⟨rfl, Nat.succ_ne_zero _, rfl⟩

/-- The fetch theorem at `sampleDevice` and the handles 1, 3, 2, 1, of which 1
and 3 belong to input report 1: two reports are fetched for four handles. -/
theorem updateElementValues_one_fetch_per_report_witness :
    ChainsWF sampleDevice ∧ sampleDevice.readyForInputReports = true ∧
    ServesReports sampleDevice [1, 3, 2, 1] echoTransport ∧
    firstAppearances (handleReports sampleDevice [1, 3, 2, 1]) =
      [(kIOHIDReportTypeInput, 1), (kIOHIDReportTypeInput, 9)] ∧
    ∃ r, updateElementValues sampleDevice [1, 3, 2, 1] true echoTransport = some r ∧
      r.fetched = firstAppearances (handleReports sampleDevice [1, 3, 2, 1]) ∧
      r.fetched.Nodup ∧
      (∀ k, k ∈ r.fetched ↔ k ∈ handleReports sampleDevice [1, 3, 2, 1]) ∧
      (handleReports sampleDevice [1, 3, 2, 1] ≠ [] → r.ret = kIOReturnSuccess) :=
  ⟨chainsWF_sampleDevice, rfl, servesReports_echoTransport, by decide,
    updateElementValues_one_fetch_per_report sampleDevice chainsWF_sampleDevice rfl [1, 3, 2, 1]
      echoTransport servesReports_echoTransport⟩

theorem recordParent_map {β : Type} (f : IOHIDElement → β)
    (hf : ∀ (e : IOHIDElement) (q : Option Nat), f { e with parent := q } = f e)
    (arr : List IOHIDElement) (p c : Nat) :
    (recordParent arr p c).map f = arr.map f := by
  unfold recordParent
  cases hc : arr[c]? with
  | none => rfl
  | some q => exact map_set_same f arr c q _ hc (hf _ _)

theorem attachChild_map_chainData (arr : List IOHIDElement) (p c : Nat) :
    (attachChild arr p c).map chainData = arr.map chainData := by
  unfold attachChild
  rw [recordParent_map chainData (fun _ _ => rfl), recordChild_map chainData (fun _ _ => rfl)]

/-- Attaching a child keeps the chains well formed. -/
theorem chainsWF_attachChild (dev : IOHIDDevice) (p c : Nat) (h : ChainsWF dev) :
    ChainsWF { dev with elementArray := attachChild dev.elementArray p c } :=
  @chainsWF_of_chainData dev { dev with elementArray := attachChild dev.elementArray p c } rfl
    (attachChild_map_chainData dev.elementArray p c) h

/-- `collectionElement`: the null result comes from the failed creation of the
element with the next index; otherwise the chains stay well formed. -/
theorem collectionElement_cases (env : BuildEnv) (dev : IOHIDDevice)
    (type : IOHIDElementType) (node : HIDCollectionNode) (hwf : ChainsWF dev) :
    (collectionElement env dev type node = none ∧
      env.elementOk dev.elementArray.length = false) ∨
    ∃ dev1, collectionElement env dev type node = some dev1 ∧ ChainsWF dev1 := by
  unfold collectionElement
  cases hok : env.elementOk dev.elementArray.length with
  | false =>
    rw [registerElement_fail]
    exact Or.inl ⟨rfl, rfl⟩
  | true =>
    have h1 := (registerElement_map describe (fun _ _ => rfl) dev (newElement type 0 0 0 0)).1
    simp only [h1, ↓reduceIte]
    exact Or.inr ⟨_, rfl, chainsWF_registerElement dev _ true rfl hwf⟩

theorem buttonElement_cases (env : BuildEnv) (dev : IOHIDDevice)
    (type : IOHIDElementType) (button : HIDButtonCapabilities) (parent : Option Nat)
    (hwf : ChainsWF dev) :
    (buttonElement env dev type button parent = none ∧
      env.elementOk dev.elementArray.length = false) ∨
    ∃ dev1, buttonElement env dev type button parent = some dev1 ∧ ChainsWF dev1 := by
  unfold buttonElement
  cases hok : env.elementOk dev.elementArray.length with
  | false =>
    rw [registerElement_fail]
    exact Or.inl ⟨rfl, rfl⟩
  | true =>
    have h1 := (registerElement_map describe (fun _ _ => rfl) dev
      (newElement type button.reportID button.startBit 1 (env.valueSize 1))).1
    have h2 := chainsWF_registerElement dev
      (newElement type button.reportID button.startBit 1 (env.valueSize 1)) true rfl hwf
    simp only [h1, ↓reduceIte]
    cases parent with
    | none => exact Or.inr ⟨_, rfl, h2⟩
    | some q => exact Or.inr ⟨_, rfl, chainsWF_attachChild _ q _ h2⟩

theorem valueElement_cases (env : BuildEnv) (dev : IOHIDDevice)
    (type : IOHIDElementType) (value : HIDValueCapabilities) (parent : Option Nat)
    (hwf : ChainsWF dev) :
    (valueElement env dev type value parent = none ∧
      env.elementOk dev.elementArray.length = false) ∨
    ∃ dev1, valueElement env dev type value parent = some dev1 ∧ ChainsWF dev1 := by
  unfold valueElement
  cases hok : env.elementOk dev.elementArray.length with
  | false =>
    rw [registerElement_fail]
    exact Or.inl ⟨rfl, rfl⟩
  | true =>
    have h1 := (registerElement_map describe (fun _ _ => rfl) dev
      (newElement type value.reportID value.startBit value.bitSize
        (env.valueSize value.bitSize))).1
    have h2 := chainsWF_registerElement dev
      (newElement type value.reportID value.startBit value.bitSize
        (env.valueSize value.bitSize)) true rfl hwf
    simp only [h1, ↓reduceIte]
    cases parent with
    | none => exact Or.inr ⟨_, rfl, h2⟩
    | some q => exact Or.inr ⟨_, rfl, chainsWF_attachChild _ q _ h2⟩

theorem length_of_map_describe_append {arr arr1 : List IOHIDElement}
    {l : List (IOHIDElementType × Nat × Nat × Nat)}
    (h : arr1.map describe = arr.map describe ++ l) : arr1.length = arr.length + l.length := by
  have := congrArg List.length h
  simpa using this

/-- The loop of `createCollectionElements` that creates the elements: it stops
at the first element that cannot be created, keeping those before it. -/
theorem createCollectionLoop_exact (env : BuildEnv) (nodes : List HIDCollectionNode) :
    ∀ dev : IOHIDDevice, ChainsWF dev → ∃ j, j ≤ nodes.length ∧
      (createCollectionLoop env nodes dev).2.elementArray.map describe =
        dev.elementArray.map describe ++
          (nodes.map (fun _ => (kIOHIDElementTypeCollection, 0, 0, 0))).take j ∧
      ((createCollectionLoop env nodes dev).1 = true → j = nodes.length) ∧
      ((createCollectionLoop env nodes dev).1 = false → j < nodes.length ∧
        env.elementOk (dev.elementArray.length + j) = false) ∧
      ChainsWF (createCollectionLoop env nodes dev).2 := by
  induction nodes with
  | nil =>
    intro dev hwf
    exact ⟨0, le_refl _, by simp [createCollectionLoop], fun _ => rfl,
      fun h => by simp [createCollectionLoop] at h, hwf⟩
  | cons node rest ih =>
    intro dev hwf
    simp only [createCollectionLoop]
    rcases collectionElement_cases env dev kIOHIDElementTypeCollection node hwf with
      ⟨hc, hok⟩ | ⟨dev2, hc, hwf2⟩
    · rw [hc]
      exact ⟨0, Nat.zero_le _, by simp, fun h => by simp at h,
        fun _ => ⟨by simp, by simpa using hok⟩, hwf⟩
    · rw [hc]
      obtain ⟨a1, _, _⟩ := collectionElement_some env dev dev2 _ node hc
      have hlen := length_of_map_describe_append a1
      obtain ⟨j, hj, b1, b2, b3, b4⟩ := ih dev2 hwf2
      refine ⟨j + 1, by simp; omega, ?_, ?_, ?_, b4⟩
      · simp only []
        rw [b1, a1]
        simp
      · intro h
        simp only [List.length_cons]
        rw [b2 h]
      · intro h
        obtain ⟨c1, c2⟩ := b3 h
        refine ⟨by simp only [List.length_cons]; omega, ?_⟩
        rw [hlen] at c2
        simp only [List.length_singleton] at c2
        rw [← c2]
        congr 1
        omega

theorem createButtonLoop_exact (env : BuildEnv) (type : IOHIDElementType)
    (buttons : List HIDButtonCapabilities) :
    ∀ dev : IOHIDDevice, ChainsWF dev → ∃ j, j ≤ buttons.length ∧
      (createButtonLoop env type buttons dev).2.elementArray.map describe =
        dev.elementArray.map describe ++ (buttons.map (describeButton type)).take j ∧
      ((createButtonLoop env type buttons dev).1 = true → j = buttons.length) ∧
      ((createButtonLoop env type buttons dev).1 = false → j < buttons.length ∧
        env.elementOk (dev.elementArray.length + j) = false) ∧
      ChainsWF (createButtonLoop env type buttons dev).2 := by
  induction buttons with
  | nil =>
    intro dev hwf
    exact ⟨0, le_refl _, by simp [createButtonLoop], fun _ => rfl,
      fun h => by simp [createButtonLoop] at h, hwf⟩
  | cons button rest ih =>
    intro dev hwf
    simp only [createButtonLoop]
    rcases buttonElement_cases env dev type button
        (getObjectIndex dev.elementArray button.collection) hwf with
      ⟨hc, hok⟩ | ⟨dev2, hc, hwf2⟩
    · rw [hc]
      exact ⟨0, Nat.zero_le _, by simp, fun h => by simp at h,
        fun _ => ⟨by simp, by simpa using hok⟩, hwf⟩
    · rw [hc]
      obtain ⟨a1, _, _⟩ := buttonElement_some env dev dev2 _ button _ hc
      have hlen := length_of_map_describe_append a1
      obtain ⟨j, hj, b1, b2, b3, b4⟩ := ih dev2 hwf2
      refine ⟨j + 1, by simp; omega, ?_, ?_, ?_, b4⟩
      · simp only []
        rw [b1, a1]
        simp
      · intro h
        simp only [List.length_cons]
        rw [b2 h]
      · intro h
        obtain ⟨c1, c2⟩ := b3 h
        refine ⟨by simp only [List.length_cons]; omega, ?_⟩
        rw [hlen] at c2
        simp only [List.length_singleton] at c2
        rw [← c2]
        congr 1
        omega

theorem createValueLoop_exact (env : BuildEnv) (type : IOHIDElementType)
    (values : List HIDValueCapabilities) :
    ∀ dev : IOHIDDevice, ChainsWF dev → ∃ j, j ≤ values.length ∧
      (createValueLoop env type values dev).2.elementArray.map describe =
        dev.elementArray.map describe ++ (values.map (describeValue type)).take j ∧
      ((createValueLoop env type values dev).1 = true → j = values.length) ∧
      ((createValueLoop env type values dev).1 = false → j < values.length ∧
        env.elementOk (dev.elementArray.length + j) = false) ∧
      ChainsWF (createValueLoop env type values dev).2 := by
  induction values with
  | nil =>
    intro dev hwf
    exact ⟨0, le_refl _, by simp [createValueLoop], fun _ => rfl,
      fun h => by simp [createValueLoop] at h, hwf⟩
  | cons value rest ih =>
    intro dev hwf
    simp only [createValueLoop]
    rcases valueElement_cases env dev type value
        (getObjectIndex dev.elementArray value.collection) hwf with
      ⟨hc, hok⟩ | ⟨dev2, hc, hwf2⟩
    · rw [hc]
      exact ⟨0, Nat.zero_le _, by simp, fun h => by simp at h,
        fun _ => ⟨by simp, by simpa using hok⟩, hwf⟩
    · rw [hc]
      obtain ⟨a1, _, _⟩ := valueElement_some env dev dev2 _ value _ hc
      have hlen := length_of_map_describe_append a1
      obtain ⟨j, hj, b1, b2, b3, b4⟩ := ih dev2 hwf2
      refine ⟨j + 1, by simp; omega, ?_, ?_, ?_, b4⟩
      · simp only []
        rw [b1, a1]
        simp
      · intro h
        simp only [List.length_cons]
        rw [b2 h]
      · intro h
        obtain ⟨c1, c2⟩ := b3 h
        refine ⟨by simp only [List.length_cons]; omega, ?_⟩
        rw [hlen] at c2
        simp only [List.length_singleton] at c2
        rw [← c2]
        congr 1
        omega

/-- In a table whose parent references all point to smaller indices, the way
up from `q` does not meet a larger index `c`, given fuel for more than `q`
steps. -/
theorem onParentPath_decreasing (arr : List IOHIDElement)
    (hdec : ∀ (i : Nat) (e : IOHIDElement) (q : Nat),
      arr[i]? = some e → e.parent = some q → q < i) (c : Nat) :
    ∀ (fuel q : Nat), q < c → q < fuel → onParentPath fuel arr q c = false := by
  intro fuel
  induction fuel with
  | zero => intro q _ h; omega
  | succ fuel ih =>
    intro q hqc hqf
    simp only [onParentPath]
    rw [if_neg (by omega)]
    cases he : arr[q]? with
    | none => rfl
    | some e =>
      simp only []
      cases hp : e.parent with
      | none => rfl
      | some q1 =>
        simp only []
        have := hdec q e q1 he hp
        exact ih q1 (by omega) (by omega)

theorem attachChild_decreasing (arr : List IOHIDElement) (p c : Nat) (hpc : p < c)
    (hdec : ∀ (i : Nat) (e : IOHIDElement) (q : Nat),
      arr[i]? = some e → e.parent = some q → q < i) :
    ∀ (i : Nat) (e : IOHIDElement) (q : Nat),
      (attachChild arr p c)[i]? = some e → e.parent = some q → q < i := by
  intro i e q he hq
  have hm := attachChild_map_parent arr p c
  have h1 : ((attachChild arr p c).map (fun e => e.parent))[i]? = some (some q) := by
    rw [List.getElem?_map, he]
    simp [hq]
  rw [hm] at h1
  by_cases hic : c = i
  · subst hic
    rw [List.getElem?_set] at h1
    simp only [↓reduceIte] at h1
    by_cases hl : c < (arr.map (fun e => e.parent)).length
    · rw [if_pos hl] at h1
      simp only [Option.some.injEq] at h1
      omega
    · rw [if_neg hl] at h1
      simp at h1
  · rw [List.getElem?_set_ne hic, List.getElem?_map] at h1
    cases h2 : arr[i]? with
    | none => rw [h2] at h1; simp at h1
    | some e1 =>
      rw [h2] at h1
      simp only [Option.map_some', Option.some.injEq] at h1
      exact hdec i e1 q h2 h1

/-- Every link of the second loop of `createCollectionElements` is accepted when
each collection names a parent with a smaller index. -/
theorem linkCollectionLoop_parentsFirst (nodes : List HIDCollectionNode) :
    ∀ (index : Nat) (arr : List IOHIDElement),
      (∀ (k : Nat) (node : HIDCollectionNode), nodes[k]? = some node →
        node.parent < index + k) →
      index + nodes.length ≤ arr.length →
      (∀ (i : Nat) (e : IOHIDElement) (q : Nat),
        arr[i]? = some e → e.parent = some q → q < i) →
      (linkCollectionLoop nodes index arr).1 = true := by
  induction nodes with
  | nil => intro index arr _ _ _; rfl
  | cons node rest ih =>
    intro index arr hpar hlen hdec
    simp only [linkCollectionLoop]
    have hp : node.parent < index := by simpa using hpar 0 node (by simp)
    simp only [List.length_cons] at hlen
    rcases linkToParent_cases arr node.parent index with ⟨hl, _, _⟩ | ⟨hl, hno | hcyc⟩
    · rw [hl]
      simp only [↓reduceIte]
      apply ih
      · intro k nd hk
        have := hpar (k + 1) nd (by simpa using hk)
        omega
      · rw [attachChild_length]
        omega
      · exact attachChild_decreasing arr node.parent index hp hdec
    · rw [List.getElem?_eq_none_iff] at hno
      omega
    · rw [onParentPath_decreasing arr hdec index arr.length node.parent hp (by omega)] at hcyc
      simp at hcyc

theorem linkCollectionLoop_length (nodes : List HIDCollectionNode) :
    ∀ (index : Nat) (arr : List IOHIDElement),
      (linkCollectionLoop nodes index arr).2.length = arr.length := by
  intro index arr
  have := congrArg List.length (linkCollectionLoop_describe nodes index arr)
  simpa using this

theorem linkCollectionLoop_chainData (nodes : List HIDCollectionNode) :
    ∀ (index : Nat) (arr : List IOHIDElement),
      (linkCollectionLoop nodes index arr).2.map chainData = arr.map chainData := by
  induction nodes with
  | nil => intro index arr; rfl
  | cons node rest ih =>
    intro index arr
    simp only [linkCollectionLoop]
    rcases linkToParent_cases arr node.parent index with ⟨hl, _, _⟩ | ⟨hl, _⟩
    · rw [hl]
      simp only [↓reduceIte]
      rw [ih, attachChild_map_chainData]
    · rw [hl]
      simp

/-- The first loop of `createCollectionElements` creates elements without
parent. -/
theorem createCollectionLoop_parents (env : BuildEnv) (nodes : List HIDCollectionNode) :
    ∀ dev : IOHIDDevice, (∀ x ∈ dev.elementArray.map (fun e => e.parent), x = none) →
      ∀ x ∈ (createCollectionLoop env nodes dev).2.elementArray.map (fun e => e.parent),
        x = none := by
  induction nodes with
  | nil => intro dev h; exact h
  | cons node rest ih =>
    intro dev h
    simp only [createCollectionLoop]
    cases hc : collectionElement env dev kIOHIDElementTypeCollection node with
    | none => exact h
    | some dev2 =>
      simp only []
      obtain ⟨_, a2, _⟩ := collectionElement_some env dev dev2 _ node hc
      apply ih
      intro x hx
      rw [a2] at hx
      rcases List.mem_append.1 hx with hx | hx
      · exact h x hx
      · simpa using hx

/-- `createCollectionElements` on an empty table keeps the chains well formed,
and when it fails it has kept every element whose steps went well: no count
`n` of elements whose creations, array allocation, capability call and links
go well exceeds the length of the table it leaves. -/
theorem createCollectionElements_kept (env : BuildEnv) (p : HIDPreparsedData)
    (dev : IOHIDDevice) (maxCount : Nat) (hmax : maxCount = p.collectionNodes.length)
    (hempty : dev.elementArray = []) (hwf : ChainsWF dev) :
    ChainsWF (createCollectionElements env p dev maxCount).2 ∧
    ((createCollectionElements env p dev maxCount).1 = false → ∀ n : Nat,
      (∀ i, i < n → env.elementOk i = true) →
      (0 < n → env.collectionsMallocOk = true ∧ p.collectionNodesStatus = kHIDSuccess) →
      (p.collectionNodes.length < n → ParentsFirst p.collectionNodes) →
      n ≤ (createCollectionElements env p dev maxCount).2.elementArray.length) := by
  unfold createCollectionElements
  cases hm : env.collectionsMallocOk with
  | false =>
    simp only [↓reduceIte]
    refine ⟨hwf, fun _ n _ h0 _ => ?_⟩
    by_contra hn
    have := (h0 (by omega)).1
    simp at this
  | true =>
    simp only [Bool.true_eq_false, ↓reduceIte, HIDGetCollectionNodes, hmax, List.take_length]
    by_cases hs : p.collectionNodesStatus ≠ kHIDSuccess
    · rw [if_pos hs]
      refine ⟨hwf, fun _ n _ h0 _ => ?_⟩
      by_contra hn
      exact hs (h0 (by omega)).2
    · simp only [hs, ↓reduceIte]
      obtain ⟨j, hj, a1, a2, a3, a4⟩ := createCollectionLoop_exact env p.collectionNodes dev hwf
      have hlen := length_of_map_describe_append a1
      simp only [hempty, List.length_nil, Nat.zero_add, List.length_take, List.length_map] at hlen
      cases hc : (createCollectionLoop env p.collectionNodes dev).1 with
      | false =>
        simp only [↓reduceIte]
        refine ⟨a4, fun _ n hel _ _ => ?_⟩
        obtain ⟨b1, b2⟩ := a3 hc
        rw [hempty] at b2
        simp only [List.length_nil, Nat.zero_add] at b2
        by_contra hn
        have := hel j (by omega)
        rw [b2] at this
        simp at this
      | true =>
        simp only [Bool.true_eq_false, ↓reduceIte]
        have hj2 := a2 hc
        refine ⟨?_, fun hfalse n _ _ hpf => ?_⟩
        · exact @chainsWF_of_chainData (createCollectionLoop env p.collectionNodes dev).2
            { (createCollectionLoop env p.collectionNodes dev).2 with
              elementArray := (linkCollectionLoop (p.collectionNodes.drop 1) 1
                (createCollectionLoop env p.collectionNodes dev).2.elementArray).2 }
            rfl (linkCollectionLoop_chainData _ _ _) a4
        · simp only [linkCollectionLoop_length]
          rw [hj2, Nat.min_self] at hlen
          rw [hlen]
          by_contra hn
          have hpf1 := hpf (by omega)
          have hall := createCollectionLoop_parents env p.collectionNodes dev
            (by simp [hempty])
          have : (linkCollectionLoop (p.collectionNodes.drop 1) 1
              (createCollectionLoop env p.collectionNodes dev).2.elementArray).1 = true := by
            by_cases hnil : p.collectionNodes = []
            · rw [hnil]
              rfl
            have hpos : 0 < p.collectionNodes.length := List.length_pos.2 hnil
            apply linkCollectionLoop_parentsFirst
            · intro k node hk
              rw [List.getElem?_drop] at hk
              have := hpf1 (1 + k) node hk (by omega)
              omega
            · rw [hlen]
              simp only [List.length_drop]
              omega
            · intro i e q he hq
              have := hall (e.parent) (List.mem_map.2 ⟨e, List.getElem?_mem he, rfl⟩)
              rw [hq] at this
              simp at this
          rw [this] at hfalse
          simp at hfalse

/-- `createButtonElements` keeps the chains well formed, and when it fails it
has kept every element whose steps went well. -/
theorem createButtonElements_kept (env : BuildEnv) (p : HIDPreparsedData)
    (dev : IOHIDDevice) (hid : HIDReportType) (type : IOHIDElementType) (maxCount : Nat)
    (hmax : maxCount = (p.buttonCaps hid).length) (hwf : ChainsWF dev) :
    ChainsWF (createButtonElements env p dev hid type maxCount).2 ∧
    ((createButtonElements env p dev hid type maxCount).1 = false → ∀ n : Nat,
      (∀ i, i < n → env.elementOk i = true) →
      (dev.elementArray.length < n → buttonStageOk env p hid = true) →
      n ≤ (createButtonElements env p dev hid type maxCount).2.elementArray.length) := by
  unfold createButtonElements
  by_cases h0 : maxCount = 0
  · simp only [h0, ↓reduceIte]
    exact ⟨hwf, fun h => by cases h⟩
  · simp only [h0, ↓reduceIte]
    have hne : (p.buttonCaps hid).length ≠ 0 := by rw [← hmax]; exact h0
    cases hm : env.buttonsMallocOk hid with
    | false =>
      simp only [↓reduceIte]
      refine ⟨hwf, fun _ n _ hst => ?_⟩
      by_contra hn
      have := hst (by omega)
      unfold buttonStageOk at this
      simp [hne, hm] at this
    | true =>
      simp only [Bool.true_eq_false, ↓reduceIte, HIDGetButtonCapabilities, hmax,
        List.take_length]
      by_cases hs : p.buttonCapsStatus hid ≠ kHIDSuccess
      · rw [if_pos hs]
        refine ⟨hwf, fun _ n _ hst => ?_⟩
        by_contra hn
        have := hst (Nat.lt_of_not_le hn)
        unfold buttonStageOk at this
        simp [hne, hm] at this
        exact hs this
      · simp only [hs, ↓reduceIte]
        obtain ⟨j, hj, a1, a2, a3, a4⟩ :=
          createButtonLoop_exact env type (p.buttonCaps hid) dev hwf
        have hlen := length_of_map_describe_append a1
        simp only [List.length_take, List.length_map] at hlen
        refine ⟨a4, fun hfalse n hel _ => ?_⟩
        obtain ⟨b1, b2⟩ := a3 hfalse
        by_contra hn
        have := hel (dev.elementArray.length + j) (by omega)
        rw [b2] at this
        simp at this

/-- `createValueElements` keeps the chains well formed, and when it fails it has
kept every element whose steps went well. -/
theorem createValueElements_kept (env : BuildEnv) (p : HIDPreparsedData)
    (dev : IOHIDDevice) (hid : HIDReportType) (type : IOHIDElementType) (maxCount : Nat)
    (hmax : maxCount = (p.valueCaps hid).length) (hwf : ChainsWF dev) :
    ChainsWF (createValueElements env p dev hid type maxCount).2 ∧
    ((createValueElements env p dev hid type maxCount).1 = false → ∀ n : Nat,
      (∀ i, i < n → env.elementOk i = true) →
      (dev.elementArray.length < n → valueStageOk env p hid = true) →
      n ≤ (createValueElements env p dev hid type maxCount).2.elementArray.length) := by
  unfold createValueElements
  by_cases h0 : maxCount = 0
  · simp only [h0, ↓reduceIte]
    exact ⟨hwf, fun h => by cases h⟩
  · simp only [h0, ↓reduceIte]
    have hne : (p.valueCaps hid).length ≠ 0 := by rw [← hmax]; exact h0
    cases hm : env.valuesMallocOk hid with
    | false =>
      simp only [↓reduceIte]
      refine ⟨hwf, fun _ n _ hst => ?_⟩
      by_contra hn
      have := hst (by omega)
      unfold valueStageOk at this
      simp [hne, hm] at this
    | true =>
      simp only [Bool.true_eq_false, ↓reduceIte, HIDGetValueCapabilities, hmax,
        List.take_length]
      by_cases hs : p.valueCapsStatus hid ≠ kHIDSuccess
      · rw [if_pos hs]
        refine ⟨hwf, fun _ n _ hst => ?_⟩
        by_contra hn
        have := hst (Nat.lt_of_not_le hn)
        unfold valueStageOk at this
        simp [hne, hm] at this
        exact hs this
      · simp only [hs, ↓reduceIte]
        obtain ⟨j, hj, a1, a2, a3, a4⟩ :=
          createValueLoop_exact env type (p.valueCaps hid) dev hwf
        have hlen := length_of_map_describe_append a1
        simp only [List.length_take, List.length_map] at hlen
        refine ⟨a4, fun hfalse n hel _ => ?_⟩
        obtain ⟨b1, b2⟩ := a3 hfalse
        by_contra hn
        have := hel (dev.elementArray.length + j) (by omega)
        rw [b2] at this
        simp at this

/-- A device with an empty table and empty heads has well-formed chains. -/
theorem chainsWF_of_empty (dev : IOHIDDevice) (hempty : dev.elementArray = [])
    (hheads : ∀ s t, dev.reportHandlers s t = none) : ChainsWF dev := by
  intro slot type
  refine ⟨[], ?_, List.Pairwise.nil, ?_⟩
  · rw [hheads]
    trivial
  · intro i
    simp [OnChain, hempty]

/-- In a device with well-formed chains, every element with a report type is
reached from the head of its dispatch chain, which therefore is set and is not
below the element. -/
theorem head_of_chainsWF (dev : IOHIDDevice) (hwf : ChainsWF dev) (i : Nat)
    (e : IOHIDElement) (t : IOHIDReportType) (he : dev.elementArray[i]? = some e)
    (ht : e.getReportType = some t) :
    ∃ head, dev.reportHandlers (GetReportHandlerSlot e.reportID) t = some head ∧ i ≤ head := by
  obtain ⟨l, hc, hp, hmem⟩ := hwf (GetReportHandlerSlot e.reportID) t
  have hi : i ∈ l := (hmem i).2 ⟨e, he, ht, rfl⟩
  cases l with
  | nil => simp at hi
  | cons j l =>
    cases hh : dev.reportHandlers (GetReportHandlerSlot e.reportID) t with
    | none =>
      rw [hh] at hc
      exact absurd hc (by simp [IsChain])
    | some head =>
      rw [hh] at hc
      simp only [IsChain] at hc
      refine ⟨head, rfl, ?_⟩
      rw [hc.1]
      rcases List.mem_cons.1 hi with h1 | h1
      · omega
      · have := (List.pairwise_cons.1 hp).1 i h1
        omega

theorem length_of_map_describe_eq {arr : List IOHIDElement}
    {l : List (IOHIDElementType × Nat × Nat × Nat)}
    (h : arr.map describe = l) : arr.length = l.length := by
  have := congrArg List.length h
  simpa using this

/-- A failed `createElementHierarchy` leaves well-formed chains and a table
that holds every element whose steps went well. -/
theorem createElementHierarchy_kept (env : BuildEnv) (p : HIDPreparsedData)
    (dev dev1 : IOHIDDevice) (ret : IOReturn) (hwf : CapsWellFormed p)
    (hempty : dev.elementArray = []) (hheads : ∀ s t, dev.reportHandlers s t = none)
    (h : createElementHierarchy env p dev = some (ret, dev1))
    (hret : ret ≠ kIOReturnSuccess) :
    ChainsWF dev1 ∧ ∀ n, BuildsUpTo env p n → n ≤ dev1.elementArray.length := by
  obtain ⟨w1, w2, w3, w4, w5, w6, w7⟩ := hwf
  have hwf0 := chainsWF_of_empty dev hempty hheads
  unfold createElementHierarchy at h
  by_cases g1 : p.capabilitiesStatus ≠ kHIDSuccess
  · rw [if_pos g1] at h
    simp only [Option.some.injEq, Prod.mk.injEq] at h
    rw [← h.2]
    refine ⟨hwf0, fun n hn => ?_⟩
    by_contra hlt
    exact g1 (hn.2.2.1 (by omega)).1
  rw [if_neg g1] at h
  simp only [] at h
  by_cases g2 : env.elementArrayOk = false
  · rw [if_pos g2] at h
    simp only [Option.some.injEq, Prod.mk.injEq] at h
    rw [← h.2]
    refine ⟨hwf0, fun n hn => ?_⟩
    by_contra hlt
    have := (hn.2.2.1 (by simp only [hempty, List.length_nil] at hlt; omega)).2.1
    rw [g2] at this
    simp at this
  rw [if_neg g2] at h
  have hwfs : ChainsWF { dev with
      elementArray := []
      maxInputReportSize := p.caps.inputReportByteLength
      maxOutputReportSize := p.caps.outputReportByteLength
      maxFeatureReportSize := p.caps.featureReportByteLength } :=
    chainsWF_of_empty _ rfl hheads
  -- collections
  obtain ⟨k0, f0⟩ := createCollectionElements_kept env p
    { dev with
      elementArray := []
      maxInputReportSize := p.caps.inputReportByteLength
      maxOutputReportSize := p.caps.outputReportByteLength
      maxFeatureReportSize := p.caps.featureReportByteLength }
    p.caps.numberCollectionNodes w1 rfl hwfs
  rcases orBreak_cases _ _ _ h with ⟨s0, hx⟩ | ⟨s0, h⟩
  · simp only [Prod.mk.injEq] at hx
    rw [hx.2]
    exact ⟨k0, fun n hn => f0 s0 n hn.2.1 (fun h0 => (hn.2.2.1 h0).2.2) hn.2.2.2.1⟩
  obtain ⟨c1, _⟩ := createCollectionElements_true env p _ _ _ w1 rfl (Prod.ext s0 rfl)
  have l0 := length_of_map_describe_eq c1
  simp only [List.length_map] at l0
  -- input buttons
  obtain ⟨k1, f1⟩ := createButtonElements_kept env p
    { (createCollectionElements env p
        { dev with
          elementArray := []
          maxInputReportSize := p.caps.inputReportByteLength
          maxOutputReportSize := p.caps.outputReportByteLength
          maxFeatureReportSize := p.caps.featureReportByteLength }
        p.caps.numberCollectionNodes).2 with
      dataElementIndex := (createCollectionElements env p
        { dev with
          elementArray := []
          maxInputReportSize := p.caps.inputReportByteLength
          maxOutputReportSize := p.caps.outputReportByteLength
          maxFeatureReportSize := p.caps.featureReportByteLength }
        p.caps.numberCollectionNodes).2.elementArray.length }
    kHIDInputReport kIOHIDElementTypeInput_Button _ w2 k0
  rcases orBreak_cases _ _ _ h with ⟨s1, hx⟩ | ⟨s1, h⟩
  · simp only [Prod.mk.injEq] at hx
    rw [hx.2]
    refine ⟨k1, fun n hn => f1 s1 n hn.2.1 (fun hlt => ?_)⟩
    simp only [] at hlt
    rw [l0] at hlt
    exact hn.2.2.2.2 (_, buttonStageOk env p kHIDInputReport) (List.Mem.head _) hlt
  obtain ⟨x1, _, _⟩ := createButtonElements_true env p _ _ _ _ w2 s1
  simp only [] at x1
  rw [c1] at x1
  have l1 := length_of_map_describe_eq x1
  simp only [List.length_append, List.length_map] at l1
  -- output buttons
  obtain ⟨k2, f2⟩ := createButtonElements_kept env p
    (createButtonElements env p _ kHIDInputReport kIOHIDElementTypeInput_Button
      p.caps.numberInputButtonCaps).2
    kHIDOutputReport kIOHIDElementTypeOutput _ w3 k1
  rcases orBreak_cases _ _ _ h with ⟨s2, hx⟩ | ⟨s2, h⟩
  · simp only [Prod.mk.injEq] at hx
    rw [hx.2]
    refine ⟨k2, fun n hn => f2 s2 n hn.2.1 (fun hlt => ?_)⟩
    rw [l1] at hlt
    exact hn.2.2.2.2 (_, buttonStageOk env p kHIDOutputReport) (List.Mem.tail _ (List.Mem.head _)) hlt
  obtain ⟨x2, _, _⟩ := createButtonElements_true env p _ _ _ _ w3 s2
  rw [x1] at x2
  have l2 := length_of_map_describe_eq x2
  simp only [List.length_append, List.length_map] at l2
  -- feature buttons
  obtain ⟨k3, f3⟩ := createButtonElements_kept env p
    (createButtonElements env p _ kHIDOutputReport kIOHIDElementTypeOutput
      p.caps.numberOutputButtonCaps).2
    kHIDFeatureReport kIOHIDElementTypeFeature _ w4 k2
  rcases orBreak_cases _ _ _ h with ⟨s3, hx⟩ | ⟨s3, h⟩
  · simp only [Prod.mk.injEq] at hx
    rw [hx.2]
    refine ⟨k3, fun n hn => f3 s3 n hn.2.1 (fun hlt => ?_)⟩
    rw [l2] at hlt
    exact hn.2.2.2.2 (_, buttonStageOk env p kHIDFeatureReport) (List.Mem.tail _ (List.Mem.tail _ (List.Mem.head _))) hlt
  obtain ⟨x3, _, _⟩ := createButtonElements_true env p _ _ _ _ w4 s3
  rw [x2] at x3
  have l3 := length_of_map_describe_eq x3
  simp only [List.length_append, List.length_map] at l3
  -- input values
  obtain ⟨k4, f4⟩ := createValueElements_kept env p
    (createButtonElements env p _ kHIDFeatureReport kIOHIDElementTypeFeature
      p.caps.numberFeatureButtonCaps).2
    kHIDInputReport kIOHIDElementTypeInput_Misc _ w5 k3
  rcases orBreak_cases _ _ _ h with ⟨s4, hx⟩ | ⟨s4, h⟩
  · simp only [Prod.mk.injEq] at hx
    rw [hx.2]
    refine ⟨k4, fun n hn => f4 s4 n hn.2.1 (fun hlt => ?_)⟩
    rw [l3] at hlt
    exact hn.2.2.2.2 (_, valueStageOk env p kHIDInputReport) (List.Mem.tail _ (List.Mem.tail _ (List.Mem.tail _ (List.Mem.head _)))) hlt
  obtain ⟨x4, _, _⟩ := createValueElements_true env p _ _ _ _ w5 s4
  rw [x3] at x4
  have l4 := length_of_map_describe_eq x4
  simp only [List.length_append, List.length_map] at l4
  -- output values
  obtain ⟨k5, f5⟩ := createValueElements_kept env p
    (createValueElements env p _ kHIDInputReport kIOHIDElementTypeInput_Misc
      p.caps.numberInputValueCaps).2
    kHIDOutputReport kIOHIDElementTypeOutput _ w6 k4
  rcases orBreak_cases _ _ _ h with ⟨s5, hx⟩ | ⟨s5, h⟩
  · simp only [Prod.mk.injEq] at hx
    rw [hx.2]
    refine ⟨k5, fun n hn => f5 s5 n hn.2.1 (fun hlt => ?_)⟩
    rw [l4] at hlt
    exact hn.2.2.2.2 (_, valueStageOk env p kHIDOutputReport) (List.Mem.tail _ (List.Mem.tail _ (List.Mem.tail _ (List.Mem.tail _ (List.Mem.head _))))) hlt
  obtain ⟨x5, _, _⟩ := createValueElements_true env p _ _ _ _ w6 s5
  rw [x4] at x5
  have l5 := length_of_map_describe_eq x5
  simp only [List.length_append, List.length_map] at l5
  -- feature values
  obtain ⟨k6, f6⟩ := createValueElements_kept env p
    (createValueElements env p _ kHIDOutputReport kIOHIDElementTypeOutput
      p.caps.numberOutputValueCaps).2
    kHIDFeatureReport kIOHIDElementTypeFeature _ w7 k5
  rcases orBreak_cases _ _ _ h with ⟨s6, hx⟩ | ⟨s6, h⟩
  · simp only [Prod.mk.injEq] at hx
    rw [hx.2]
    refine ⟨k6, fun n hn => f6 s6 n hn.2.1 (fun hlt => ?_)⟩
    rw [l5] at hlt
    exact hn.2.2.2.2 (_, valueStageOk env p kHIDFeatureReport) (List.Mem.tail _ (List.Mem.tail _ (List.Mem.tail _ (List.Mem.tail _ (List.Mem.tail _ (List.Mem.head _)))))) hlt
  obtain ⟨x6, _, _⟩ := createValueElements_true env p _ _ _ _ w7 s6
  rw [x5] at x6
  -- value memory
  cases hm : createMemoryForElementValues
      (createValueElements env p _ kHIDFeatureReport kIOHIDElementTypeFeature
        p.caps.numberFeatureValueCaps).2 env.descriptorOk with
  | none =>
    rw [hm] at h
    simp at h
  | some m =>
    rw [hm] at h
    obtain ⟨m1, _, _⟩ := createMemoryForElementValues_map describe (fun _ _ => rfl) _ _ m hm
    obtain ⟨m2, _, m3⟩ := createMemoryForElementValues_map chainData (fun _ _ => rfl) _ _ m hm
    cases hd : m.descriptor with
    | none =>
      simp only [hd, Option.some.injEq, Prod.mk.injEq] at h
      rw [← h.2]
      refine ⟨chainsWF_of_chainData m3 m2 k6, fun n hn => ?_⟩
      have l6 := length_of_map_describe_eq (m1.trans x6)
      rw [l6]
      exact hn.1
    | some capacity =>
      simp only [hd, Option.some.injEq, Prod.mk.injEq] at h
      exact absurd h.1.symm hret

/-- C14, amended: whenever `createElementHierarchy` returns an error for a
well-formed capability source, on a device whose element table and dispatch
heads were empty, it has released nothing it built.  The table holds exactly an
initial segment of the table of the complete build; whenever every step needed
for the first `n` elements goes well, at least these `n` elements are in the
table; the dispatch chains are well formed, so that every element with a report
type is still on its chain; and the head of the chain of every such element is
set, to an element not below it. -/
theorem createElementHierarchy_error_keeps_built (env : BuildEnv) (p : HIDPreparsedData)
    (dev dev1 : IOHIDDevice) (ret : IOReturn) (hwf : CapsWellFormed p)
    (hempty : dev.elementArray = []) (hheads : ∀ s t, dev.reportHandlers s t = none)
    (h : createElementHierarchy env p dev = some (ret, dev1))
    (hret : ret ≠ kIOReturnSuccess) :
    dev1.elementArray.map describe = (expectedTable p).take dev1.elementArray.length ∧
    (∀ n, BuildsUpTo env p n → n ≤ dev1.elementArray.length) ∧
    ChainsWF dev1 ∧
    ∀ (i : Nat) (e : IOHIDElement) (t : IOHIDReportType),
      dev1.elementArray[i]? = some e → e.getReportType = some t →
      ∃ head, dev1.reportHandlers (GetReportHandlerSlot e.reportID) t = some head ∧
        i ≤ head := by
  obtain ⟨hc, hn⟩ := createElementHierarchy_kept env p dev dev1 ret hwf hempty hheads h hret
  refine ⟨?_, hn, hc, fun i e t he ht => head_of_chainsWF dev1 hc i e t he ht⟩
  obtain ⟨rest, hr⟩ := createElementHierarchy_leadingPart env p dev dev1 ret hwf hempty h
  rw [hr]
  have := List.take_left (dev1.elementArray.map describe) rest
  simp only [List.length_map] at this
  exact this.symm

/-- Every step needed for the first three elements of the build from
`failingValueCaps` goes well. -/
theorem buildsUpTo_failingValueCaps : BuildsUpTo sampleEnv failingValueCaps 3 := by
  refine ⟨by decide, fun _ _ => rfl, fun _ => ⟨rfl, rfl, rfl, rfl⟩, fun _ => ?_, ?_⟩
  · intro i node hi h1
    match i, hi, h1 with
    | 1, hi, _ =>
      simp only [failingValueCaps, sampleCaps] at hi
      cases hi
      decide
    | i + 2, hi, _ =>
      simp [failingValueCaps, sampleCaps] at hi
  · intro g hg hlt
    simp only [dataStages, List.mem_cons, List.mem_singleton, List.not_mem_nil, or_false] at hg
    rcases hg with hg | hg | hg | hg | hg | hg <;> subst hg
    · rfl
    all_goals exact absurd hlt (by decide)

/-- The amended failure theorem at the failed build from `failingValueCaps`:
the three elements whose steps went well are all in the table. -/
theorem createElementHierarchy_error_keeps_built_witness :
    CapsWellFormed failingValueCaps ∧ emptyDevice.elementArray = [] ∧
    (∀ s t, emptyDevice.reportHandlers s t = none) ∧
    createElementHierarchy sampleEnv failingValueCaps emptyDevice =
      some (kIOReturnNoMemory, sampleFailedBuild) ∧
    kIOReturnNoMemory ≠ kIOReturnSuccess ∧
    (sampleFailedBuild.elementArray.map describe =
      (expectedTable failingValueCaps).take sampleFailedBuild.elementArray.length ∧
    (∀ n, BuildsUpTo sampleEnv failingValueCaps n → n ≤ sampleFailedBuild.elementArray.length) ∧
    ChainsWF sampleFailedBuild ∧
    ∀ (i : Nat) (e : IOHIDElement) (t : IOHIDReportType),
      sampleFailedBuild.elementArray[i]? = some e → e.getReportType = some t →
      ∃ head, sampleFailedBuild.reportHandlers (GetReportHandlerSlot e.reportID) t =
          some head ∧ i ≤ head) :=
  ⟨by unfold CapsWellFormed; decide, rfl, fun _ _ => rfl, rfl, by decide,
    createElementHierarchy_error_keeps_built sampleEnv failingValueCaps emptyDevice
      sampleFailedBuild kIOReturnNoMemory (by unfold CapsWellFormed; decide) rfl
      (fun _ _ => rfl) rfl (by decide)⟩

end IOHIDFamily
